import Mathlib

/-!
# xytz download queue: queue state machine, download job and recovery store

A shallow embedding of the queue handling of `internal/app/update.go`
(`Model.Update` and its helpers `queueRemaining`, `pendingQueueURLs`,
`pendingQueueVideos`, `updateQueueUnfinished`, `resetDownloadState`), of the
progress case of `internal/models/download.go`, of the recovery store of
`internal/utils/unfinished.go`, of the download job of
`internal/utils/download.go` (`StartDownload`, `doDownload`) and of
`internal/utils/format_resolver.go`.  The progress parser, whose source is not
part of the files at hand, is modelled from its specification and its tests.

Conventions of the embedding

* Go `int` is `Int`; the only arithmetic is `QueueIndex++` under the guard
  `QueueIndex < QueueTotal`, so no wrap-around can occur.  `strconv.Atoi`
  reports the range error of a 64-bit `int`.
* Go `float64` values are carried as rationals: they are stored, copied,
  divided by 100 for the progress bar, truncated for the audio quality, and
  read from decimal numerals.
* `QueueStatus` is a Go string type, so it is a `String` here and the five
  constants are string constants.
* The recovery file is explicit state (`StoreFile`) threaded through every
  function that reads or writes it.  Writing is assumed to succeed; reading
  fails on an unreadable file.
* A Go runtime panic (slice index out of range) is the outcome `Outcome.panic`,
  which records the recovery file as it was when the panic happened.
* `Model.Update` returns a `tea.Cmd`; the only commands the embedded cases
  build are `nil` and `utils.StartDownload(.., req)`, whose closure runs later
  and is therefore not part of the transition.
* The closure of `StartDownload` and the goroutine `doDownload` are functions
  of what the operating system does with the command (`ProcessRun`): the
  goroutines that read the pipes and the lock of the download manager are not
  embedded.
* The key handler of `internal/models/download.go`, which decides when the
  view sends `SkipCurrentQueueItemMsg`, `RetryCurrentQueueItemMsg` and
  `CancelDownloadMsg`, enters as the predicate `Delivered` on a model and an
  event.
-/

namespace Xytz

/-! ## Data model (`internal/types`) -/

/-- Go `float64`, carried as data only. -/
abbrev Float64 := Rat

/-- The type `types.QueueStatus` (a Go string type). -/
abbrev QueueStatus := String

abbrev QueueStatusPending : QueueStatus := "pending"
abbrev QueueStatusDownloading : QueueStatus := "downloading"
abbrev QueueStatusComplete : QueueStatus := "complete"
abbrev QueueStatusError : QueueStatus := "error"
abbrev QueueStatusSkipped : QueueStatus := "skipped"

abbrev StateSearchInput : String := "search_input"
abbrev StateVideoList : String := "video_list"
abbrev StateDownload : String := "download"

/-- The struct `types.VideoItem`. -/
structure VideoItem where
  ID : String := ""
  VideoTitle : String := ""
  Desc : String := ""
  Views : Float64 := 0
  Duration : Float64 := 0
  Channel : String := ""
  deriving DecidableEq, Repr

/-- The method `VideoItem.Title`. -/
def VideoItem.Title (i : VideoItem) : String := i.VideoTitle

/-- The struct `types.QueueItem`. -/
structure QueueItem where
  Index : Int := 0
  Video : VideoItem := {}
  URL : String := ""
  Status : QueueStatus := ""
  Progress : Float64 := 0
  Speed : String := ""
  ETA : String := ""
  Error : String := ""
  Destination : String := ""
  deriving DecidableEq, Repr

/-- The struct `types.DownloadOption` (`KeyBinding` is a `tea.KeyType`, an integer). -/
structure DownloadOption where
  Name : String := ""
  KeyBinding : Int := 0
  ConfigField : String := ""
  RequiresFFmpeg : Bool := false
  Enabled : Bool := false
  deriving DecidableEq, Repr

/-- The struct `types.DownloadRequest`. -/
structure DownloadRequest where
  URL : String := ""
  FormatID : String := ""
  IsAudioTab : Bool := false
  ABR : Float64 := 0
  Title : String := ""
  QueueIndex : Int := 0
  QueueTotal : Int := 0
  URLs : List String := []
  Videos : List VideoItem := []
  UnfinishedKey : String := ""
  UnfinishedTitle : String := ""
  UnfinishedDesc : String := ""
  Options : List DownloadOption := []
  CookiesFromBrowser : String := ""
  Cookies : String := ""
  deriving DecidableEq, Repr

/-- The struct `types.DownloadResultMsg`. -/
structure DownloadResultMsg where
  Output : String := ""
  Err : String := ""
  Destination : String := ""
  QueueIndex : Int := 0
  QueueTotal : Int := 0
  deriving DecidableEq, Repr

/-- The struct `types.StartQueueDownloadMsg`. -/
structure StartQueueDownloadMsg where
  FormatID : String := ""
  IsAudioTab : Bool := false
  ABR : Float64 := 0
  DownloadOptions : List DownloadOption := []
  Videos : List VideoItem := []
  deriving DecidableEq, Repr

/-- The struct `types.StartQueueConfirmWithFormatMsg`. -/
structure StartQueueConfirmWithFormatMsg where
  Videos : List VideoItem := []
  FormatID : String := ""
  IsAudioTab : Bool := false
  ABR : Float64 := 0
  deriving DecidableEq, Repr

/-- The struct `types.StartResumeDownloadMsg`. -/
structure StartResumeDownloadMsg where
  URL : String := ""
  URLs : List String := []
  Videos : List VideoItem := []
  FormatID : String := ""
  Title : String := ""
  deriving DecidableEq, Repr

/-- The messages of `Model.Update` that drive the queue. -/
inductive Msg where
  | startResumeDownload (msg : StartResumeDownloadMsg)
  | downloadResult (msg : DownloadResultMsg)
  | cancelDownload
  | skipCurrentQueueItem
  | retryCurrentQueueItem
  | startQueueConfirmWithFormat (msg : StartQueueConfirmWithFormatMsg)
  | startQueueDownload (msg : StartQueueDownloadMsg)
  deriving DecidableEq, Repr

/-! ## Strings (`strings.TrimSpace`, `utils.BuildVideoURL`) -/

/-- Go `unicode.IsSpace`: the white-space code points that `strings.TrimSpace` removes. -/
def isSpace (c : Char) : Bool :=
  let n := c.toNat
  (9 ≤ n && n ≤ 13) || n == 32 || n == 0x85 || n == 0xA0 || n == 0x1680 ||
    (0x2000 ≤ n && n ≤ 0x200A) || n == 0x2028 || n == 0x2029 || n == 0x202F ||
    n == 0x205F || n == 0x3000

/-- Go `strings.TrimSpace` on the list of code points. -/
def trimSpaceChars (cs : List Char) : List Char :=
  ((cs.dropWhile isSpace).reverse.dropWhile isSpace).reverse

/-- Go `strings.TrimSpace`. -/
def TrimSpace (s : String) : String := String.mk (trimSpaceChars s.data)

/-- The function `utils.BuildVideoURL`. -/
def BuildVideoURL (videoID : String) : String :=
  "https://www.youtube.com/watch?v=" ++ videoID

/-- The function `utils.QueueUnfinishedKey`. -/
def QueueUnfinishedKey (query : String) : String := "queue:" ++ TrimSpace query

/-! ## Recovery store (`internal/utils/unfinished.go`) -/

/-- The struct `utils.UnfinishedDownload`; `Timestamp` is the instant of `time.Now()`. -/
structure UnfinishedDownload where
  URL : String := ""
  FormatID : String := ""
  Title : String := ""
  Desc : String := ""
  URLs : List String := []
  Videos : List VideoItem := []
  Timestamp : Nat := 0
  deriving DecidableEq, Repr

/-- The recovery file at `GetUnfinishedFilePath()`: absent, holding a JSON array
(an empty file reads as the empty array), or unreadable (read error or invalid
JSON). -/
inductive StoreFile where
  | missing
  | content (downloads : List UnfinishedDownload)
  | unreadable
  deriving DecidableEq, Repr

/-- The errors returned by the store operations. -/
inductive StoreErr where
  | ErrInvalidUnfinishedDownload
  | loadFailed
  deriving DecidableEq, Repr

/-- The function `utils.LoadUnfinished`. -/
def LoadUnfinished (f : StoreFile) : Except StoreErr (List UnfinishedDownload) :=
  match f with
  | .missing => .ok []
  | .content downloads => .ok downloads
  | .unreadable => .error .loadFailed

/-- The function `utils.SaveUnfinished`: the new file and the returned error. -/
def SaveUnfinished (downloads : List UnfinishedDownload) : StoreFile × Option StoreErr :=
  (.content downloads, none)

/-- The loop of `AddUnfinished`: overwrite the first entry with the same key;
`none` when the loop ends without a match. -/
def replaceFirst (download : UnfinishedDownload) :
    List UnfinishedDownload → Option (List UnfinishedDownload)
  | [] => none
  | d :: ds =>
    if d.URL = download.URL then some (download :: ds)
    else (replaceFirst download ds).map (fun r => d :: r)

/-- The function `utils.AddUnfinished`. -/
def AddUnfinished (f : StoreFile) (download : UnfinishedDownload) :
    StoreFile × Option StoreErr :=
  if download.URL = "" ∨ download.Title = "" then
    (f, some .ErrInvalidUnfinishedDownload)
  else
    match LoadUnfinished f with
    | .error e => (f, some e)
    | .ok downloads =>
      match replaceFirst download downloads with
      | some replaced => SaveUnfinished replaced
      | none => SaveUnfinished (downloads ++ [download])

/-- The function `utils.RemoveUnfinished`. -/
def RemoveUnfinished (f : StoreFile) (url : String) : StoreFile × Option StoreErr :=
  match LoadUnfinished f with
  | .error e => (f, some e)
  | .ok downloads => SaveUnfinished (downloads.filter (fun d => d.URL != url))

/-- The function `utils.GetUnfinishedByURL` (`none` is the nil pointer). -/
def GetUnfinishedByURL (f : StoreFile) (url : String) : Option UnfinishedDownload :=
  match LoadUnfinished f with
  | .error _ => none
  | .ok downloads => downloads.find? (fun d => d.URL == url)

/-! ## Application model (`internal/models/download.go`, `internal/app/app.go`) -/

/-- The external `progress.Model` of the bubbles library, reduced to the target
percentage that `SetPercent` stores. -/
structure ProgressModel where
  targetPercent : Float64 := 0
  deriving DecidableEq, Repr

/-- The library method `progress.Model.SetPercent`: the target is clamped to `[0, 1]`. -/
def ProgressModel.SetPercent (_p : ProgressModel) (v : Float64) : ProgressModel :=
  { targetPercent := max 0 (min 1 v) }

/-- The struct `models.DownloadModel` (the `DownloadManager` handle is left out). -/
structure DownloadModel where
  Progress : ProgressModel := {}
  SelectedVideo : VideoItem := {}
  CurrentSpeed : String := ""
  CurrentETA : String := ""
  Phase : String := ""
  Completed : Bool := false
  Paused : Bool := false
  Cancelled : Bool := false
  Destination : String := ""
  FileDestination : String := ""
  FileExtension : String := ""
  IsQueue : Bool := false
  QueueItems : List QueueItem := []
  QueueIndex : Int := 0
  QueueTotal : Int := 0
  QueueFormatID : String := ""
  QueueLabel : String := ""
  QueueIsAudioTab : Bool := false
  QueueABR : Float64 := 0
  QueueError : String := ""
  deriving DecidableEq, Repr

/-- The fields of `models.SearchModel` read by the queue handlers. -/
structure SearchModel where
  DownloadOptions : List DownloadOption := []
  CookiesFromBrowser : String := ""
  Cookies : String := ""
  deriving DecidableEq, Repr

/-- The field of `models.VideoListModel` read by the queue handlers. -/
structure VideoListModel where
  PlaylistName : String := ""
  deriving DecidableEq, Repr

/-- The fields of `models.FormatListModel` written by `resetDownloadState`. -/
structure FormatListModel where
  IsQueue : Bool := false
  QueueVideos : List VideoItem := []
  deriving DecidableEq, Repr

/-- The struct `app.Model`, restricted to the fields the queue handlers touch. -/
structure Model where
  Search : SearchModel := {}
  State : String := ""
  LoadingType : String := ""
  CurrentQuery : String := ""
  VideoList : VideoListModel := {}
  FormatList : FormatListModel := {}
  Download : DownloadModel := {}
  SelectedVideo : VideoItem := {}
  ErrMsg : String := ""
  deriving DecidableEq, Repr

/-- What a call of `Model.Update` sees outside the model: the recovery file, the
clock read by `time.Now()` and the download path of the loaded configuration
(read by `models.NewDownloadModel`). -/
structure World where
  file : StoreFile := .missing
  now : Nat := 0
  downloadPath : String := ""
  deriving DecidableEq, Repr

/-- The commands returned by the embedded cases of `Model.Update`. -/
inductive Cmd where
  | nil
  | StartDownload (req : DownloadRequest)
  deriving DecidableEq, Repr

/-- Result of one call of `Model.Update`: it returns the mutated model, the
recovery file and the command, or it panics. -/
inductive Outcome where
  | ret (m : Model) (file : StoreFile) (cmd : Cmd)
  | panic (file : StoreFile)
  deriving DecidableEq, Repr

/-- Go slice element access `s[i]` (or `&s[i]`) with a signed index; `none` is the
runtime panic "index out of range". -/
def indexAt {α : Type} (s : List α) (i : Int) : Option α :=
  if 0 ≤ i then s[i.toNat]? else none

/-- Store through an element pointer obtained by `indexAt`: `s[i] = v`. -/
def storeAt {α : Type} (s : List α) (i : Int) (v : α) : List α :=
  s.set i.toNat v

/-! ## Queue helpers (`internal/app/update.go`) -/

/-- The function `queueRemaining`. -/
def queueRemaining (items : List QueueItem) : Int :=
  items.foldl (fun count it =>
    if it.Status = QueueStatusPending ∨ it.Status = QueueStatusDownloading then count + 1
    else count) 0

/-- The function `pendingQueueURLs`. -/
def pendingQueueURLs (items : List QueueItem) : List String :=
  items.foldl (fun urls it =>
    if it.Status = QueueStatusPending ∨ it.Status = QueueStatusDownloading ∨
        it.Status = QueueStatusError then
      if it.URL ≠ "" then urls ++ [it.URL] else urls
    else urls) []

/-- The function `pendingQueueVideos`. -/
def pendingQueueVideos (items : List QueueItem) : List VideoItem :=
  items.foldl (fun videos it =>
    if it.Status = QueueStatusPending ∨ it.Status = QueueStatusDownloading ∨
        it.Status = QueueStatusError then
      if it.Video.ID ≠ "" ∨ it.Video.VideoTitle ≠ "" then videos ++ [it.Video] else videos
    else videos) []

/-- The function `updateQueueUnfinished`; errors of the store are only logged. -/
def updateQueueUnfinished (w : World) (query formatID : String) (remaining : Int)
    (urls : List String) (videos : List VideoItem) : StoreFile :=
  let label := TrimSpace query
  let label := if label = "" then "Queued downloads" else label
  let key := QueueUnfinishedKey label
  if remaining ≤ 0 then
    (RemoveUnfinished w.file key).1
  else if urls.length = 0 then
    w.file
  else
    let desc := toString remaining ++ " items left"
    let entry : UnfinishedDownload :=
      { URL := key, FormatID := formatID, Title := label, Desc := desc,
        URLs := urls, Videos := videos, Timestamp := w.now }
    (AddUnfinished w.file entry).1

/-- The function `models.NewDownloadModel`. -/
def NewDownloadModel (w : World) : DownloadModel :=
  { Progress := {}, Destination := w.downloadPath }

/-- The method `Model.resetDownloadState`. -/
def resetDownloadState (w : World) (m : Model) : Model :=
  let d := NewDownloadModel w
  let d := { d with
    QueueError := "", IsQueue := false, QueueItems := [], QueueIndex := 0,
    QueueTotal := 0, QueueFormatID := "", QueueLabel := "", QueueIsAudioTab := false,
    QueueABR := 0, Progress := d.Progress.SetPercent 0, CurrentSpeed := "",
    CurrentETA := "", Phase := "", Completed := false, Cancelled := false,
    Paused := false }
  { m with
    Download := d, SelectedVideo := {},
    FormatList := { m.FormatList with IsQueue := false, QueueVideos := [] } }

/-- The label computed at the top of `Model.Update`. -/
def queueLabel (m : Model) : String :=
  let queueLabel := TrimSpace m.Download.QueueLabel
  let queueLabel := if queueLabel = "" then TrimSpace m.CurrentQuery else queueLabel
  let queueLabel := if queueLabel = "" then TrimSpace m.VideoList.PlaylistName else queueLabel
  if queueLabel = "" then "Queued downloads" else queueLabel

/-- The loops that fill `QueueItems` from the videos: item `i` (0-based, offset by
`start`) gets `Index = i + 1`, the video, its URL and status Pending. -/
def buildQueueItems (url : VideoItem → String) : Nat → List VideoItem → List QueueItem
  | _, [] => []
  | start, v :: vs =>
    { Index := (start : Int) + 1, Video := v, URL := url v, Status := QueueStatusPending } ::
      buildQueueItems url (start + 1) vs

/-! ## `Model.Update` (`internal/app/update.go`) -/

/-- The body of the first block of the `DownloadResultMsg` case, applied to the
current item. -/
def applyResult (msg : DownloadResultMsg) (item : QueueItem) : QueueItem :=
  let item := if msg.Destination ≠ "" then { item with Destination := msg.Destination } else item
  if msg.Err ≠ "" then { item with Status := QueueStatusError, Error := msg.Err }
  else { item with Status := QueueStatusComplete }

/-- The loop of the `CancelDownloadMsg` case: every item from position `start`
(0-based) on that is Downloading becomes Pending. -/
def requeueFrom (start : Nat) (items : List QueueItem) : List QueueItem :=
  items.mapIdx (fun i it =>
    if start ≤ i ∧ it.Status = QueueStatusDownloading then
      { it with Status := QueueStatusPending }
    else it)

/-- The request built for the item at the (already advanced) current index in the
`DownloadResultMsg`, `SkipCurrentQueueItemMsg` and `RetryCurrentQueueItemMsg` cases. -/
def queueRequest (m : Model) (d : DownloadModel) (current : QueueItem) (remaining : Int) :
    DownloadRequest :=
  { URL := current.URL
    URLs := pendingQueueURLs d.QueueItems
    Videos := pendingQueueVideos d.QueueItems
    FormatID := d.QueueFormatID
    IsAudioTab := d.QueueIsAudioTab
    ABR := d.QueueABR
    QueueIndex := d.QueueIndex
    QueueTotal := d.QueueTotal
    UnfinishedKey := QueueUnfinishedKey d.QueueLabel
    UnfinishedTitle := d.QueueLabel
    UnfinishedDesc := toString remaining ++ " items left"
    Title := current.Video.Title
    Options := m.Search.DownloadOptions
    CookiesFromBrowser := m.Search.CookiesFromBrowser
    Cookies := m.Search.Cookies }

/-- The advance branch shared (textually) by the `DownloadResultMsg` and
`SkipCurrentQueueItemMsg` cases: `QueueIndex++`, the next item becomes
Downloading, the live fields are reset, the recovery entry is rewritten and the
next download is started. -/
def advance (w : World) (label : String) (m : Model) (d : DownloadModel) : Outcome :=
  let index := d.QueueIndex + 1
  match indexAt d.QueueItems (index - 1) with
  | none => .panic w.file
  | some next =>
    let next := { next with Status := QueueStatusDownloading }
    let d := { d with
      QueueIndex := index
      QueueItems := storeAt d.QueueItems (index - 1) next
      SelectedVideo := next.Video
      Progress := d.Progress.SetPercent 0
      CurrentSpeed := ""
      CurrentETA := ""
      Phase := "" }
    let remaining := queueRemaining d.QueueItems
    let file := updateQueueUnfinished w label d.QueueFormatID remaining
      (pendingQueueURLs d.QueueItems) (pendingQueueVideos d.QueueItems)
    .ret { m with Download := d } file (.StartDownload (queueRequest m d next remaining))

/-- The case `types.DownloadResultMsg` of `Model.Update`. -/
def updateDownloadResult (w : World) (m : Model) (msg : DownloadResultMsg) : Outcome :=
  let label := queueLabel m
  let m := { m with LoadingType := "" }
  let d := m.Download
  if d.IsQueue then
    let marked : Option (List QueueItem) :=
      if (d.QueueItems.length : Int) ≥ d.QueueIndex then
        match indexAt d.QueueItems (d.QueueIndex - 1) with
        | none => none
        | some item => some (storeAt d.QueueItems (d.QueueIndex - 1) (applyResult msg item))
      else some d.QueueItems
    match marked with
    | none => .panic w.file
    | some items =>
      let d := { d with QueueItems := items }
      if d.QueueIndex < d.QueueTotal then
        advance w label m d
      else
        let file := updateQueueUnfinished w label d.QueueFormatID 0 [] []
        .ret { m with Download := { d with QueueError := msg.Err, Completed := true } } file .nil
  else if msg.Err ≠ "" then
    if ¬ d.Cancelled then
      .ret { m with ErrMsg := msg.Err, State := StateSearchInput } w.file .nil
    else .ret m w.file .nil
  else
    .ret { m with Download := { d with Completed := true } } w.file .nil

/-- The case `types.CancelDownloadMsg` of `Model.Update`. -/
def updateCancelDownload (w : World) (m : Model) : Outcome :=
  let label := queueLabel m
  let d := { m.Download with Cancelled := true }
  if d.IsQueue then
    if d.QueueIndex - 1 < 0 then
      .panic w.file
    else
      let items := requeueFrom (d.QueueIndex - 1).toNat d.QueueItems
      let remaining := queueRemaining items
      let urls := pendingQueueURLs items
      let remaining := if remaining = 0 ∧ urls.length > 0 then (urls.length : Int) else remaining
      let file := updateQueueUnfinished w label d.QueueFormatID remaining urls
        (pendingQueueVideos items)
      .ret { m with Download := { d with QueueItems := items, Completed := true } } file .nil
  else
    let state := if m.SelectedVideo.ID = "" then StateSearchInput else StateVideoList
    .ret { m with Download := d, State := state, ErrMsg := "Download cancelled" } w.file .nil

/-- The case `types.SkipCurrentQueueItemMsg` of `Model.Update`. -/
def updateSkipCurrentQueueItem (w : World) (m : Model) : Outcome :=
  let label := queueLabel m
  let d := m.Download
  if ¬ d.IsQueue then
    .ret m w.file .nil
  else
    match indexAt d.QueueItems (d.QueueIndex - 1) with
    | none => .panic w.file
    | some item =>
      let d := { d with
        QueueItems := storeAt d.QueueItems (d.QueueIndex - 1)
          { item with Status := QueueStatusSkipped }
        QueueError := "" }
      if d.QueueIndex < d.QueueTotal then
        advance w label m d
      else
        let file := updateQueueUnfinished w label d.QueueFormatID 0 [] []
        .ret { m with Download := { d with Completed := true } } file .nil

/-- The case `types.RetryCurrentQueueItemMsg` of `Model.Update`. -/
def updateRetryCurrentQueueItem (w : World) (m : Model) : Outcome :=
  let d := m.Download
  if ¬ d.IsQueue then
    .ret m w.file .nil
  else
    match indexAt d.QueueItems (d.QueueIndex - 1) with
    | none => .panic w.file
    | some item =>
      let item := { item with Status := QueueStatusDownloading, Error := "" }
      let d := { d with
        QueueItems := storeAt d.QueueItems (d.QueueIndex - 1) item
        QueueError := ""
        Progress := d.Progress.SetPercent 0
        CurrentSpeed := ""
        CurrentETA := ""
        Phase := "" }
      let remaining := queueRemaining d.QueueItems
      .ret { m with Download := d } w.file (.StartDownload (queueRequest m d item remaining))

/-- The request built by the cases that start a queue (`StartQueueDownloadMsg`,
`StartQueueConfirmWithFormatMsg`, `StartResumeDownloadMsg`) for its first item. -/
def firstRequest (m : Model) (d : DownloadModel) (first : QueueItem) (label formatID : String)
    (isAudioTab : Bool) (abr : Float64) : DownloadRequest :=
  { URL := first.URL
    URLs := pendingQueueURLs d.QueueItems
    Videos := pendingQueueVideos d.QueueItems
    FormatID := formatID
    IsAudioTab := isAudioTab
    ABR := abr
    QueueIndex := 1
    QueueTotal := d.QueueTotal
    UnfinishedKey := QueueUnfinishedKey label
    UnfinishedTitle := label
    UnfinishedDesc := toString d.QueueTotal ++ " items left"
    Title := d.SelectedVideo.Title
    Options := m.Search.DownloadOptions
    CookiesFromBrowser := m.Search.CookiesFromBrowser
    Cookies := m.Search.Cookies }

/-- The body shared (textually) by the cases `types.StartQueueDownloadMsg` and
`types.StartQueueConfirmWithFormatMsg` of `Model.Update`.  The leading call
`m.DownloadManager.Cancel()` acts on the process manager only, which is outside
the model.  An empty video list panics at `Videos[0]`, before the recovery entry
is written. -/
def startQueue (w : World) (m : Model) (videos : List VideoItem) (formatID : String)
    (isAudioTab : Bool) (abr : Float64) : Outcome :=
  let label := queueLabel m
  let m := resetDownloadState w m
  let m := { m with State := StateDownload, LoadingType := "queue" }
  let d := { m.Download with
    IsQueue := true, QueueLabel := label, QueueTotal := (videos.length : Int), QueueIndex := 1 }
  match indexAt videos 0 with
  | none => .panic w.file
  | some selected =>
    let items := buildQueueItems (fun v => BuildVideoURL v.ID) 0 videos
    let d := { d with
      SelectedVideo := selected, QueueItems := items, QueueFormatID := formatID,
      QueueIsAudioTab := isAudioTab, QueueABR := abr }
    let file := updateQueueUnfinished w label formatID d.QueueTotal
      (pendingQueueURLs d.QueueItems) (pendingQueueVideos d.QueueItems)
    match indexAt d.QueueItems 0 with
    | none => .panic file
    | some first =>
      let first := { first with Status := QueueStatusDownloading }
      let d := { d with QueueItems := storeAt d.QueueItems 0 first }
      .ret { m with Download := d } file
        (.StartDownload (firstRequest m d first label formatID isAudioTab abr))

/-- The case `types.StartResumeDownloadMsg` of `Model.Update`. -/
def updateStartResumeDownload (w : World) (m : Model) (msg : StartResumeDownloadMsg) :
    Outcome :=
  let m := { m with
    State := StateDownload
    Download := { m.Download with Completed := false, Cancelled := false }
    LoadingType := "download" }
  if msg.URLs.length > 0 then
    let videos :=
      if msg.Videos.length = 0 then
        msg.URLs.map (fun u => ({ ID := u, VideoTitle := u } : VideoItem))
      else msg.Videos
    let label := if msg.Title = "" then "Queued downloads" else msg.Title
    match indexAt videos 0 with
    | none => .panic w.file
    | some selected =>
      let items := buildQueueItems (fun v => v.ID) 0 videos
      let d := { m.Download with
        IsQueue := true, QueueLabel := label, QueueTotal := (videos.length : Int),
        QueueIndex := 1, SelectedVideo := selected, QueueItems := items,
        QueueFormatID := msg.FormatID, QueueIsAudioTab := false, QueueABR := 0 }
      let file := updateQueueUnfinished w label msg.FormatID d.QueueTotal
        (pendingQueueURLs d.QueueItems) (pendingQueueVideos d.QueueItems)
      match indexAt d.QueueItems 0 with
      | none => .panic file
      | some first =>
        let first := { first with Status := QueueStatusDownloading }
        let d := { d with QueueItems := storeAt d.QueueItems 0 first }
        .ret { m with Download := d } file
          (.StartDownload (firstRequest m d first label msg.FormatID false 0))
  else
    let selected : VideoItem :=
      match msg.Videos with
      | v :: _ => v
      | [] =>
        if msg.Title ≠ "" then { ID := msg.URL, VideoTitle := msg.Title }
        else { VideoTitle := msg.Title }
    let req : DownloadRequest :=
      { URL := msg.URL, FormatID := msg.FormatID, IsAudioTab := false, ABR := 0,
        Title := selected.Title, Videos := [selected],
        Options := m.Search.DownloadOptions,
        CookiesFromBrowser := m.Search.CookiesFromBrowser, Cookies := m.Search.Cookies }
    .ret { m with Download := { m.Download with SelectedVideo := selected } } w.file
      (.StartDownload req)

/-- The method `Model.Update`, for the messages that drive the queue. -/
def Update (w : World) (m : Model) (msg : Msg) : Outcome :=
  match msg with
  | .startResumeDownload msg => updateStartResumeDownload w m msg
  | .downloadResult msg => updateDownloadResult w m msg
  | .cancelDownload => updateCancelDownload w m
  | .skipCurrentQueueItem => updateSkipCurrentQueueItem w m
  | .retryCurrentQueueItem => updateRetryCurrentQueueItem w m
  | .startQueueConfirmWithFormat msg => startQueue w m msg.Videos msg.FormatID msg.IsAudioTab msg.ABR
  | .startQueueDownload msg => startQueue w m msg.Videos msg.FormatID msg.IsAudioTab msg.ABR

/-! ## Queue states and reachability -/

/-- The four queue events of the state machine: OnResult, OnCancel, OnSkip, OnRetry. -/
def Msg.isQueueEvent : Msg → Bool
  | .downloadResult _ => true
  | .cancelDownload => true
  | .skipCurrentQueueItem => true
  | .retryCurrentQueueItem => true
  | _ => false

/-- The call `m.Update(msg)` in world `w` returns (does not panic) and leaves the
model `m'`. -/
def Returns (w : World) (m : Model) (msg : Msg) (m' : Model) : Prop :=
  ∃ (file : StoreFile) (cmd : Cmd), Update w m msg = .ret m' file cmd

/-- A queue has just been started: some `StartQueueDownloadMsg` with a non-empty
video list returned the model `m'`. -/
def Started (m' : Model) : Prop :=
  ∃ (w : World) (m : Model) (msg : StartQueueDownloadMsg),
    msg.Videos ≠ [] ∧ Returns w m (.startQueueDownload msg) m'

/-- One queue event handled by `Model.Update`.  Every call may see any world: the
recovery file and the clock change between two messages. -/
def QueueStep (m m' : Model) : Prop :=
  ∃ (w : World) (msg : Msg), msg.isQueueEvent = true ∧ Returns w m msg m'

/-- The models reachable from a started queue by any sequence of queue events. -/
def Reachable (m : Model) : Prop :=
  ∃ m0 : Model, Started m0 ∧ Relation.ReflTransGen QueueStep m0 m

/-- Number of queue items whose status is Downloading. -/
def downloadingCount (items : List QueueItem) : Nat :=
  items.countP (fun it => it.Status == QueueStatusDownloading)

/-- Only the item at the current index (position `QueueIndex - 1`) may be Downloading. -/
def OnlyCurrentDownloading (d : DownloadModel) : Prop :=
  ∀ (i : Nat) (it : QueueItem), d.QueueItems[i]? = some it →
    it.Status = QueueStatusDownloading → (i : Int) = d.QueueIndex - 1

/-- A queue state: queue mode, with the total equal to the number of items and a
current index that points at one of them.  The three cases of `Model.Update`
that start a queue build this shape and the queue events keep it. -/
def QueueState (m : Model) : Prop :=
  m.Download.IsQueue = true ∧ 1 ≤ m.Download.QueueIndex ∧
    m.Download.QueueIndex ≤ m.Download.QueueTotal ∧
    m.Download.QueueTotal = (m.Download.QueueItems.length : Int)

instance (m : Model) : Decidable (QueueState m) := by
  unfold QueueState
  infer_instance

/-! ## Concrete models used to exercise the theorems -/

/-- The video `{ID: id, VideoTitle: title}`. -/
def makeVideo (id title : String) : VideoItem := { ID := id, VideoTitle := title }

/-- A queue of two items with the first one Downloading (the set-up of
`TestModelUpdateDownloadResultAdvancesToNextQueueItem`). -/
def twoItemQueue : Model :=
  { Download :=
    { IsQueue := true, QueueLabel := "queue", QueueFormatID := "best", QueueTotal := 2,
      QueueIndex := 1,
      QueueItems :=
        [ { Index := 1, Video := makeVideo "id1" "video one", URL := "u1",
            Status := QueueStatusDownloading },
          { Index := 2, Video := makeVideo "id2" "video two", URL := "u2",
            Status := QueueStatusPending } ] } }

/-- The message `StartQueueDownloadMsg` of `TestModelUpdateStartQueueDownloadInitializesQueue`. -/
def startTwoVideos : StartQueueDownloadMsg :=
  { FormatID := "137+140", Videos := [makeVideo "id1" "video one", makeVideo "id2" "video two"] }

/-- The model left by an outcome (the default model after a panic). -/
def Outcome.model : Outcome → Model
  | .ret m _ _ => m
  | .panic _ => {}

/-- The model after a queue of two videos was started from a fresh model. -/
def startedTwo : Model := (Update {} { CurrentQuery := "  query label  " }
  (.startQueueDownload startTwoVideos)).model

/-- The model after the first download of `startedTwo` failed. -/
def startedTwoAfterError : Model :=
  (Update {} startedTwo (.downloadResult { Err := "boom" })).model

/-- A queue of one item which is Downloading (the set-up of
`TestModelUpdateDownloadResultFinalErrorCompletesQueue`). -/
def oneItemQueue : Model :=
  { Download :=
    { IsQueue := true, QueueLabel := "queue", QueueFormatID := "best", QueueTotal := 1,
      QueueIndex := 1,
      QueueItems :=
        [ { Index := 1, Video := makeVideo "id1" "video one", URL := "u1",
            Status := QueueStatusDownloading } ] } }

/-- The model after the only download of `oneItemQueue` failed with `boom`: the
queue is Completed and shows the error with the Skip and Retry actions. -/
def oneItemFailed : Model :=
  (Update {} oneItemQueue (.downloadResult { Err := "boom" })).model

/-- A queue of two items whose second item is Pending and has no URL. -/
def emptyURLQueue : Model :=
  { Download :=
    { IsQueue := true, QueueLabel := "queue", QueueFormatID := "best", QueueTotal := 2,
      QueueIndex := 1,
      QueueItems :=
        [ { Index := 1, Video := makeVideo "id1" "video one", URL := "u1",
            Status := QueueStatusDownloading },
          { Index := 2, Video := makeVideo "" "video two", URL := "",
            Status := QueueStatusPending } ] } }

/-- A queue of one item in status Error (the set-up of
`TestModelUpdateRetryCurrentQueueItemClearsError`). -/
def retryQueue : Model :=
  { Download :=
    { IsQueue := true, QueueLabel := "queue", QueueFormatID := "best", QueueTotal := 1,
      QueueIndex := 1, QueueError := "old error",
      QueueItems :=
        [ { Index := 1, Video := makeVideo "id1" "video one", URL := "u1",
            Status := QueueStatusError, Error := "old error" } ] } }

/-! ## `DownloadModel.Update` (`internal/models/download.go`) -/

/-- The struct `types.ProgressMsg`. -/
structure ProgressMsg where
  Percent : Float64 := 0
  Speed : String := ""
  Eta : String := ""
  Status : String := ""
  Destination : String := ""
  FileExtension : String := ""
  QueueIndex : Int := 0
  QueueTotal : Int := 0
  Title : String := ""
  deriving DecidableEq, Repr

/-- The messages of `DownloadModel.Update` that change the model.  Key presses
only build commands and leave the model as it is. -/
inductive DownloadMsg where
  | progress (msg : ProgressMsg)
  | pauseDownload
  | resumeDownload
  | cancelDownload
  deriving DecidableEq, Repr

/-- The writes to the queue item in the `ProgressMsg` case of `DownloadModel.Update`. -/
def applyProgress (msg : ProgressMsg) (item : QueueItem) : QueueItem :=
  let item := { item with Progress := msg.Percent, Speed := msg.Speed, ETA := msg.Eta }
  if msg.Destination ≠ "" then { item with Destination := msg.Destination } else item

/-- The method `DownloadModel.Update`, without the commands it returns.  The
closing call `m.Progress.Update(msg)` of the bubbles library reacts to the
animation frames of the progress bar only and leaves the bar as it is for the
messages modelled here. -/
def DownloadModel.Update (m : DownloadModel) (msg : DownloadMsg) : DownloadModel :=
  match msg with
  | .progress msg =>
    let m := { m with
      Progress := m.Progress.SetPercent (msg.Percent / 100)
      CurrentSpeed := msg.Speed
      CurrentETA := msg.Eta
      Phase := msg.Status }
    let m := if msg.Destination ≠ "" then { m with FileDestination := msg.Destination } else m
    let m := if msg.FileExtension ≠ "" then { m with FileExtension := msg.FileExtension } else m
    if m.IsQueue = true ∧ msg.QueueIndex > 0 ∧ msg.QueueIndex = m.QueueIndex ∧
        (m.QueueItems.length : Int) ≥ msg.QueueIndex then
      { m with QueueItems :=
          List.modify (applyProgress msg) (msg.QueueIndex - 1).toNat m.QueueItems }
    else m
  | .pauseDownload => { m with Paused := true }
  | .resumeDownload => { m with Paused := false }
  | .cancelDownload => { m with Cancelled := true }

/-! ## Further concrete models -/

/-- The download state after the first item of `twoItemQueue` succeeded: the
second item is the current one and the live fields are reset. -/
def secondItemCurrent : DownloadModel :=
  (Update {} twoItemQueue (.downloadResult { Destination := "/tmp/a.mp4" })).model.Download

/-- A late progress event of the first item, whose download is over. -/
def staleProgress : ProgressMsg :=
  { Percent := 99, Speed := "2.50MiB/s", Eta := "00:01", Status := "[download]",
    Destination := "/tmp/a.mp4", QueueIndex := 1, QueueTotal := 2 }

/-- A `StartQueueDownloadMsg` with a single video. -/
def startOneVideo : StartQueueDownloadMsg :=
  { FormatID := "best", Videos := [makeVideo "id1" "video one"] }

/-- The model after a queue of one video was started from a fresh model. -/
def startedOne : Model := (Update {} {} (.startQueueDownload startOneVideo)).model

/-- The model after the only download of `startedOne` failed with `boom`. -/
def startedOneFailed : Model :=
  (Update {} startedOne (.downloadResult { Err := "boom" })).model

/-! ## Well-formed reachable queues -/

/-- Every item after the current one (positions `QueueIndex` and later) is Pending. -/
def LaterPending (d : DownloadModel) : Prop :=
  ∀ (i : Nat) (it : QueueItem), d.QueueItems[i]? = some it →
    d.QueueIndex ≤ (i : Int) → it.Status = QueueStatusPending

/-- The status that a queue event writes to the current item: Complete or Error
for a download result, Skipped for a skip, Downloading for a retry. -/
def Marks (msg : Msg) (v : QueueItem) : Prop :=
  ((∃ r, msg = .downloadResult r) ∧
      (v.Status = QueueStatusComplete ∨ v.Status = QueueStatusError)) ∨
    (msg = .skipCurrentQueueItem ∧ v.Status = QueueStatusSkipped) ∨
    (msg = .retryCurrentQueueItem ∧ v.Status = QueueStatusDownloading)

/-- A world whose recovery file already holds the entry of the queue labelled
`queue` (written as in `TestModelUpdateDownloadResultFinalErrorCompletesQueue`). -/
def storedQueueWorld : World :=
  { file := updateQueueUnfinished {} "queue" "best" 1 ["u1"] [makeVideo "id1" "video one"] }

/-- The items of `TestQueueRemaining`. -/
def remainingSampleItems : List QueueItem :=
  [ { Status := QueueStatusPending },
    { Status := QueueStatusDownloading },
    { Status := QueueStatusError },
    { Status := QueueStatusComplete },
    { Status := QueueStatusSkipped } ]

/-- The items of `TestPendingQueueURLsFiltersStatusesAndEmptyURL`. -/
def statusSampleItems : List QueueItem :=
  [ { URL := "u1", Status := QueueStatusPending },
    { URL := "u2", Status := QueueStatusDownloading },
    { URL := "u3", Status := QueueStatusError },
    { URL := "", Status := QueueStatusPending },
    { URL := "u4", Status := QueueStatusComplete },
    { URL := "u5", Status := QueueStatusSkipped } ]

/-- A valid recovery entry of a single download. -/
def sampleEntry : UnfinishedDownload :=
  { URL := "https://example.com/video", FormatID := "best", Title := "Test Video",
    Timestamp := 7 }

/-- A store with two entries, the second under the key of `sampleEntry`. -/
def sampleStore : StoreFile :=
  .content
    [ { URL := "https://example.com/other", FormatID := "22", Title := "Other" },
      { URL := "https://example.com/video", FormatID := "18", Title := "Old Title" } ]

/-! ## The key of a queue entry -/

/-- The label `updateQueueUnfinished` files the queue under: the query with
surrounding white space removed, or `Queued downloads` when nothing is left. -/
def effectiveLabel (query : String) : String :=
  if TrimSpace query = "" then "Queued downloads" else TrimSpace query

/-- A store whose only entry has the key `queue:`, the value of
`QueueUnfinishedKey` on an empty label. -/
def bareKeyStore : StoreFile :=
  .content [ { URL := "queue:", FormatID := "best", Title := "untitled" } ]

/-! ## Starting a download (`internal/utils/download.go`) -/

/-- Go `strings.Contains` on the lists of code points. -/
def containsChars (s substr : List Char) : Bool :=
  match s with
  | [] => substr.isEmpty
  | c :: rest => substr.isPrefixOf (c :: rest) || containsChars rest substr

/-- Go `strings.Contains`. -/
def Contains (s substr : String) : Bool := containsChars s.data substr.data

/-- Modelled from the spec: the configuration supplied by configuration loading
(the declaration of `config.Config` is not under src/), with the fields that
`doDownload` reads; their names are those used in `download.go` and
`config/defaults.go`. -/
structure Config where
  YTDLPPath : String := ""
  FFmpegPath : String := ""
  DefaultDownloadPath : String := ""
  VideoFormat : String := ""
  AudioFormat : String := ""
  CookiesBrowser : String := ""
  CookiesFile : String := ""
  deriving DecidableEq, Repr

/-- The function `config.GetDefault`, on the fields of `Config`. -/
def GetDefault : Config :=
  { DefaultDownloadPath := "~/Videos", VideoFormat := "mp4", AudioFormat := "mp3",
    CookiesBrowser := "", CookiesFile := "" }

/-- Go conversion `int(x)` of a `float64`: the fractional part is discarded. -/
def truncate (x : Float64) : Int := Int.tdiv x.num x.den

/-- The flag that one enabled download option adds (the `switch` on `ConfigField`). -/
def optionFlag (opt : DownloadOption) : List String :=
  if opt.Enabled then
    if opt.ConfigField = "EmbedSubtitles" then ["--embed-subs"]
    else if opt.ConfigField = "EmbedMetadata" then ["--embed-metadata"]
    else if opt.ConfigField = "EmbedChapters" then ["--embed-chapters"]
    else []
  else []

/-- The argument vector `args` that `doDownload` builds for a request with a
non-empty URL.  `outputPath name` stands for
`filepath.Join(cfg.GetDownloadPath(), name)`: `Config.GetDownloadPath` is not
under src/ and `filepath.Join` belongs to the Go library. -/
def buildArgs (outputPath : String → String) (req : DownloadRequest) (cfg : Config) :
    List String :=
  let url := req.URL
  let isPlaylist := Contains url "/playlist?list=" || Contains url "&list="
  let args := ["-f", req.FormatID, "--newline", "-R", "infinite", url]
  let args :=
    if req.IsAudioTab then
      ["-o", outputPath "%(artist)s - %(title)s.%(ext)s", "--restrict-filenames", "-x",
        "--audio-format", cfg.AudioFormat, "--audio-quality",
        toString (truncate req.ABR) ++ "K", "--add-metadata", "--metadata-from-title",
        "%(artist)s - %(title)s"] ++ args
    else
      ["-o", outputPath "%(title)s.%(ext)s", "--merge-output-format", cfg.VideoFormat,
        "--remux-video", cfg.VideoFormat] ++ args
  let args := if !isPlaylist then ["--no-playlist"] ++ args else args
  let cb := if req.CookiesFromBrowser = "" then cfg.CookiesBrowser else req.CookiesFromBrowser
  let c := if req.Cookies = "" then cfg.CookiesFile else req.Cookies
  let args :=
    if cb ≠ "" then ["--cookies-from-browser", cb] ++ args
    else if c ≠ "" then ["--cookies", c] ++ args
    else args
  let args := if cfg.FFmpegPath ≠ "" then ["--ffmpeg-path", cfg.FFmpegPath] ++ args else args
  req.Options.foldl (fun args opt => args ++ optionFlag opt) args

/-- The arguments of one call of the callback that `parser.ReadPipe` makes for a
line of output. -/
structure ParsedLine where
  percent : Float64 := 0
  speed : String := ""
  eta : String := ""
  status : String := ""
  destination : String := ""
  deriving DecidableEq, Repr

/-- What the operating system does with the command of `doDownload`: one of the
two pipes cannot be opened, the process does not start, or it runs and exits.
For a process that ran: the callbacks of the two readers in the order they
were made, the error of `cmd.Wait()` (`none` is nil) and whether `ctx.Err()` is
`context.Canceled` when the result is classified. -/
inductive ProcessRun where
  | stdoutPipeError (err : String)
  | stderrPipeError (err : String)
  | startError (err : String)
  | exited (events : List ParsedLine) (waitErr : Option String) (canceled : Bool)
  deriving DecidableEq, Repr

/-- What `doDownload` has done when it returns: the command it built (`none`
when it returned before), whether the process was started, the messages sent to
the program, and the recovery file. -/
structure DownloadRun where
  command : Option (String × List String) := none
  started : Bool := false
  progress : List ProgressMsg := []
  result : DownloadResultMsg := {}
  file : StoreFile := .missing
  deriving DecidableEq, Repr

/-- The function `doDownload`. -/
def doDownload (outputPath : String → String) (file : StoreFile) (req : DownloadRequest)
    (cfg : Config) (run : ProcessRun) : DownloadRun :=
  let ytdlpPath := if cfg.YTDLPPath ≠ "" then cfg.YTDLPPath else "yt-dlp"
  let url := req.URL
  if url = "" then
    { result := { Err := "Download error: empty URL provided", QueueIndex := req.QueueIndex,
                  QueueTotal := req.QueueTotal },
      file := file }
  else
    let args := buildArgs outputPath req cfg
    let fileExtension := if req.IsAudioTab then cfg.AudioFormat else cfg.VideoFormat
    let failed (errMsg : String) : DownloadRun :=
      { command := some (ytdlpPath, args),
        result := { Err := errMsg, QueueIndex := req.QueueIndex, QueueTotal := req.QueueTotal },
        file := file }
    match run with
    | .stdoutPipeError err => failed ("pipe error: " ++ err)
    | .stderrPipeError err => failed ("stderr pipe error: " ++ err)
    | .startError err => failed ("start error: " ++ err)
    | .exited events waitErr canceled =>
      let lastDestination := events.foldl
        (fun last ev => if ev.destination ≠ "" then ev.destination else last) ""
      let progress := events.map (fun ev =>
        ({ Percent := ev.percent, Speed := ev.speed, Eta := ev.eta, Status := ev.status,
           Destination := ev.destination, FileExtension := fileExtension,
           QueueIndex := req.QueueIndex, QueueTotal := req.QueueTotal,
           Title := req.Title } : ProgressMsg))
      let key := if req.UnfinishedKey = "" then url else req.UnfinishedKey
      if canceled then
        { command := some (ytdlpPath, args), started := true, progress := progress,
          result := { Err := "Download cancelled", QueueIndex := req.QueueIndex,
                      QueueTotal := req.QueueTotal },
          file := file }
      else
        match waitErr with
        | some err =>
          { command := some (ytdlpPath, args), started := true, progress := progress,
            result := { Err := "Download error: " ++ err, QueueIndex := req.QueueIndex,
                        QueueTotal := req.QueueTotal },
            file := file }
        | none =>
          let file :=
            if req.QueueTotal = 0 ∨ req.QueueIndex ≥ req.QueueTotal then
              (RemoveUnfinished file key).1
            else file
          { command := some (ytdlpPath, args), started := true, progress := progress,
            result := { Output := "Download complete", Destination := lastDestination,
                        QueueIndex := req.QueueIndex, QueueTotal := req.QueueTotal },
            file := file }

/-- The command returned by `StartDownload`, run to the end of the goroutine
`doDownload` it starts; `cfg` is the loaded configuration (the default one when
loading fails). -/
def StartDownload (outputPath : String → String) (w : World) (req : DownloadRequest)
    (cfg : Config) (run : ProcessRun) : DownloadRun :=
  let videos : List VideoItem :=
    if req.Videos.length = 0 ∧ req.Title ≠ "" then [{ ID := req.URL, VideoTitle := req.Title }]
    else req.Videos
  let key := if req.UnfinishedKey = "" then req.URL else req.UnfinishedKey
  let title := if req.UnfinishedTitle = "" then req.Title else req.UnfinishedTitle
  let unfinished : UnfinishedDownload :=
    { URL := key, FormatID := req.FormatID, Title := title, Desc := req.UnfinishedDesc,
      URLs := req.URLs, Videos := videos, Timestamp := w.now }
  let file := (AddUnfinished w.file unfinished).1
  doDownload outputPath file req cfg run

/-- The path `dir/name` for the download directory `/downloads`. -/
def sampleOutputPath (name : String) : String := "/downloads/" ++ name

/-- A resume message for the queue `q` whose stored video has a title and no ID. -/
def resumeWithoutID : StartResumeDownloadMsg :=
  { URLs := ["https://example.com/v1"], Videos := [{ ID := "", VideoTitle := "Video 1" }],
    FormatID := "best", Title := "q" }

/-- The request that `Model.Update` issues for `resumeWithoutID`: its URL is the
empty ID of the video. -/
def emptyURLRequest : DownloadRequest :=
  match Update {} {} (.startResumeDownload resumeWithoutID) with
  | .ret _ _ (.StartDownload req) => req
  | _ => {}

/-- A request for a playlist URL whose format id is the string `--no-playlist`. -/
def playlistRequest : DownloadRequest :=
  { URL := "https://www.youtube.com/playlist?list=PL1", FormatID := "--no-playlist" }

/-- The request of `TestDoDownload_SuccessSendsProgressAndResult`. -/
def videoRequest : DownloadRequest :=
  { URL := "https://www.youtube.com/watch?v=abc", FormatID := "best", Title := "Video" }

/-! ## Quality presets (`internal/utils/format_resolver.go`) -/

/-- The struct `types.FormatItem`. -/
structure FormatItem where
  FormatTitle : String := ""
  FormatValue : String := ""
  Size : String := ""
  Language : String := ""
  Resolution : String := ""
  FormatType : String := ""
  ABR : Float64 := 0
  VideoSize : Float64 := 0
  AudioSize : Float64 := 0
  deriving DecidableEq, Repr

/-- The value of a non-empty run of decimal digits, read from the left with the
value `acc` of the digits before it; `none` when a character is not a digit. -/
def parseDigits (acc : Nat) : List Char → Option Nat
  | [] => some acc
  | c :: rest =>
    if '0' ≤ c ∧ c ≤ '9' then parseDigits (acc * 10 + (c.toNat - '0'.toNat)) rest else none

/-- Go `strconv.Atoi` for a 64-bit `int`: an optional sign and at least one
decimal digit; `none` is the syntax or range error. -/
def Atoi (s : String) : Option Int :=
  let digits (cs : List Char) : Option Nat :=
    match cs with
    | [] => none
    | _ => parseDigits 0 cs
  let value : Option Int :=
    match s.data with
    | '+' :: rest => (digits rest).map (fun n => (n : Int))
    | '-' :: rest => (digits rest).map (fun n => -(n : Int))
    | cs => (digits cs).map (fun n => (n : Int))
  match value with
  | some v => if -(2 : Int) ^ 63 ≤ v ∧ v < (2 : Int) ^ 63 then some v else none
  | none => none

/-- Go `strings.ToLower` on the ASCII letters.  The other code points that Go
lowers stay outside the digits, the signs and the letter `p`, so `parseHeight`
fails on them before and after lowering. -/
def ToLower (s : String) : String := String.mk (s.data.map Char.toLower)

/-- Go `strings.TrimSuffix(s, "p")`. -/
def trimSuffixP (s : String) : String :=
  match s.data.reverse with
  | 'p' :: rest => String.mk rest.reverse
  | _ => s

/-- Go `strings.Split(s, "x")` on the list of code points. -/
def splitX : List Char → List (List Char)
  | [] => [[]]
  | c :: rest =>
    if c = 'x' then [] :: splitX rest
    else
      match splitX rest with
      | part :: parts => (c :: part) :: parts
      | [] => [[c]]

/-- The function `parseHeight`. -/
def parseHeight (quality : String) : Int :=
  let quality := ToLower quality
  let quality := trimSuffixP quality
  match Atoi quality with
  | none => 0
  | some height => height

/-- The function `parseResolutionHeight`. -/
def parseResolutionHeight (resolution : String) : Int :=
  if resolution = "" ∨ resolution = "?" then 0
  else
    match splitX resolution.data with
    | [_, heightPart] =>
      match Atoi (String.mk heightPart) with
      | none => 0
      | some height => height
    | _ => 0

/-- One iteration of the loop of `ResolveQualityToFormat` on the pair
(`bestMatch`, `found`). -/
def pickBetter (requestedHeight : Int) (state : FormatItem × Bool) (item : FormatItem) :
    FormatItem × Bool :=
  let height := parseResolutionHeight item.Resolution
  if height > 0 ∧ height ≤ requestedHeight then
    if state.2 = false ∨ height > parseResolutionHeight state.1.Resolution then (item, true)
    else state
  else state

/-- The function `ResolveQualityToFormat`. -/
def ResolveQualityToFormat (quality : String) (videoFormats : List FormatItem) : String :=
  if quality = "" ∨ quality = "best" then
    match videoFormats with
    | first :: _ => first.FormatValue
    | [] => "bv*+ba/b"
  else
    let requestedHeight := parseHeight quality
    if requestedHeight = 0 then quality
    else
      let state := videoFormats.foldl (pickBetter requestedHeight) ({}, false)
      if state.2 = true then state.1.FormatValue
      else
        match videoFormats with
        | first :: _ => first.FormatValue
        | [] => quality

/-- The format list of the test case `720p with mixed formats`, with a second
format of height 720. -/
def mixedFormats : List FormatItem :=
  [ { FormatValue := "format1", Resolution := "1920x1080" },
    { FormatValue := "format2", Resolution := "1280x720" },
    { FormatValue := "format3", Resolution := "960x720" },
    { FormatValue := "format4", Resolution := "854x480" } ]

/-! ## Batch operations of the recovery store (`internal/utils/unfinished.go`) -/

/-- The map `existingMap` of `AddUnfinishedBatch` after its first loop, as the
list of the assignments `existingMap[d.URL] = i`, the latest first. -/
def existingMap (existing : List UnfinishedDownload) : List (String × Nat) :=
  existing.enum.foldl (fun m p => (p.2.URL, p.1) :: m) []

/-- The map lookup `idx, exists := existingMap[key]`. -/
def lookupIndex (m : List (String × Nat)) (key : String) : Option Nat :=
  (m.find? (fun p => p.1 == key)).map (fun p => p.2)

/-- The second loop of `AddUnfinishedBatch`: the map is the one built before the
loop and is not updated by it. -/
def addBatchLoop (m : List (String × Nat)) (existing : List UnfinishedDownload) :
    List UnfinishedDownload → List UnfinishedDownload
  | [] => existing
  | d :: rest =>
    if d.URL = "" ∨ d.Title = "" then addBatchLoop m existing rest
    else
      match lookupIndex m d.URL with
      | some idx => addBatchLoop m (existing.set idx d) rest
      | none => addBatchLoop m (existing ++ [d]) rest

/-- The function `utils.AddUnfinishedBatch`. -/
def AddUnfinishedBatch (f : StoreFile) (downloads : List UnfinishedDownload) :
    StoreFile × Option StoreErr :=
  if downloads.length = 0 then (f, none)
  else
    match LoadUnfinished f with
    | .error e => (f, some e)
    | .ok existing => SaveUnfinished (addBatchLoop (existingMap existing) existing downloads)

/-- The function `utils.RemoveUnfinishedBatch`; `urlSet[d.URL]` is true exactly
for the members of `urls`. -/
def RemoveUnfinishedBatch (f : StoreFile) (urls : List String) : StoreFile × Option StoreErr :=
  if urls.length = 0 then (f, none)
  else
    match LoadUnfinished f with
    | .error e => (f, some e)
    | .ok downloads => SaveUnfinished (downloads.filter (fun d => !(urls.contains d.URL)))

/-- No two entries of the collection share a key. -/
def UniqueKeys (ds : List UnfinishedDownload) : Prop := (ds.map (fun d => d.URL)).Nodup

instance (ds : List UnfinishedDownload) : Decidable (UniqueKeys ds) := by
  unfold UniqueKeys
  infer_instance

/-- Two valid entries with the same key, as a batch. -/
def sameKeyBatch : List UnfinishedDownload :=
  [ { URL := "https://example.com/video", FormatID := "best", Title := "First" },
    { URL := "https://example.com/video", FormatID := "18", Title := "Second" } ]

/-! ## Resuming a queue -/

/-- A queue has just been resumed: some `StartResumeDownloadMsg` with a non-empty
URL list returned the model `m'`. -/
def Resumed (m' : Model) : Prop :=
  ∃ (w : World) (m : Model) (msg : StartResumeDownloadMsg),
    msg.URLs ≠ [] ∧ Returns w m (.startResumeDownload msg) m'

/-- The models reachable from a started or resumed queue by any sequence of
queue events. -/
def ReachableQueue (m : Model) : Prop :=
  ∃ m0 : Model, (Started m0 ∨ Resumed m0) ∧ Relation.ReflTransGen QueueStep m0 m

/-- The resume message that carries the URLs, videos, title and format id of a
recovery entry; `URL` is the key of the entry. -/
def resumeOf (e : UnfinishedDownload) : StartResumeDownloadMsg :=
  { URL := e.URL, URLs := e.URLs, Videos := e.Videos, FormatID := e.FormatID, Title := e.Title }

/-- The queue resumed from the URLs `u1`, `u2` of an entry titled `q`. -/
def resumedTwo : Model :=
  (Update {} {} (.startResumeDownload
    { URLs := ["u1", "u2"], FormatID := "best", Title := "q" })).model

/-- The queue `resumedTwo` after its first item is complete. -/
def resumedTwoAdvanced : Model :=
  (Update {} resumedTwo (.downloadResult { Output := "Download complete" })).model

/-! ## Progress parser (`ProgressParser.ParseLine`, used by `doDownload`) -/

/-- An ASCII decimal digit. -/
def isDigitChar (c : Char) : Bool := decide (48 ≤ c.toNat) && decide (c.toNat ≤ 57)

/-- An ASCII letter. -/
def isLetterChar (c : Char) : Bool :=
  (decide (65 ≤ c.toNat) && decide (c.toNat ≤ 90)) ||
    (decide (97 ≤ c.toNat) && decide (c.toNat ≤ 122))

/-- The pieces of a line between white-space characters, empty pieces included. -/
def splitSpace : List Char → List (List Char)
  | [] => [[]]
  | c :: rest =>
    if isSpace c then [] :: splitSpace rest
    else
      match splitSpace rest with
      | part :: parts => (c :: part) :: parts
      | [] => [[c]]

/-- The white-space separated tokens of a line (Go `strings.Fields`). -/
def Fields (line : List Char) : List (List Char) :=
  (splitSpace line).filter (fun t => !t.isEmpty)

/-- The number written by a run of decimal digits. -/
def digitsValue (cs : List Char) : Nat :=
  cs.foldl (fun acc c => acc * 10 + (c.toNat - 48)) 0

/-- The number written with the integer digits `ip` and the decimals `fp`
(`fp` is empty for a number without decimals). -/
def decimalValue (ip fp : List Char) : Float64 :=
  mkRat (digitsValue (ip ++ fp)) (10 ^ fp.length)

/-- Modelled from the spec: a "percentage with or without decimals", as digits
optionally followed by a point and digits; `none` for any other text. -/
def parseDecimal (cs : List Char) : Option Float64 :=
  let ip := cs.takeWhile isDigitChar
  match cs.dropWhile isDigitChar with
  | [] => if ip.isEmpty then none else some (decimalValue ip [])
  | c :: fp =>
    if c = '.' ∧ !ip.isEmpty ∧ !fp.isEmpty ∧ fp.all isDigitChar then some (decimalValue ip fp)
    else none

/-- Modelled from the spec: the percentage token `<number>%` of a progress line. -/
def percentOf (token : List Char) : Option Float64 :=
  match token.reverse with
  | c :: rest => if c = '%' then parseDecimal rest.reverse else none
  | [] => none

/-- Modelled from the spec: a byte-rate unit of a "speed in varying byte-rate
units": letters followed by `/s` (`KiB/s`, `MiB/s`, `MB/s`). -/
def isRateUnit (cs : List Char) : Bool :=
  match cs.reverse with
  | s :: slash :: u => s == 's' && slash == '/' && !u.isEmpty && u.all isLetterChar
  | _ => false

/-- Modelled from the spec: the speed token, a number followed by a byte-rate unit. -/
def isSpeedToken (token : List Char) : Bool :=
  (parseDecimal (token.takeWhile (fun c => isDigitChar c || c == '.'))).isSome &&
    isRateUnit (token.dropWhile (fun c => isDigitChar c || c == '.'))

/-- Modelled from the spec: an "ETA in `MM:SS` or `HH:MM:SS`": two or three groups
of digits separated by colons. -/
def isClock (token : List Char) : Bool :=
  match token.dropWhile isDigitChar with
  | c :: rest =>
    c == ':' && !(token.takeWhile isDigitChar).isEmpty &&
      (match rest.dropWhile isDigitChar with
       | [] => !rest.isEmpty
       | c' :: last =>
         c' == ':' && !(rest.takeWhile isDigitChar).isEmpty && !last.isEmpty &&
           last.all isDigitChar)
  | [] => false

/-- Modelled from the spec: the ETA of a line, the clock that follows the word `ETA`. -/
def etaOf : List (List Char) → String
  | [] => ""
  | token :: rest =>
    match rest with
    | next :: _ => if token = "ETA".data ∧ isClock next = true then String.mk next else etaOf rest
    | [] => ""

/-- Modelled from the spec: the "inline format identifier", the digits that follow
the word `format`. -/
def formatOf : List (List Char) → Option (List Char)
  | [] => none
  | token :: rest =>
    match rest with
    | next :: _ =>
      if token = "format".data ∧ !next.isEmpty ∧ next.all isDigitChar then some next
      else formatOf rest
    | [] => none

/-- The text of a line after the first occurrence of `marker`. -/
def afterMarker (marker : List Char) : List Char → List Char
  | [] => []
  | c :: rest =>
    if marker.isPrefixOf (c :: rest) then (c :: rest).drop marker.length
    else afterMarker marker rest

/-- Modelled from the spec: the pure function `ParseLine(line) → (percent, speed,
eta, phase, destination)` of the progress parser, whose source is not under
src/ (`doDownload` calls it through `NewProgressParser` and `ReadPipe`, and
`progress_test.go` tests it).  A destination-announcement line carries only
its destination.  On any other line the percentage is the first token
`<number>%`, the speed the first token `<number><unit>/s`, the ETA the clock
after the word `ETA`; the phase is `[download]` when a percentage is present,
with or without a leading tag, followed by ` format <id>` for an inline format
identifier; what is not matched stays zero or empty. -/
def ParseLine (line : String) : ParsedLine :=
  let tokens := Fields line.data
  if "Destination:".data ∈ tokens then
    { destination := String.mk (trimSpaceChars (afterMarker "Destination:".data line.data)) }
  else
    let percent := tokens.findSome? percentOf
    { percent := percent.getD 0
      speed := ((tokens.find? isSpeedToken).map String.mk).getD ""
      eta := etaOf tokens
      status :=
        match percent with
        | some _ =>
          (match formatOf tokens with
           | some id => "[download] format " ++ String.mk id
           | none => "[download]")
        | none => ""
      destination := "" }

/-- A progress line `<P>% of <size> at <speed> ETA <eta>`, with the tag
`[download]` in front when `tag` is true. -/
def progressLine (tag : Bool) (p size speed eta : List Char) : String :=
  String.mk ((if tag then "[download] ".data else []) ++ p ++ "% of ".data ++ size ++
    " at ".data ++ speed ++ " ETA ".data ++ eta)

/-- The digits `ip`, followed by a point and the digits `fp` when there are decimals. -/
def numeral (ip fp : List Char) : List Char :=
  if fp.isEmpty then ip else ip ++ '.' :: fp

/-- The clock `MM:SS`, or `HH:MM:SS` when there are hours. -/
def clock (hh mm ss : List Char) : List Char :=
  if hh.isEmpty then mm ++ ':' :: ss else hh ++ ':' :: (mm ++ ':' :: ss)

/-! ## Events the program delivers -/

/-- The queue event `msg` is one the program delivers in the state `m`.  The key
handler of the download view sends `SkipCurrentQueueItemMsg` and
`RetryCurrentQueueItemMsg` only while `QueueError` is set
(`models/download.go`, `if m.QueueError != ""`) and `CancelDownloadMsg` then or
while the download is neither `Completed` nor `Cancelled`.  A
`DownloadResultMsg` is the result of the download of the current item: that
item is Downloading and the queue has not been cancelled (the single-download
case of `Model.Update` tests `!m.Download.Cancelled`). -/
def Delivered (m : Model) (msg : Msg) : Prop :=
  match msg with
  | .downloadResult _ =>
    m.Download.Cancelled = false ∧
      ∃ cur, indexAt m.Download.QueueItems (m.Download.QueueIndex - 1) = some cur ∧
        cur.Status = QueueStatusDownloading
  | .skipCurrentQueueItem => m.Download.QueueError ≠ ""
  | .retryCurrentQueueItem => m.Download.QueueError ≠ ""
  | .cancelDownload =>
    m.Download.QueueError ≠ "" ∨
      (m.Download.Completed = false ∧ m.Download.Cancelled = false)
  | _ => False

/-- While the queue shows an error, it stands at its last item and that item has
status Error. -/
def ErrorAtLast (d : DownloadModel) : Prop :=
  d.QueueError ≠ "" →
    d.QueueIndex = d.QueueTotal ∧
      ∃ cur, indexAt d.QueueItems (d.QueueIndex - 1) = some cur ∧
        cur.Status = QueueStatusError

/-- The request of `TestDoDownload_CancelSendsCancelled`. -/
def cancelRequest : DownloadRequest :=
  { URL := "https://www.youtube.com/watch?v=abc", FormatID := "best" }

/-! ## Basic facts about the embedding -/

theorem indexAt_eq_some {α : Type} {s : List α} {i : Int} {x : α} :
    indexAt s i = some x ↔ 0 ≤ i ∧ s[i.toNat]? = some x := by
  unfold indexAt
  by_cases h : 0 ≤ i <;> simp [h]

theorem getElem?_storeAt {α : Type} (s : List α) (i : Int) (v : α) (j : Nat) :
    (storeAt s i v)[j]? = if i.toNat = j then (if j < s.length then some v else none) else s[j]? := by
  unfold storeAt
  rw [List.getElem?_set]
  by_cases h : i.toNat = j
  · subst h; simp
  · simp [h]

theorem length_storeAt {α : Type} (s : List α) (i : Int) (v : α) :
    (storeAt s i v).length = s.length := by
  simp [storeAt]

theorem getElem?_requeueFrom (start : Nat) (items : List QueueItem) (j : Nat) :
    (requeueFrom start items)[j]? = (items[j]?).map (fun it =>
      if start ≤ j ∧ it.Status = QueueStatusDownloading then
        { it with Status := QueueStatusPending } else it) := by
  simp [requeueFrom]

theorem length_requeueFrom (start : Nat) (items : List QueueItem) :
    (requeueFrom start items).length = items.length := by
  simp [requeueFrom]

theorem status_buildQueueItems (url : VideoItem → String) (videos : List VideoItem) (start : Nat)
    (it : QueueItem) (h : it ∈ buildQueueItems url start videos) :
    it.Status = QueueStatusPending := by
  induction videos generalizing start with
  | nil => simp [buildQueueItems] at h
  | cons v vs ih =>
    simp only [buildQueueItems, List.mem_cons] at h
    rcases h with h | h
    · rw [h]
    · exact ih _ h

theorem countP_le_one_of_index {α : Type} (p : α → Bool) (l : List α) (k : Nat)
    (h : ∀ (i : Nat) (x : α), l[i]? = some x → p x = true → i = k) : l.countP p ≤ 1 := by
  induction l generalizing k with
  | nil => simp
  | cons a as ih =>
    by_cases ha : p a = true
    · have hk : 0 = k := h 0 a (by simp) ha
      have hnone : ∀ x ∈ as, ¬ p x = true := by
        intro x hx hpx
        obtain ⟨i, hi⟩ := List.getElem?_of_mem hx
        have := h (i + 1) x (by simpa using hi) hpx
        omega
      have h0 : as.countP p = 0 := List.countP_eq_zero.mpr hnone
      simp [List.countP_cons, ha, h0]
    · have := ih (k - 1) (fun i x hi hpx => by
        have := h (i + 1) x (by simpa using hi) hpx
        omega)
      simp [List.countP_cons, ha, this]

theorem downloadingCount_le_one (d : DownloadModel) (h : OnlyCurrentDownloading d) :
    downloadingCount d.QueueItems ≤ 1 := by
  unfold downloadingCount
  apply countP_le_one_of_index _ _ (d.QueueIndex - 1).toNat
  intro i x hi hx
  have := h i x hi (by simpa using hx)
  omega

/-! ## The invariant behind "at most one item is Downloading" -/

theorem advance_inv {w : World} {label : String} {m : Model} {d : DownloadModel} {m' : Model}
    {f : StoreFile} {c : Cmd} (h : advance w label m d = .ret m' f c)
    (hno : ∀ (i : Nat) (it : QueueItem), d.QueueItems[i]? = some it →
      it.Status ≠ QueueStatusDownloading) :
    OnlyCurrentDownloading m'.Download := by
  unfold advance at h
  simp only [add_sub_cancel_right] at h
  split at h
  · cases h
  · rename_i next hnext
    cases h
    intro i it hi hs
    simp only [getElem?_storeAt] at hi
    rw [indexAt_eq_some] at hnext
    by_cases hij : d.QueueIndex.toNat = i
    · simp only [add_sub_cancel_right]
      omega
    · rw [if_neg hij] at hi
      exact absurd hs (hno i it hi)

theorem noDownloading_storeAt (items : List QueueItem) (idx : Int) (v : QueueItem)
    (hinv : ∀ (i : Nat) (it : QueueItem), items[i]? = some it →
      it.Status = QueueStatusDownloading → (i : Int) = idx - 1)
    (hidx : 0 ≤ idx - 1) (hv : v.Status ≠ QueueStatusDownloading) :
    ∀ (i : Nat) (it : QueueItem), (storeAt items (idx - 1) v)[i]? = some it →
      it.Status ≠ QueueStatusDownloading := by
  intro i it hi hs
  rw [getElem?_storeAt] at hi
  by_cases hij : (idx - 1).toNat = i
  · rw [if_pos hij] at hi
    split at hi
    · cases hi; exact hv hs
    · cases hi
  · rw [if_neg hij] at hi
    have := hinv i it hi hs
    omega

theorem applyResult_status (msg : DownloadResultMsg) (item : QueueItem) :
    (applyResult msg item).Status =
      if msg.Err ≠ "" then QueueStatusError else QueueStatusComplete := by
  unfold applyResult
  by_cases h : msg.Err = "" <;> simp [h]

theorem applyResult_status_ne (msg : DownloadResultMsg) (item : QueueItem) :
    (applyResult msg item).Status ≠ QueueStatusDownloading := by
  rw [applyResult_status]
  split <;> decide

theorem updateDownloadResult_inv {w : World} {m : Model} {msg : DownloadResultMsg} {m' : Model}
    {f : StoreFile} {c : Cmd} (h : updateDownloadResult w m msg = .ret m' f c)
    (hinv : OnlyCurrentDownloading m.Download) : OnlyCurrentDownloading m'.Download := by
  unfold updateDownloadResult at h
  simp only [] at h
  split at h
  · -- queue mode
    split at h
    · cases h
    · rename_i items hmarked
      have hno : ∀ (i : Nat) (it : QueueItem), items[i]? = some it →
          it.Status ≠ QueueStatusDownloading := by
        split at hmarked
        · split at hmarked
          · cases hmarked
          · rename_i item hitem
            cases hmarked
            rw [indexAt_eq_some] at hitem
            exact noDownloading_storeAt _ _ _ hinv hitem.1 (applyResult_status_ne _ _)
        · rename_i hlen
          cases hmarked
          intro i it hi hs
          have h1 := hinv i it hi hs
          have h2 : i < m.Download.QueueItems.length := (List.getElem?_eq_some.mp hi).1
          omega
      split at h
      · exact advance_inv h hno
      · cases h
        intro i it hi hs
        exact absurd hs (hno i it hi)
  · split at h
    · split at h <;> (cases h; exact hinv)
    · cases h; exact hinv

theorem updateSkipCurrentQueueItem_inv {w : World} {m m' : Model} {f : StoreFile} {c : Cmd}
    (h : updateSkipCurrentQueueItem w m = .ret m' f c)
    (hinv : OnlyCurrentDownloading m.Download) : OnlyCurrentDownloading m'.Download := by
  unfold updateSkipCurrentQueueItem at h
  simp only [] at h
  split at h
  · cases h; exact hinv
  · split at h
    · cases h
    · rename_i item hitem
      rw [indexAt_eq_some] at hitem
      have hno := noDownloading_storeAt m.Download.QueueItems m.Download.QueueIndex
        { item with Status := QueueStatusSkipped } hinv hitem.1
        (by show QueueStatusSkipped ≠ QueueStatusDownloading; decide)
      split at h
      · exact advance_inv h hno
      · cases h
        intro i it hi hs
        exact absurd hs (hno i it hi)

theorem updateRetryCurrentQueueItem_inv {w : World} {m m' : Model} {f : StoreFile} {c : Cmd}
    (h : updateRetryCurrentQueueItem w m = .ret m' f c)
    (hinv : OnlyCurrentDownloading m.Download) : OnlyCurrentDownloading m'.Download := by
  unfold updateRetryCurrentQueueItem at h
  simp only [] at h
  split at h
  · cases h; exact hinv
  · split at h
    · cases h
    · rename_i item hitem
      rw [indexAt_eq_some] at hitem
      cases h
      intro i it hi hs
      simp only [getElem?_storeAt] at hi
      by_cases hij : (m.Download.QueueIndex - 1).toNat = i
      · simp only; omega
      · rw [if_neg hij] at hi
        exact hinv i it hi hs

theorem updateCancelDownload_inv {w : World} {m m' : Model} {f : StoreFile} {c : Cmd}
    (h : updateCancelDownload w m = .ret m' f c)
    (hinv : OnlyCurrentDownloading m.Download) : OnlyCurrentDownloading m'.Download := by
  unfold updateCancelDownload at h
  simp only [] at h
  split at h
  · split at h
    · cases h
    · cases h
      intro i it hi hs
      simp only [getElem?_requeueFrom, Option.map_eq_some'] at hi
      obtain ⟨it0, hit0, hit⟩ := hi
      split at hit
      · rw [← hit] at hs
        exact absurd (show QueueStatusPending = QueueStatusDownloading from hs) (by decide)
      · rw [← hit] at hs; exact hinv i it0 hit0 hs
  · cases h; exact hinv

theorem startQueue_inv {w : World} {m : Model} {videos : List VideoItem} {formatID : String}
    {isAudioTab : Bool} {abr : Float64} {m' : Model} {f : StoreFile} {c : Cmd}
    (h : startQueue w m videos formatID isAudioTab abr = .ret m' f c) :
    OnlyCurrentDownloading m'.Download := by
  unfold startQueue at h
  simp only [] at h
  split at h
  · cases h
  · split at h
    · cases h
    · cases h
      intro i it hi hs
      simp only [getElem?_storeAt] at hi
      by_cases hij : (0 : Int).toNat = i
      · simp only; omega
      · rw [if_neg hij] at hi
        have := status_buildQueueItems _ _ _ it (List.getElem?_mem hi)
        rw [this] at hs
        exact absurd hs (by decide)

theorem queueStep_inv {m m' : Model} (h : QueueStep m m')
    (hinv : OnlyCurrentDownloading m.Download) : OnlyCurrentDownloading m'.Download := by
  obtain ⟨w, msg, hmsg, f, c, hret⟩ := h
  cases msg with
  | downloadResult msg => exact updateDownloadResult_inv hret hinv
  | cancelDownload => exact updateCancelDownload_inv hret hinv
  | skipCurrentQueueItem => exact updateSkipCurrentQueueItem_inv hret hinv
  | retryCurrentQueueItem => exact updateRetryCurrentQueueItem_inv hret hinv
  | startResumeDownload msg => cases hmsg
  | startQueueConfirmWithFormat msg => cases hmsg
  | startQueueDownload msg => cases hmsg

theorem reachable_inv {m : Model} (h : Reachable m) : OnlyCurrentDownloading m.Download := by
  obtain ⟨m0, ⟨w, mi, msg, _, f, c, hret⟩, hsteps⟩ := h
  induction hsteps with
  | refl => exact startQueue_inv hret
  | tail _ hstep ih => exact queueStep_inv hstep ih

/-! ## Evaluation of the handlers -/

theorem indexAt_storeAt_self {α : Type} {s : List α} {i : Int} {x : α} (v : α)
    (h : indexAt s i = some x) : indexAt (storeAt s i v) i = some v := by
  rw [indexAt_eq_some] at h ⊢
  refine ⟨h.1, ?_⟩
  rw [getElem?_storeAt, if_pos rfl, if_pos (List.getElem?_eq_some.mp h.2).1]

theorem indexAt_storeAt_of_ne {α : Type} (s : List α) {i j : Int} (v : α)
    (hi : 0 ≤ i) (hj : 0 ≤ j) (hne : i ≠ j) : indexAt (storeAt s i v) j = indexAt s j := by
  unfold indexAt
  rw [if_pos hj, if_pos hj, getElem?_storeAt, if_neg (by omega)]

theorem indexAt_of_lt {α : Type} (s : List α) (i : Int) (h0 : 0 ≤ i) (h1 : i < s.length) :
    ∃ x, indexAt s i = some x := by
  have h : i.toNat < s.length := by omega
  exact ⟨s[i.toNat], by rw [indexAt_eq_some]; exact ⟨h0, List.getElem?_eq_getElem h⟩⟩

theorem lt_length_of_indexAt {α : Type} {s : List α} {i : Int} {x : α}
    (h : indexAt s i = some x) : 0 ≤ i ∧ i < s.length := by
  rw [indexAt_eq_some] at h
  have := (List.getElem?_eq_some.mp h.2).1
  omega

theorem SetPercent_zero (p : ProgressModel) : (p.SetPercent 0).targetPercent = 0 := by
  simp [ProgressModel.SetPercent]

/-- What the advance branch does when the next item exists. -/
theorem advance_spec (w : World) (label : String) (m : Model) (d : DownloadModel)
    (next : QueueItem) (hnext : indexAt d.QueueItems d.QueueIndex = some next) :
    ∃ (m' : Model) (f : StoreFile) (c : Cmd), advance w label m d = .ret m' f c ∧
      m'.Download.QueueIndex = d.QueueIndex + 1 ∧
      m'.Download.QueueItems =
        storeAt d.QueueItems d.QueueIndex { next with Status := QueueStatusDownloading } ∧
      m'.Download.Progress.targetPercent = 0 ∧ m'.Download.CurrentSpeed = "" ∧
      m'.Download.CurrentETA = "" ∧ m'.Download.Phase = "" ∧
      m'.Download.Completed = d.Completed ∧ m'.Download.Cancelled = d.Cancelled ∧
      m'.Download.QueueError = d.QueueError ∧ m'.Download.QueueTotal = d.QueueTotal ∧
      m'.Download.IsQueue = d.IsQueue ∧ m'.Download.QueueLabel = d.QueueLabel ∧
      m'.Download.QueueFormatID = d.QueueFormatID ∧
      f = updateQueueUnfinished w label d.QueueFormatID
        (queueRemaining m'.Download.QueueItems) (pendingQueueURLs m'.Download.QueueItems)
        (pendingQueueVideos m'.Download.QueueItems) ∧
      c = .StartDownload (queueRequest m m'.Download
        { next with Status := QueueStatusDownloading }
        (queueRemaining m'.Download.QueueItems)) := by
  unfold advance
  simp only [add_sub_cancel_right, hnext]
  exact ⟨_, _, _, rfl, rfl, rfl, SetPercent_zero d.Progress, rfl, rfl, rfl, rfl, rfl, rfl, rfl,
    rfl, rfl, rfl, rfl, rfl⟩

/-- The `DownloadResultMsg` case in queue mode when the current item exists. -/
theorem updateDownloadResult_queue (w : World) (m : Model) (msg : DownloadResultMsg)
    (cur : QueueItem) (hq : m.Download.IsQueue = true)
    (hcur : indexAt m.Download.QueueItems (m.Download.QueueIndex - 1) = some cur) :
    updateDownloadResult w m msg =
      if m.Download.QueueIndex < m.Download.QueueTotal then
        advance w (queueLabel m) { m with LoadingType := "" }
          { m.Download with
            QueueItems := storeAt m.Download.QueueItems (m.Download.QueueIndex - 1)
              (applyResult msg cur) }
      else
        .ret { m with
            LoadingType := ""
            Download := { m.Download with
              QueueItems := storeAt m.Download.QueueItems (m.Download.QueueIndex - 1)
                (applyResult msg cur)
              QueueError := msg.Err
              Completed := true } }
          (updateQueueUnfinished w (queueLabel m) m.Download.QueueFormatID 0 [] []) .nil := by
  have hlen : m.Download.QueueIndex ≤ (m.Download.QueueItems.length : Int) := by
    have := lt_length_of_indexAt hcur
    omega
  unfold updateDownloadResult
  simp only [hq, hcur, hlen, ge_iff_le, if_true]

theorem QueueState.current {m : Model} (h : QueueState m) :
    ∃ cur, indexAt m.Download.QueueItems (m.Download.QueueIndex - 1) = some cur := by
  obtain ⟨_, h1, h2, h3⟩ := h
  exact indexAt_of_lt _ _ (by omega) (by omega)

theorem QueueState.next {m : Model} (h : QueueState m)
    (hlt : m.Download.QueueIndex < m.Download.QueueTotal) :
    ∃ next, indexAt m.Download.QueueItems m.Download.QueueIndex = some next := by
  obtain ⟨_, h1, h2, h3⟩ := h
  exact indexAt_of_lt _ _ (by omega) (by omega)

/-- The `SkipCurrentQueueItemMsg` case in queue mode when the current item exists. -/
theorem updateSkipCurrentQueueItem_queue (w : World) (m : Model) (cur : QueueItem)
    (hq : m.Download.IsQueue = true)
    (hcur : indexAt m.Download.QueueItems (m.Download.QueueIndex - 1) = some cur) :
    updateSkipCurrentQueueItem w m =
      if m.Download.QueueIndex < m.Download.QueueTotal then
        advance w (queueLabel m) m
          { m.Download with
            QueueItems := storeAt m.Download.QueueItems (m.Download.QueueIndex - 1)
              { cur with Status := QueueStatusSkipped }
            QueueError := "" }
      else
        .ret { m with
            Download := { m.Download with
              QueueItems := storeAt m.Download.QueueItems (m.Download.QueueIndex - 1)
                { cur with Status := QueueStatusSkipped }
              QueueError := ""
              Completed := true } }
          (updateQueueUnfinished w (queueLabel m) m.Download.QueueFormatID 0 [] []) .nil := by
  unfold updateSkipCurrentQueueItem
  simp only [hq, hcur, not_true_eq_false, if_false]

/-- The `RetryCurrentQueueItemMsg` case in queue mode when the current item exists. -/
theorem updateRetryCurrentQueueItem_queue (w : World) (m : Model) (cur : QueueItem)
    (hq : m.Download.IsQueue = true)
    (hcur : indexAt m.Download.QueueItems (m.Download.QueueIndex - 1) = some cur) :
    ∃ (m' : Model) (c : Cmd), updateRetryCurrentQueueItem w m = .ret m' w.file c ∧
      m'.Download.QueueItems = storeAt m.Download.QueueItems (m.Download.QueueIndex - 1)
        { cur with Status := QueueStatusDownloading, Error := "" } ∧
      m'.Download.QueueIndex = m.Download.QueueIndex ∧
      m'.Download.QueueTotal = m.Download.QueueTotal ∧
      m'.Download.QueueError = "" ∧
      m'.Download.Progress.targetPercent = 0 ∧ m'.Download.CurrentSpeed = "" ∧
      m'.Download.CurrentETA = "" ∧ m'.Download.Phase = "" ∧
      m'.Download.Completed = m.Download.Completed ∧
      m'.Download.Cancelled = m.Download.Cancelled ∧
      c = .StartDownload (queueRequest m m'.Download
        { cur with Status := QueueStatusDownloading, Error := "" }
        (queueRemaining m'.Download.QueueItems)) := by
  unfold updateRetryCurrentQueueItem
  simp only [hq, hcur, not_true_eq_false, if_false]
  exact ⟨_, _, rfl, rfl, rfl, rfl, rfl, SetPercent_zero m.Download.Progress, rfl, rfl, rfl, rfl,
    rfl, rfl⟩

/-- The `CancelDownloadMsg` case in queue mode when `QueueIndex` is at least 1. -/
theorem updateCancelDownload_queue (w : World) (m : Model)
    (hq : m.Download.IsQueue = true) (h1 : 1 ≤ m.Download.QueueIndex) :
    ∃ (m' : Model) (f : StoreFile), updateCancelDownload w m = .ret m' f .nil ∧
      m'.Download.QueueItems =
        requeueFrom (m.Download.QueueIndex - 1).toNat m.Download.QueueItems ∧
      m'.Download.Cancelled = true ∧ m'.Download.Completed = true ∧
      m'.Download.QueueIndex = m.Download.QueueIndex ∧
      m'.Download.QueueTotal = m.Download.QueueTotal ∧
      f = updateQueueUnfinished w (queueLabel m) m.Download.QueueFormatID
        (if queueRemaining m'.Download.QueueItems = 0 ∧
            (pendingQueueURLs m'.Download.QueueItems).length > 0 then
          ((pendingQueueURLs m'.Download.QueueItems).length : Int)
        else queueRemaining m'.Download.QueueItems)
        (pendingQueueURLs m'.Download.QueueItems)
        (pendingQueueVideos m'.Download.QueueItems) := by
  unfold updateCancelDownload
  have h : ¬ m.Download.QueueIndex - 1 < 0 := by omega
  simp only [hq, h, if_true, if_false]
  exact ⟨_, _, rfl, rfl, rfl, rfl, rfl, rfl, rfl⟩

/-! ## Labels and keys -/

theorem trimSpaceChars_eq (cs : List Char) :
    trimSpaceChars cs = List.rdropWhile isSpace (cs.dropWhile isSpace) := rfl

theorem head_dropWhile_false {α : Type} (p : α → Bool) (l : List α) (a : α) (rest : List α)
    (h : l.dropWhile p = a :: rest) : p a = false := by
  induction l with
  | nil => simp at h
  | cons x xs ih =>
    rw [List.dropWhile_cons] at h
    split at h
    · exact ih h
    · rename_i hx
      cases h
      simpa using hx

theorem dropWhile_trimSpaceChars (cs : List Char) :
    (trimSpaceChars cs).dropWhile isSpace = trimSpaceChars cs := by
  rw [trimSpaceChars_eq]
  obtain ⟨t, ht⟩ := List.rdropWhile_prefix isSpace (l := cs.dropWhile isSpace)
  cases hr : List.rdropWhile isSpace (cs.dropWhile isSpace) with
  | nil => rfl
  | cons a rest =>
    rw [hr, List.cons_append] at ht
    have ha := head_dropWhile_false isSpace cs a (rest ++ t) ht.symm
    rw [List.dropWhile_cons, if_neg (by simp [ha])]

theorem trimSpaceChars_idempotent (cs : List Char) :
    trimSpaceChars (trimSpaceChars cs) = trimSpaceChars cs := by
  rw [trimSpaceChars_eq (trimSpaceChars cs), dropWhile_trimSpaceChars, trimSpaceChars_eq,
    List.rdropWhile_idempotent]

theorem TrimSpace_idempotent (s : String) : TrimSpace (TrimSpace s) = TrimSpace s := by
  unfold TrimSpace
  rw [trimSpaceChars_idempotent]

theorem TrimSpace_default : TrimSpace "Queued downloads" = "Queued downloads" := by decide

theorem TrimSpace_queueLabel (m : Model) : TrimSpace (queueLabel m) = queueLabel m := by
  unfold queueLabel
  simp only []
  by_cases h1 : TrimSpace m.Download.QueueLabel = "" <;>
    by_cases h2 : TrimSpace m.CurrentQuery = "" <;>
    by_cases h3 : TrimSpace m.VideoList.PlaylistName = "" <;>
    simp [h1, h2, h3, TrimSpace_idempotent, TrimSpace_default]

theorem queueLabel_ne_empty (m : Model) : queueLabel m ≠ "" := by
  unfold queueLabel
  simp only []
  by_cases h1 : TrimSpace m.Download.QueueLabel = "" <;>
    by_cases h2 : TrimSpace m.CurrentQuery = "" <;>
    by_cases h3 : TrimSpace m.VideoList.PlaylistName = "" <;>
    simp [h1, h2, h3]

theorem append_ne_empty (a b : String) (ha : a ≠ "") : a ++ b ≠ "" := by
  intro h
  have h1 : (a ++ b).data = [] := by rw [h]
  rw [String.data_append] at h1
  have h2 : a.data = [] := (List.append_eq_nil.mp h1).1
  exact ha (String.ext h2)

theorem QueueUnfinishedKey_ne_empty (query : String) : QueueUnfinishedKey query ≠ "" :=
  append_ne_empty _ _ (by decide)

theorem BuildVideoURL_ne_empty (videoID : String) : BuildVideoURL videoID ≠ "" :=
  append_ne_empty _ _ (by decide)

/-! ## The recovery store -/

theorem find?_replaceFirst_some (e : UnfinishedDownload) (ds r : List UnfinishedDownload)
    (h : replaceFirst e ds = some r) : r.find? (fun d => d.URL == e.URL) = some e := by
  induction ds generalizing r with
  | nil => simp [replaceFirst] at h
  | cons d ds ih =>
    rw [replaceFirst] at h
    split at h
    · cases h
      simp
    · rename_i hne
      rw [Option.map_eq_some'] at h
      obtain ⟨r', hr', rfl⟩ := h
      rw [List.find?_cons_of_neg _ (by simpa using hne)]
      exact ih r' hr'

theorem find?_of_replaceFirst_none (e : UnfinishedDownload) (ds : List UnfinishedDownload)
    (h : replaceFirst e ds = none) : ds.find? (fun d => d.URL == e.URL) = none := by
  induction ds with
  | nil => rfl
  | cons d ds ih =>
    rw [replaceFirst] at h
    split at h
    · cases h
    · rename_i hne
      rw [Option.map_eq_none'] at h
      rw [List.find?_cons_of_neg _ (by simpa using hne)]
      exact ih h

/-- Upsert followed by lookup under the same key returns the entry just written. -/
theorem GetUnfinishedByURL_AddUnfinished (f : StoreFile) (ds : List UnfinishedDownload)
    (e : UnfinishedDownload) (hload : LoadUnfinished f = .ok ds) (hurl : e.URL ≠ "")
    (htitle : e.Title ≠ "") : GetUnfinishedByURL (AddUnfinished f e).1 e.URL = some e := by
  unfold AddUnfinished
  rw [if_neg (by simp [hurl, htitle]), hload]
  simp only []
  cases hr : replaceFirst e ds with
  | some r =>
    simp only [SaveUnfinished, GetUnfinishedByURL, LoadUnfinished]
    exact find?_replaceFirst_some e ds r hr
  | none =>
    simp only [SaveUnfinished, GetUnfinishedByURL, LoadUnfinished]
    rw [List.find?_append, find?_of_replaceFirst_none e ds hr]
    simp

/-- Remove followed by lookup under the same key returns none. -/
theorem GetUnfinishedByURL_RemoveUnfinished (f : StoreFile) (key : String) :
    GetUnfinishedByURL (RemoveUnfinished f key).1 key = none := by
  unfold RemoveUnfinished
  cases f with
  | missing => simp [LoadUnfinished, SaveUnfinished, GetUnfinishedByURL]
  | content ds =>
    simp only [LoadUnfinished, SaveUnfinished, GetUnfinishedByURL]
    rw [List.find?_eq_none]
    intro d hd
    have := (List.mem_filter.mp hd).2
    simpa using this
  | unreadable => simp [LoadUnfinished, GetUnfinishedByURL]

/-- The function `updateQueueUnfinished` on a label that is already trimmed and
non-empty, as the label computed by `Model.Update` is. -/
theorem updateQueueUnfinished_trimmed (w : World) (label formatID : String) (remaining : Int)
    (urls : List String) (videos : List VideoItem) (htrim : TrimSpace label = label)
    (hne : label ≠ "") :
    updateQueueUnfinished w label formatID remaining urls videos =
      if remaining ≤ 0 then (RemoveUnfinished w.file (QueueUnfinishedKey label)).1
      else if urls.length = 0 then w.file
      else (AddUnfinished w.file
        { URL := QueueUnfinishedKey label, FormatID := formatID, Title := label,
          Desc := toString remaining ++ " items left", URLs := urls, Videos := videos,
          Timestamp := w.now }).1 := by
  unfold updateQueueUnfinished
  simp only [htrim, if_neg hne]

/-- A removal request leaves no entry under the queue key. -/
theorem updateQueueUnfinished_remove (w : World) (m : Model) (formatID : String)
    (remaining : Int) (urls : List String) (videos : List VideoItem) (h : remaining ≤ 0) :
    GetUnfinishedByURL (updateQueueUnfinished w (queueLabel m) formatID remaining urls videos)
      (QueueUnfinishedKey (queueLabel m)) = none := by
  rw [updateQueueUnfinished_trimmed w _ _ _ _ _ (TrimSpace_queueLabel m) (queueLabel_ne_empty m),
    if_pos h]
  exact GetUnfinishedByURL_RemoveUnfinished _ _

/-- A write request with work remaining and a non-empty URL list leaves, in a
loadable store, the entry with exactly these URLs and videos under the queue key. -/
theorem updateQueueUnfinished_write (w : World) (m : Model) (formatID : String)
    (remaining : Int) (urls : List String) (videos : List VideoItem)
    (ds : List UnfinishedDownload) (hload : LoadUnfinished w.file = .ok ds)
    (hrem : 0 < remaining) (hurls : urls ≠ []) :
    GetUnfinishedByURL (updateQueueUnfinished w (queueLabel m) formatID remaining urls videos)
      (QueueUnfinishedKey (queueLabel m)) =
      some { URL := QueueUnfinishedKey (queueLabel m), FormatID := formatID,
             Title := queueLabel m, Desc := toString remaining ++ " items left",
             URLs := urls, Videos := videos, Timestamp := w.now } := by
  rw [updateQueueUnfinished_trimmed w _ _ _ _ _ (TrimSpace_queueLabel m) (queueLabel_ne_empty m),
    if_neg (by omega), if_neg (by simpa using hurls)]
  exact GetUnfinishedByURL_AddUnfinished w.file ds _ hload (QueueUnfinishedKey_ne_empty _)
    (queueLabel_ne_empty m)

/-! ## The derived queries -/

/-- The status test of `pendingQueueURLs` and `pendingQueueVideos`. -/
theorem pendingQueueURLs_eq (items : List QueueItem) :
    pendingQueueURLs items =
      ((items.filter (fun it => it.Status = QueueStatusPending ∨
          it.Status = QueueStatusDownloading ∨ it.Status = QueueStatusError)).map
        (fun it => it.URL)).filter (fun u => u ≠ "") := by
  unfold pendingQueueURLs
  suffices h : ∀ (acc : List String),
      items.foldl (fun urls it =>
        if it.Status = QueueStatusPending ∨ it.Status = QueueStatusDownloading ∨
            it.Status = QueueStatusError then
          if it.URL ≠ "" then urls ++ [it.URL] else urls
        else urls) acc =
      acc ++ ((items.filter (fun it => it.Status = QueueStatusPending ∨
          it.Status = QueueStatusDownloading ∨ it.Status = QueueStatusError)).map
        (fun it => it.URL)).filter (fun u => u ≠ "") by
    simpa using h []
  induction items with
  | nil => intro acc; simp
  | cons it rest ih =>
    intro acc
    rw [List.foldl_cons, ih]
    by_cases hs : it.Status = QueueStatusPending ∨ it.Status = QueueStatusDownloading ∨
        it.Status = QueueStatusError
    · by_cases hu : it.URL = ""
      · simp [hs, hu]
      · simp [hs, hu]
    · simp [hs]

theorem queueRemaining_eq (items : List QueueItem) :
    queueRemaining items = ((items.filter (fun it => it.Status = QueueStatusPending ∨
      it.Status = QueueStatusDownloading)).length : Int) := by
  unfold queueRemaining
  suffices h : ∀ (acc : Int),
      items.foldl (fun count it =>
        if it.Status = QueueStatusPending ∨ it.Status = QueueStatusDownloading then count + 1
        else count) acc =
      acc + ((items.filter (fun it => it.Status = QueueStatusPending ∨
        it.Status = QueueStatusDownloading)).length : Int) by
    simpa using h 0
  induction items with
  | nil => intro acc; simp
  | cons it rest ih =>
    intro acc
    rw [List.foldl_cons, ih]
    by_cases hs : it.Status = QueueStatusPending ∨ it.Status = QueueStatusDownloading
    · simp [hs]; omega
    · simp [hs]

theorem countP_le_one_unique {α : Type} (p : α → Bool) (l : List α) (h : l.countP p ≤ 1)
    (i j : Nat) (x y : α) (hi : l[i]? = some x) (hj : l[j]? = some y)
    (hx : p x = true) (hy : p y = true) : i = j := by
  induction l generalizing i j with
  | nil => simp at hi
  | cons a as ih =>
    have hpos : ∀ (k : Nat) (z : α), as[k]? = some z → p z = true → 0 < as.countP p :=
      fun k z hk hz => List.countP_pos_iff.mpr ⟨z, List.getElem?_mem hk, hz⟩
    rw [List.countP_cons] at h
    cases i with
    | zero =>
      cases j with
      | zero => rfl
      | succ j =>
        simp only [List.getElem?_cons_zero, Option.some.injEq] at hi
        simp only [List.getElem?_cons_succ] at hj
        have := hpos j y hj hy
        rw [hi, if_pos hx] at h
        omega
    | succ i =>
      cases j with
      | zero =>
        simp only [List.getElem?_cons_zero, Option.some.injEq] at hj
        simp only [List.getElem?_cons_succ] at hi
        have := hpos i x hi hx
        rw [hj, if_pos hy] at h
        omega
      | succ j =>
        simp only [List.getElem?_cons_succ] at hi hj
        have := ih (by omega) i j hi hj
        omega

/-! ## Starting a queue -/

theorem length_buildQueueItems (url : VideoItem → String) (start : Nat)
    (videos : List VideoItem) : (buildQueueItems url start videos).length = videos.length := by
  induction videos generalizing start with
  | nil => rfl
  | cons v vs ih => simp [buildQueueItems, ih]

theorem getElem?_buildQueueItems (url : VideoItem → String) (start : Nat)
    (videos : List VideoItem) (i : Nat) :
    (buildQueueItems url start videos)[i]? = (videos[i]?).map (fun v =>
      ({ Index := ((start + i : Nat) : Int) + 1, Video := v, URL := url v,
         Status := QueueStatusPending } : QueueItem)) := by
  induction videos generalizing start i with
  | nil => simp [buildQueueItems]
  | cons v vs ih =>
    cases i with
    | zero => simp [buildQueueItems]
    | succ i =>
      simp only [buildQueueItems, List.getElem?_cons_succ]
      rw [ih]
      have : start + 1 + i = start + (i + 1) := by omega
      rw [this]

theorem map_URL_buildQueueItems (url : VideoItem → String) (start : Nat)
    (videos : List VideoItem) :
    (buildQueueItems url start videos).map (fun it => it.URL) = videos.map url := by
  induction videos generalizing start with
  | nil => rfl
  | cons v vs ih => simp [buildQueueItems, ih]

theorem pendingQueueURLs_buildQueueItems (url : VideoItem → String) (start : Nat)
    (videos : List VideoItem) (hurl : ∀ v, url v ≠ "") :
    pendingQueueURLs (buildQueueItems url start videos) = videos.map url := by
  rw [pendingQueueURLs_eq]
  have h1 : (buildQueueItems url start videos).filter (fun it =>
      it.Status = QueueStatusPending ∨ it.Status = QueueStatusDownloading ∨
        it.Status = QueueStatusError) = buildQueueItems url start videos := by
    rw [List.filter_eq_self]
    intro it hit
    simp [status_buildQueueItems url videos start it hit]
  rw [h1, map_URL_buildQueueItems, List.filter_eq_self]
  intro u hu
  obtain ⟨v, _, rfl⟩ := List.mem_map.mp hu
  simpa using hurl v

/-- What the cases that start a queue from a video selection do on a non-empty list. -/
theorem startQueue_spec (w : World) (m : Model) (v : VideoItem) (vs : List VideoItem)
    (formatID : String) (isAudioTab : Bool) (abr : Float64) :
    ∃ (m' : Model) (c : Cmd),
      startQueue w m (v :: vs) formatID isAudioTab abr =
        .ret m' (updateQueueUnfinished w (queueLabel m) formatID ((v :: vs).length : Int)
          (pendingQueueURLs (buildQueueItems (fun v => BuildVideoURL v.ID) 0 (v :: vs)))
          (pendingQueueVideos (buildQueueItems (fun v => BuildVideoURL v.ID) 0 (v :: vs)))) c ∧
      m'.Download.IsQueue = true ∧
      m'.Download.QueueTotal = ((v :: vs).length : Int) ∧
      m'.Download.QueueIndex = 1 ∧
      m'.Download.QueueLabel = queueLabel m ∧
      m'.Download.QueueFormatID = formatID ∧
      m'.Download.Completed = false ∧ m'.Download.Cancelled = false ∧
      m'.Download.QueueError = "" ∧
      m'.Download.QueueItems =
        { Index := 1, Video := v, URL := BuildVideoURL v.ID,
          Status := QueueStatusDownloading } ::
          buildQueueItems (fun v => BuildVideoURL v.ID) 1 vs ∧
      ∃ req, c = .StartDownload req ∧ req.URL = BuildVideoURL v.ID ∧ req.QueueIndex = 1 ∧
        req.QueueTotal = ((v :: vs).length : Int) := by
  unfold startQueue
  simp only [indexAt, buildQueueItems, storeAt]
  simp only [le_refl, if_true, Int.toNat_zero, List.getElem?_cons_zero, List.set_cons_zero]
  exact ⟨_, _, rfl, rfl, rfl, rfl, rfl, rfl, rfl, rfl, rfl, rfl, _, rfl, rfl, rfl, rfl⟩

/-! ## More on the derived queries and the queue key -/

/-- The videos kept for resuming: the videos of the items that are Pending,
Downloading or Error, in queue order, without those that have neither an ID
nor a title. -/
theorem pendingQueueVideos_eq (items : List QueueItem) :
    pendingQueueVideos items =
      ((items.filter (fun it => it.Status = QueueStatusPending ∨
          it.Status = QueueStatusDownloading ∨ it.Status = QueueStatusError)).map
        (fun it => it.Video)).filter (fun v => v.ID ≠ "" ∨ v.VideoTitle ≠ "") := by
  unfold pendingQueueVideos
  suffices h : ∀ (acc : List VideoItem),
      items.foldl (fun videos it =>
        if it.Status = QueueStatusPending ∨ it.Status = QueueStatusDownloading ∨
            it.Status = QueueStatusError then
          if it.Video.ID ≠ "" ∨ it.Video.VideoTitle ≠ "" then videos ++ [it.Video] else videos
        else videos) acc =
      acc ++ ((items.filter (fun it => it.Status = QueueStatusPending ∨
          it.Status = QueueStatusDownloading ∨ it.Status = QueueStatusError)).map
        (fun it => it.Video)).filter (fun v => v.ID ≠ "" ∨ v.VideoTitle ≠ "") by
    simpa using h []
  induction items with
  | nil => intro acc; simp
  | cons it rest ih =>
    intro acc
    rw [List.foldl_cons, ih]
    by_cases hs : it.Status = QueueStatusPending ∨ it.Status = QueueStatusDownloading ∨
        it.Status = QueueStatusError
    · by_cases hu : it.Video.ID ≠ "" ∨ it.Video.VideoTitle ≠ ""
      · simp [hs, hu]
      · simp [hs, hu]
    · simp [hs]

/-- A pending item with a URL makes the list of pending URLs non-empty. -/
theorem pendingQueueURLs_ne_nil (items : List QueueItem) (it : QueueItem) (hmem : it ∈ items)
    (hs : it.Status = QueueStatusPending ∨ it.Status = QueueStatusDownloading ∨
      it.Status = QueueStatusError) (hu : it.URL ≠ "") :
    pendingQueueURLs items ≠ [] := by
  rw [pendingQueueURLs_eq]
  apply List.ne_nil_of_mem (a := it.URL)
  rw [List.mem_filter]
  exact ⟨List.mem_map.mpr ⟨it, List.mem_filter.mpr ⟨hmem, by simpa using hs⟩, rfl⟩,
    by simpa using hu⟩

/-- A queue whose own label is not blank is named by that label, trimmed. -/
theorem queueLabel_of_label (m : Model) (h : TrimSpace m.Download.QueueLabel ≠ "") :
    queueLabel m = TrimSpace m.Download.QueueLabel := by
  unfold queueLabel
  simp [h]

/-- The recovery key of a queue whose own label is not blank. -/
theorem queueKey_of_label (m : Model) (h : TrimSpace m.Download.QueueLabel ≠ "") :
    QueueUnfinishedKey (queueLabel m) = "queue:" ++ TrimSpace m.Download.QueueLabel := by
  unfold QueueUnfinishedKey
  rw [TrimSpace_queueLabel, queueLabel_of_label m h]

theorem find?_filter_ne (ds : List UnfinishedDownload) (key k : String) (h : k ≠ key) :
    (ds.filter (fun d => d.URL != key)).find? (fun d => d.URL == k) =
      ds.find? (fun d => d.URL == k) := by
  induction ds with
  | nil => rfl
  | cons d rest ih =>
    by_cases hk : d.URL = k
    · have hne : d.URL ≠ key := by rw [hk]; exact h
      rw [List.filter_cons_of_pos (by simpa using hne), List.find?_cons_of_pos _ (by simpa using hk),
        List.find?_cons_of_pos _ (by simpa using hk)]
    · rw [List.find?_cons_of_neg _ (by simpa using hk)]
      by_cases hd : d.URL = key
      · rw [List.filter_cons_of_neg (by simpa using hd)]
        exact ih
      · rw [List.filter_cons_of_pos (by simpa using hd),
          List.find?_cons_of_neg _ (by simpa using hk)]
        exact ih

theorem GetUnfinishedByURL_RemoveUnfinished_ne (f : StoreFile) (key k : String) (h : k ≠ key) :
    GetUnfinishedByURL (RemoveUnfinished f key).1 k = GetUnfinishedByURL f k := by
  cases f with
  | missing => rfl
  | unreadable => rfl
  | content ds =>
    simp only [RemoveUnfinished, LoadUnfinished, SaveUnfinished, GetUnfinishedByURL]
    exact find?_filter_ne ds key k h


/-! ## Properties of the queue state machine -/

/-- C1: in every queue state reachable from a `StartQueueDownloadMsg` with a
non-empty video list by any sequence of `DownloadResultMsg`, `SkipCurrentQueueItemMsg`,
`RetryCurrentQueueItemMsg` and `CancelDownloadMsg` transitions of `Model.Update`,
at most one queue item has status Downloading. -/
theorem C1_at_most_one_downloading (m : Model) (h : Reachable m) :
    downloadingCount m.Download.QueueItems ≤ 1 :=
  downloadingCount_le_one m.Download (reachable_inv h)

/-- Witness for C1: the queue of two videos after its first download failed is
reachable and has exactly one Downloading item. -/
theorem C1_at_most_one_downloading_witness :
    Reachable startedTwoAfterError ∧
      downloadingCount startedTwoAfterError.Download.QueueItems ≤ 1 :=
  have h : Reachable startedTwoAfterError :=
    ⟨startedTwo,
      ⟨{}, { CurrentQuery := "  query label  " }, startTwoVideos, by decide, _, _, rfl⟩,
      Relation.ReflTransGen.single
        ⟨{}, .downloadResult { Err := "boom" }, rfl, _, _, rfl⟩⟩
  ⟨h, C1_at_most_one_downloading startedTwoAfterError h⟩

/-- C2 as stated fails: in the queue of two items whose first item is Downloading,
a `DownloadResultMsg` with `Err = "boom"` does not halt the queue.  `QueueError`
stays empty, `QueueIndex` goes from 1 to 2 and the second item changes from
Pending to Downloading. -/
theorem C2_error_result_counterexample :
    ∃ (m' : Model) (f : StoreFile) (c : Cmd),
      Update {} twoItemQueue (.downloadResult { Err := "boom" }) = .ret m' f c ∧
      QueueState twoItemQueue ∧
      twoItemQueue.Download.QueueIndex = 1 ∧
      twoItemQueue.Download.QueueItems.map (fun it => it.Status) =
        [QueueStatusDownloading, QueueStatusPending] ∧
      m'.Download.QueueError = "" ∧
      m'.Download.QueueIndex = 2 ∧
      m'.Download.QueueItems.map (fun it => it.Status) =
        [QueueStatusError, QueueStatusDownloading] :=
  ⟨_, _, _, rfl, by decide, by decide, by decide, by decide, by decide, by decide⟩

/-- C2 (amended): for every queue state and every `DownloadResultMsg` whose `Err`
is non-empty, `Model.Update` returns and the current item has status Error with
that error.  When the current item is the last one (`QueueIndex = QueueTotal`)
`QueueError` is set to that error, `QueueIndex` is unchanged, no item other than
the current one changes and no download is started.  When items remain
(`QueueIndex < QueueTotal`) the queue does not halt: `QueueIndex` increases by 1,
the next item becomes Downloading, `QueueError` is left as it was and no item
other than the current and the next one changes. -/
theorem C2_error_result (w : World) (m : Model) (msg : DownloadResultMsg)
    (hq : QueueState m) (herr : msg.Err ≠ "") :
    ∃ (m' : Model) (f : StoreFile) (c : Cmd),
      Update w m (.downloadResult msg) = .ret m' f c ∧
      (∃ cur, indexAt m'.Download.QueueItems (m.Download.QueueIndex - 1) = some cur ∧
        cur.Status = QueueStatusError ∧ cur.Error = msg.Err) ∧
      (m.Download.QueueIndex = m.Download.QueueTotal →
        m'.Download.QueueError = msg.Err ∧
        m'.Download.QueueIndex = m.Download.QueueIndex ∧
        (∀ i : Nat, (i : Int) ≠ m.Download.QueueIndex - 1 →
          m'.Download.QueueItems[i]? = m.Download.QueueItems[i]?) ∧
        c = .nil) ∧
      (m.Download.QueueIndex < m.Download.QueueTotal →
        m'.Download.QueueError = m.Download.QueueError ∧
        m'.Download.QueueIndex = m.Download.QueueIndex + 1 ∧
        (∃ next, indexAt m'.Download.QueueItems m.Download.QueueIndex = some next ∧
          next.Status = QueueStatusDownloading) ∧
        (∀ i : Nat, (i : Int) ≠ m.Download.QueueIndex - 1 → (i : Int) ≠ m.Download.QueueIndex →
          m'.Download.QueueItems[i]? = m.Download.QueueItems[i]?)) := by
  obtain ⟨cur, hcur⟩ := hq.current
  have hcur0 := (lt_length_of_indexAt hcur).1
  have hmark : (applyResult msg cur).Status = QueueStatusError ∧
      (applyResult msg cur).Error = msg.Err := by
    unfold applyResult
    simp [herr]
  simp only [Update]
  rw [updateDownloadResult_queue w m msg cur hq.1 hcur]
  by_cases hlt : m.Download.QueueIndex < m.Download.QueueTotal
  · rw [if_pos hlt]
    obtain ⟨next, hnext⟩ := hq.next hlt
    have hnext' : indexAt (storeAt m.Download.QueueItems (m.Download.QueueIndex - 1)
        (applyResult msg cur)) m.Download.QueueIndex = some next := by
      rw [indexAt_storeAt_of_ne _ _ hcur0 (by omega) (by omega)]
      exact hnext
    obtain ⟨m', f, c, hret, hidx, hitems, _, _, _, _, _, _, hqe, _⟩ :=
      advance_spec w (queueLabel m) { m with LoadingType := "" }
        { m.Download with
          QueueItems := storeAt m.Download.QueueItems (m.Download.QueueIndex - 1)
            (applyResult msg cur) } next hnext'
    refine ⟨m', f, c, hret, ?_, fun h => absurd h (by omega), fun _ => ⟨hqe, hidx, ?_, ?_⟩⟩
    · refine ⟨applyResult msg cur, ?_, hmark⟩
      rw [hitems]
      simp only
      rw [indexAt_storeAt_of_ne _ _ (by omega) hcur0 (by omega)]
      exact indexAt_storeAt_self _ hcur
    · refine ⟨{ next with Status := QueueStatusDownloading }, ?_, rfl⟩
      rw [hitems]
      exact indexAt_storeAt_self _ hnext'
    · intro i h1 h2
      rw [hitems]
      simp only [getElem?_storeAt]
      rw [if_neg (by omega), if_neg (by omega)]
  · rw [if_neg hlt]
    refine ⟨_, _, _, rfl, ⟨applyResult msg cur, indexAt_storeAt_self _ hcur, hmark⟩,
      fun _ => ⟨rfl, rfl, ?_, rfl⟩, fun h => absurd h hlt⟩
    intro i h1
    simp only [getElem?_storeAt]
    rw [if_neg (by omega)]

/-- Witness for C2 (amended): the two-item queue with the error result `boom`. -/
theorem C2_error_result_witness :
    QueueState twoItemQueue ∧ ("boom" : String) ≠ "" ∧
      ∃ (m' : Model) (f : StoreFile) (c : Cmd),
        Update {} twoItemQueue (.downloadResult { Err := "boom" }) = .ret m' f c ∧
        ∃ cur, indexAt m'.Download.QueueItems (twoItemQueue.Download.QueueIndex - 1) = some cur ∧
          cur.Status = QueueStatusError ∧ cur.Error = "boom" :=
  have hq : QueueState twoItemQueue := by decide
  ⟨hq, by decide,
    (C2_error_result {} twoItemQueue { Err := "boom" } hq (by decide)).imp
      (fun _ h => h.imp (fun _ h => h.imp (fun _ h => ⟨h.1, h.2.1⟩)))⟩

/-- C3: for every queue state with `QueueIndex < QueueTotal` whose current item is
Downloading, and every `DownloadResultMsg` with empty `Err`, `Model.Update`
returns; afterwards the previously current item has status Complete and, when
the result's `Destination` is non-empty, that destination; `QueueIndex` has
increased by exactly 1; the new current item has status Downloading; the live
progress is reset to 0 with empty speed, ETA and phase; and `Completed` is left
as it was, so it stays false. -/
theorem C3_success_result_advances (w : World) (m : Model) (msg : DownloadResultMsg)
    (cur : QueueItem) (hq : QueueState m)
    (hlt : m.Download.QueueIndex < m.Download.QueueTotal)
    (hcur : indexAt m.Download.QueueItems (m.Download.QueueIndex - 1) = some cur)
    (_hst : cur.Status = QueueStatusDownloading) (herr : msg.Err = "") :
    ∃ (m' : Model) (f : StoreFile) (c : Cmd),
      Update w m (.downloadResult msg) = .ret m' f c ∧
      (∃ prev, indexAt m'.Download.QueueItems (m.Download.QueueIndex - 1) = some prev ∧
        prev.Status = QueueStatusComplete ∧
        (msg.Destination ≠ "" → prev.Destination = msg.Destination)) ∧
      m'.Download.QueueIndex = m.Download.QueueIndex + 1 ∧
      (∃ next, indexAt m'.Download.QueueItems (m'.Download.QueueIndex - 1) = some next ∧
        next.Status = QueueStatusDownloading) ∧
      m'.Download.Progress.targetPercent = 0 ∧ m'.Download.CurrentSpeed = "" ∧
      m'.Download.CurrentETA = "" ∧ m'.Download.Phase = "" ∧
      m'.Download.Completed = m.Download.Completed ∧
      (m.Download.Completed = false → m'.Download.Completed = false) := by
  have hcur0 := (lt_length_of_indexAt hcur).1
  have hmark : (applyResult msg cur).Status = QueueStatusComplete ∧
      (msg.Destination ≠ "" → (applyResult msg cur).Destination = msg.Destination) := by
    unfold applyResult
    by_cases hd : msg.Destination = "" <;> simp [herr, hd]
  simp only [Update]
  rw [updateDownloadResult_queue w m msg cur hq.1 hcur, if_pos hlt]
  obtain ⟨next, hnext⟩ := hq.next hlt
  have hnext' : indexAt (storeAt m.Download.QueueItems (m.Download.QueueIndex - 1)
      (applyResult msg cur)) m.Download.QueueIndex = some next := by
    rw [indexAt_storeAt_of_ne _ _ hcur0 (by omega) (by omega)]
    exact hnext
  obtain ⟨m', f, c, hret, hidx, hitems, hp, hs, he, hph, hc, _⟩ :=
    advance_spec w (queueLabel m) { m with LoadingType := "" }
      { m.Download with
        QueueItems := storeAt m.Download.QueueItems (m.Download.QueueIndex - 1)
          (applyResult msg cur) } next hnext'
  refine ⟨m', f, c, hret, ?_, hidx, ?_, hp, hs, he, hph, hc, fun h => hc.trans h⟩
  · refine ⟨applyResult msg cur, ?_, hmark⟩
    rw [hitems]
    simp only
    rw [indexAt_storeAt_of_ne _ _ (by omega) hcur0 (by omega)]
    exact indexAt_storeAt_self _ hcur
  · refine ⟨{ next with Status := QueueStatusDownloading }, ?_, rfl⟩
    rw [hitems, hidx, add_sub_cancel_right]
    exact indexAt_storeAt_self _ hnext'

/-- Witness for C3: the first item of the two-item queue succeeds with destination
`/tmp/a.mp4` (`TestModelUpdateDownloadResultAdvancesToNextQueueItem`). -/
theorem C3_success_result_advances_witness :
    QueueState twoItemQueue ∧
      twoItemQueue.Download.QueueIndex < twoItemQueue.Download.QueueTotal ∧
      ∃ (m' : Model) (f : StoreFile) (c : Cmd),
        Update {} twoItemQueue (.downloadResult { Destination := "/tmp/a.mp4" }) =
          .ret m' f c ∧
        m'.Download.QueueIndex = twoItemQueue.Download.QueueIndex + 1 :=
  ⟨by decide, by decide,
    (C3_success_result_advances {} twoItemQueue { Destination := "/tmp/a.mp4" }
      { Index := 1, Video := makeVideo "id1" "video one", URL := "u1",
        Status := QueueStatusDownloading }
      (by decide) (by decide) rfl rfl rfl).imp
      (fun _ h => h.imp (fun _ h => h.imp (fun _ h => ⟨h.1, h.2.2.1⟩)))⟩

/-- C4 as stated fails: after the only download of a one-item queue failed, the
queue is Completed with `QueueError = "boom"` (the state in which the view offers
Skip and Retry); handling `RetryCurrentQueueItemMsg` then changes the status of
the item from Error to Downloading. -/
theorem C4_terminal_flags_counterexample :
    ∃ (m' : Model) (f : StoreFile) (c : Cmd),
      Update {} oneItemFailed .retryCurrentQueueItem = .ret m' f c ∧
      QueueState oneItemFailed ∧
      oneItemFailed.Download.Completed = true ∧
      oneItemFailed.Download.QueueError = "boom" ∧
      oneItemFailed.Download.QueueItems.map (fun it => it.Status) = [QueueStatusError] ∧
      m'.Download.QueueItems.map (fun it => it.Status) = [QueueStatusDownloading] :=
  ⟨_, _, _, rfl, by decide, by decide, by decide, by decide, by decide⟩

/-- C4 (amended): for every queue state in which `Completed` or `Cancelled` is true,
handling a `SkipCurrentQueueItemMsg` or `RetryCurrentQueueItemMsg` sent while
`QueueError` is set, or a `DownloadResultMsg` that arrives while the queue is not
`Cancelled` and its current item is Downloading, returns, removes no item and
changes no item other than the current one and the one right after it (the item
the queue advances to, touched only when `QueueIndex < QueueTotal`);
`Completed` and `Cancelled` are never reset: the flag that was true is still
true. -/
theorem C4_terminal_flags (w : World) (m : Model) (msg : Msg) (hq : QueueState m)
    (hflag : m.Download.Completed = true ∨ m.Download.Cancelled = true)
    (hmsg : (∃ r, msg = .downloadResult r) ∨ msg = .skipCurrentQueueItem ∨
      msg = .retryCurrentQueueItem)
    (_hdel : Delivered m msg) :
    ∃ (m' : Model) (f : StoreFile) (c : Cmd),
      Update w m msg = .ret m' f c ∧
      m'.Download.QueueItems.length = m.Download.QueueItems.length ∧
      (∀ i : Nat, (i : Int) ≠ m.Download.QueueIndex - 1 → (i : Int) ≠ m.Download.QueueIndex →
        m'.Download.QueueItems[i]? = m.Download.QueueItems[i]?) ∧
      (m.Download.Completed = true → m'.Download.Completed = true) ∧
      (m.Download.Cancelled = true → m'.Download.Cancelled = true) ∧
      (m'.Download.Completed = true ∨ m'.Download.Cancelled = true) := by
  obtain ⟨cur, hcur⟩ := hq.current
  have hcur0 := (lt_length_of_indexAt hcur).1
  -- the advance branch, for any marking of the current item
  have adv : ∀ (m0 : Model) (d : DownloadModel) (v : QueueItem),
      d.QueueItems = storeAt m.Download.QueueItems (m.Download.QueueIndex - 1) v →
      d.QueueIndex = m.Download.QueueIndex → d.Completed = m.Download.Completed →
      d.Cancelled = m.Download.Cancelled →
      m.Download.QueueIndex < m.Download.QueueTotal →
      ∃ (m' : Model) (f : StoreFile) (c : Cmd),
        advance w (queueLabel m) m0 d = .ret m' f c ∧
        m'.Download.QueueItems.length = m.Download.QueueItems.length ∧
        (∀ i : Nat, (i : Int) ≠ m.Download.QueueIndex - 1 →
          (i : Int) ≠ m.Download.QueueIndex →
          m'.Download.QueueItems[i]? = m.Download.QueueItems[i]?) ∧
        (m.Download.Completed = true → m'.Download.Completed = true) ∧
        (m.Download.Cancelled = true → m'.Download.Cancelled = true) := by
    intro m0 d v hitems hidx hc hca hlt
    obtain ⟨next, hnext⟩ := hq.next hlt
    have hnext' : indexAt d.QueueItems d.QueueIndex = some next := by
      rw [hitems, hidx, indexAt_storeAt_of_ne _ _ hcur0 (by omega) (by omega)]
      exact hnext
    obtain ⟨m', f, c, hret, _, hit', _, _, _, _, hc', hca', _⟩ :=
      advance_spec w (queueLabel m) m0 d next hnext'
    refine ⟨m', f, c, hret, ?_, ?_, fun h => by rw [hc', hc]; exact h,
      fun h => by rw [hca', hca]; exact h⟩
    · rw [hit', hitems, length_storeAt, length_storeAt]
    · intro i h1 h2
      rw [hit', hitems, hidx]
      simp only [getElem?_storeAt]
      rw [if_neg (by omega), if_neg (by omega)]
  have last : ∀ (v : QueueItem) (i : Nat), (i : Int) ≠ m.Download.QueueIndex - 1 →
      (storeAt m.Download.QueueItems (m.Download.QueueIndex - 1) v)[i]? =
        m.Download.QueueItems[i]? := by
    intro v i h1
    rw [getElem?_storeAt, if_neg (by omega)]
  rcases hmsg with ⟨r, rfl⟩ | rfl | rfl
  · simp only [Update]
    rw [updateDownloadResult_queue w m r cur hq.1 hcur]
    by_cases hlt : m.Download.QueueIndex < m.Download.QueueTotal
    · simp only [if_pos hlt]
      obtain ⟨m', f, c, h1, h2, h3, h4, h5⟩ := adv { m with LoadingType := "" }
        { m.Download with
          QueueItems := storeAt m.Download.QueueItems (m.Download.QueueIndex - 1)
            (applyResult r cur) } (applyResult r cur) rfl rfl rfl rfl hlt
      exact ⟨m', f, c, h1, h2, h3, h4, h5, hflag.imp h4 h5⟩
    · simp only [if_neg hlt]
      exact ⟨_, _, _, rfl, length_storeAt _ _ _, fun i h1 _ => last _ i h1, fun _ => rfl,
        fun h => h, Or.inl rfl⟩
  · simp only [Update]
    rw [updateSkipCurrentQueueItem_queue w m cur hq.1 hcur]
    by_cases hlt : m.Download.QueueIndex < m.Download.QueueTotal
    · simp only [if_pos hlt]
      obtain ⟨m', f, c, h1, h2, h3, h4, h5⟩ := adv m
        { m.Download with
          QueueItems := storeAt m.Download.QueueItems (m.Download.QueueIndex - 1)
            { cur with Status := QueueStatusSkipped }
          QueueError := "" } { cur with Status := QueueStatusSkipped } rfl rfl rfl rfl hlt
      exact ⟨m', f, c, h1, h2, h3, h4, h5, hflag.imp h4 h5⟩
    · simp only [if_neg hlt]
      exact ⟨_, _, _, rfl, length_storeAt _ _ _, fun i h1 _ => last _ i h1, fun _ => rfl,
        fun h => h, Or.inl rfl⟩
  · simp only [Update]
    obtain ⟨m', c, hret, hit, _, _, _, _, _, _, _, hc, hca, _⟩ :=
      updateRetryCurrentQueueItem_queue w m cur hq.1 hcur
    refine ⟨m', _, c, hret, ?_, ?_, fun h => by rw [hc]; exact h,
      fun h => by rw [hca]; exact h, ?_⟩
    · rw [hit, length_storeAt]
    · intro i h1 _
      rw [hit]
      exact last _ i h1
    · rw [hc, hca]; exact hflag

/-- Witness for C4 (amended): the failed one-item queue, which shows the error
`boom`, handles a retry. -/
theorem C4_terminal_flags_witness :
    QueueState oneItemFailed ∧ oneItemFailed.Download.Completed = true ∧
      oneItemFailed.Download.QueueError = "boom" ∧
      Delivered oneItemFailed .retryCurrentQueueItem ∧
      ∃ (m' : Model) (f : StoreFile) (c : Cmd),
        Update {} oneItemFailed .retryCurrentQueueItem = .ret m' f c ∧
        m'.Download.QueueItems.length = oneItemFailed.Download.QueueItems.length ∧
        m'.Download.Completed = true :=
  have hdel : Delivered oneItemFailed .retryCurrentQueueItem := by
    show oneItemFailed.Download.QueueError ≠ ""
    decide
  ⟨by decide, by decide, by decide, hdel,
    (C4_terminal_flags {} oneItemFailed .retryCurrentQueueItem (by decide)
      (Or.inl (by decide)) (Or.inr (Or.inr rfl)) hdel).imp
      (fun _ h => h.imp (fun _ h => h.imp (fun _ h =>
        ⟨h.1, h.2.1, h.2.2.2.1 (by decide)⟩)))⟩

/-- C5: for every queue state, `Model.Update` returns on `CancelDownloadMsg`;
afterwards the current item, if it was Downloading, has status Pending; every
item whose status was Complete, Error or Skipped is unchanged in every field;
and no item is removed from the queue: the queue has the same length and every
item keeps all its fields other than the status. -/
theorem C5_cancel_requeues_current (w : World) (m : Model) (hq : QueueState m) :
    ∃ (m' : Model) (f : StoreFile) (c : Cmd),
      Update w m .cancelDownload = .ret m' f c ∧
      (∀ cur, indexAt m.Download.QueueItems (m.Download.QueueIndex - 1) = some cur →
        cur.Status = QueueStatusDownloading →
        ∃ cur', indexAt m'.Download.QueueItems (m.Download.QueueIndex - 1) = some cur' ∧
          cur'.Status = QueueStatusPending) ∧
      (∀ (i : Nat) (it : QueueItem), m.Download.QueueItems[i]? = some it →
        it.Status = QueueStatusComplete ∨ it.Status = QueueStatusError ∨
          it.Status = QueueStatusSkipped →
        m'.Download.QueueItems[i]? = some it) ∧
      m'.Download.QueueItems.length = m.Download.QueueItems.length ∧
      (∀ (i : Nat) (it : QueueItem), m.Download.QueueItems[i]? = some it →
        ∃ it', m'.Download.QueueItems[i]? = some it' ∧
          it' = { it with Status := it'.Status }) := by
  obtain ⟨m', f, hret, hitems, _⟩ := updateCancelDownload_queue w m hq.1 hq.2.1
  refine ⟨m', f, .nil, hret, ?_, ?_, ?_, ?_⟩
  · intro cur hcur hst
    rw [indexAt_eq_some] at hcur
    refine ⟨{ cur with Status := QueueStatusPending }, ?_, rfl⟩
    rw [indexAt_eq_some, hitems, getElem?_requeueFrom, hcur.2]
    simp only [Option.map_some']
    rw [if_pos ⟨Nat.le_refl _, hst⟩]
    exact ⟨hcur.1, rfl⟩
  · intro i it hi hst
    rw [hitems, getElem?_requeueFrom, hi]
    have : ¬ it.Status = QueueStatusDownloading := by
      rcases hst with h | h | h <;> rw [h] <;> decide
    simp only [Option.map_some']
    rw [if_neg (fun h => this h.2)]
  · rw [hitems, length_requeueFrom]
  · intro i it hi
    rw [hitems, getElem?_requeueFrom, hi]
    by_cases h : (m.Download.QueueIndex - 1).toNat ≤ i ∧ it.Status = QueueStatusDownloading
    · exact ⟨{ it with Status := QueueStatusPending },
        by simp only [Option.map_some']; rw [if_pos h], rfl⟩
    · exact ⟨it, by simp only [Option.map_some']; rw [if_neg h], rfl⟩

/-- Witness for C5: cancelling the two-item queue
(`TestModelUpdateCancelDownloadQueueRequeuesCurrentItem`). -/
theorem C5_cancel_requeues_current_witness :
    QueueState twoItemQueue ∧
      ∃ (m' : Model) (f : StoreFile) (c : Cmd),
        Update {} twoItemQueue .cancelDownload = .ret m' f c ∧
        m'.Download.QueueItems.length = twoItemQueue.Download.QueueItems.length :=
  ⟨by decide,
    (C5_cancel_requeues_current {} twoItemQueue (by decide)).imp
      (fun _ h => h.imp (fun _ h => h.imp (fun _ h => ⟨h.1, h.2.2.2.1⟩)))⟩

/-- C6 as stated fails: in the queue of two items whose first item is Downloading
with URL `u1` and whose second item is Pending with an empty URL, cancelling
leaves both items Pending, so the URLs of the items that are Pending or Error
are `u1` and the empty URL; the entry written under the queue key lists `u1`
only, because `pendingQueueURLs` leaves empty URLs out. -/
theorem C6_cancel_recovery_entry_counterexample :
    ∃ (m' : Model) (f : StoreFile) (c : Cmd) (e : UnfinishedDownload),
      Update {} emptyURLQueue .cancelDownload = .ret m' f c ∧
      QueueState emptyURLQueue ∧
      downloadingCount emptyURLQueue.Download.QueueItems ≤ 1 ∧
      (indexAt emptyURLQueue.Download.QueueItems (emptyURLQueue.Download.QueueIndex - 1)).map
        (fun it => (it.Status, it.URL)) = some (QueueStatusDownloading, "u1") ∧
      m'.Download.Cancelled = true ∧ m'.Download.Completed = true ∧
      GetUnfinishedByURL f (QueueUnfinishedKey (queueLabel emptyURLQueue)) = some e ∧
      e.URLs = ["u1"] ∧
      (m'.Download.QueueItems.filter (fun it =>
          it.Status = QueueStatusPending ∨ it.Status = QueueStatusError)).map
        (fun it => it.URL) = ["u1", ""] :=
  ⟨_, _, _, _, rfl, by decide, by decide, by decide, by decide, by decide, rfl,
    by decide, by decide⟩

/-- C6 (amended): for every queue state with at most one Downloading item whose
current item is Downloading and has a non-empty URL, and every loadable
recovery file, `Model.Update` returns on `CancelDownloadMsg`; afterwards both
`Cancelled` and `Completed` are true and the recovery store holds an entry under
key `QueueUnfinishedKey(label)` whose URL list is exactly the non-empty URLs, in
queue order, of all items that are Pending or Error after the cancel, including
the URL of the item that was being downloaded. -/
theorem C6_cancel_recovery_entry (w : World) (m : Model) (cur : QueueItem)
    (ds : List UnfinishedDownload) (hq : QueueState m)
    (hone : downloadingCount m.Download.QueueItems ≤ 1)
    (hcur : indexAt m.Download.QueueItems (m.Download.QueueIndex - 1) = some cur)
    (hst : cur.Status = QueueStatusDownloading) (hurl : cur.URL ≠ "")
    (hload : LoadUnfinished w.file = .ok ds) :
    ∃ (m' : Model) (f : StoreFile) (c : Cmd) (e : UnfinishedDownload),
      Update w m .cancelDownload = .ret m' f c ∧
      m'.Download.Cancelled = true ∧ m'.Download.Completed = true ∧
      GetUnfinishedByURL f (QueueUnfinishedKey (queueLabel m)) = some e ∧
      e.URLs = ((m'.Download.QueueItems.filter (fun it =>
          it.Status = QueueStatusPending ∨ it.Status = QueueStatusError)).map
        (fun it => it.URL)).filter (fun u => u ≠ "") ∧
      cur.URL ∈ e.URLs := by
  obtain ⟨m', f, hret, hitems, hca, hco, _, _, hf⟩ :=
    updateCancelDownload_queue w m hq.1 hq.2.1
  rw [indexAt_eq_some] at hcur
  -- the requeued current item
  have hcur' : m'.Download.QueueItems[(m.Download.QueueIndex - 1).toNat]? =
      some { cur with Status := QueueStatusPending } := by
    rw [hitems, getElem?_requeueFrom, hcur.2]
    simp only [Option.map_some']
    rw [if_pos ⟨Nat.le_refl _, hst⟩]
  have hmem := List.getElem?_mem hcur'
  -- no item is Downloading after the cancel
  have hnoD : ∀ it ∈ m'.Download.QueueItems, ¬ it.Status = QueueStatusDownloading := by
    intro it hit hD
    obtain ⟨i, hi⟩ := List.getElem?_of_mem hit
    rw [hitems, getElem?_requeueFrom, Option.map_eq_some'] at hi
    obtain ⟨it0, hit0, hit'⟩ := hi
    split at hit'
    · rw [← hit'] at hD
      exact absurd (show QueueStatusPending = QueueStatusDownloading from hD) (by decide)
    · rename_i hn
      rw [← hit'] at hD
      have hik := countP_le_one_unique _ _ hone i (m.Download.QueueIndex - 1).toNat it0 cur
        hit0 hcur.2 (by simpa using hD) (by simpa using hst)
      exact hn ⟨by omega, hD⟩
  have hurls : pendingQueueURLs m'.Download.QueueItems =
      ((m'.Download.QueueItems.filter (fun it =>
          it.Status = QueueStatusPending ∨ it.Status = QueueStatusError)).map
        (fun it => it.URL)).filter (fun u => u ≠ "") := by
    rw [pendingQueueURLs_eq]
    congr 2
    apply List.filter_congr
    intro it hit
    simp [hnoD it hit]
  have hin : cur.URL ∈ pendingQueueURLs m'.Download.QueueItems := by
    rw [hurls, List.mem_filter]
    refine ⟨List.mem_map.mpr ⟨_, List.mem_filter.mpr ⟨hmem, ?_⟩, rfl⟩, by simpa using hurl⟩
    simp
  have hrem : 0 < queueRemaining m'.Download.QueueItems := by
    rw [queueRemaining_eq]
    have : { cur with Status := QueueStatusPending } ∈
        m'.Download.QueueItems.filter (fun it => it.Status = QueueStatusPending ∨
          it.Status = QueueStatusDownloading) :=
      List.mem_filter.mpr ⟨hmem, by simp⟩
    have := List.length_pos_of_mem this
    omega
  have hne : pendingQueueURLs m'.Download.QueueItems ≠ [] := List.ne_nil_of_mem hin
  rw [if_neg (by omega)] at hf
  refine ⟨m', f, .nil,
    { URL := QueueUnfinishedKey (queueLabel m), FormatID := m.Download.QueueFormatID,
      Title := queueLabel m,
      Desc := toString (queueRemaining m'.Download.QueueItems) ++ " items left",
      URLs := pendingQueueURLs m'.Download.QueueItems,
      Videos := pendingQueueVideos m'.Download.QueueItems, Timestamp := w.now },
    hret, hca, hco, ?_, hurls, hin⟩
  rw [hf]
  exact updateQueueUnfinished_write w m _ _ _ _ ds hload hrem hne

/-- Witness for C6 (amended): cancelling the two-item queue on a fresh store
(`TestModelUpdateCancelDownloadQueueRequeuesCurrentItem`). -/
theorem C6_cancel_recovery_entry_witness :
    QueueState twoItemQueue ∧ downloadingCount twoItemQueue.Download.QueueItems ≤ 1 ∧
      ∃ (m' : Model) (f : StoreFile) (c : Cmd) (e : UnfinishedDownload),
        Update {} twoItemQueue .cancelDownload = .ret m' f c ∧
        GetUnfinishedByURL f (QueueUnfinishedKey (queueLabel twoItemQueue)) = some e ∧
        "u1" ∈ e.URLs :=
  ⟨by decide, by decide,
    (C6_cancel_recovery_entry {} twoItemQueue
      { Index := 1, Video := makeVideo "id1" "video one", URL := "u1",
        Status := QueueStatusDownloading } [] (by decide) (by decide) rfl rfl (by decide)
      rfl).imp
      (fun _ h => h.imp (fun _ h => h.imp (fun _ h => h.imp
        (fun _ h => ⟨h.1, h.2.2.2.1, h.2.2.2.2.2⟩))))⟩

/-- C7: for every model state, handling `StartQueueDownloadMsg` or
`StartQueueConfirmWithFormatMsg` with an empty video list panics: no model and
no command is returned, so no queue state is produced and no download request
is issued, and the recovery file at the panic is the file as it was before the
call, so no recovery entry was written. -/
theorem C7_start_queue_empty_panics (w : World) (m : Model) (msg : StartQueueDownloadMsg)
    (cmsg : StartQueueConfirmWithFormatMsg) (hmsg : msg.Videos = [])
    (hcmsg : cmsg.Videos = []) :
    Update w m (.startQueueDownload msg) = .panic w.file ∧
      Update w m (.startQueueConfirmWithFormat cmsg) = .panic w.file := by
  simp only [Update, hmsg, hcmsg]
  exact ⟨rfl, rfl⟩

/-- Witness for C7: the message of `TestModelUpdateStartQueueDownloadEmptyVideosPanics`. -/
theorem C7_start_queue_empty_panics_witness :
    Update {} {} (.startQueueDownload { FormatID := "best", Videos := [] }) = .panic .missing ∧
      Update {} {} (.startQueueConfirmWithFormat { FormatID := "best", Videos := [] }) =
        .panic .missing :=
  C7_start_queue_empty_panics {} {} { FormatID := "best", Videos := [] }
    { FormatID := "best", Videos := [] } rfl rfl

/-- C8: for every list of n >= 1 videos and every loadable recovery file,
`Model.Update` returns on `StartQueueDownloadMsg`; afterwards `QueueTotal = n`,
`QueueIndex = 1`, there are n items, item i (1-based) has `Index` i, the i-th
video and URL `BuildVideoURL(video.ID)`, item 1 has status Downloading and every
other item Pending, and the recovery store holds an entry under key
`QueueUnfinishedKey(label)`, where label is the queue label computed by
`Model.Update` and stored in `QueueLabel`, whose URL list is the n item URLs in
queue order. -/
theorem C8_start_queue_initializes (w : World) (m : Model) (msg : StartQueueDownloadMsg)
    (ds : List UnfinishedDownload) (hne : msg.Videos ≠ [])
    (hload : LoadUnfinished w.file = .ok ds) :
    ∃ (m' : Model) (f : StoreFile) (c : Cmd) (e : UnfinishedDownload),
      Update w m (.startQueueDownload msg) = .ret m' f c ∧
      m'.Download.QueueTotal = (msg.Videos.length : Int) ∧
      m'.Download.QueueIndex = 1 ∧
      m'.Download.QueueItems.length = msg.Videos.length ∧
      (∀ (i : Nat) (v : VideoItem), msg.Videos[i]? = some v →
        ∃ it, m'.Download.QueueItems[i]? = some it ∧ it.Index = (i : Int) + 1 ∧
          it.Video = v ∧ it.URL = BuildVideoURL v.ID ∧
          it.Status = if i = 0 then QueueStatusDownloading else QueueStatusPending) ∧
      m'.Download.QueueLabel = queueLabel m ∧
      GetUnfinishedByURL f (QueueUnfinishedKey m'.Download.QueueLabel) = some e ∧
      e.URLs = m'.Download.QueueItems.map (fun it => it.URL) ∧
      e.URLs = msg.Videos.map (fun v => BuildVideoURL v.ID) := by
  simp only [Update]
  cases hv : msg.Videos with
  | nil => exact absurd hv hne
  | cons v vs =>
    obtain ⟨m', c, hret, _, htotal, hidx, hlabel, _, _, _, _, hitems, _⟩ :=
      startQueue_spec w m v vs msg.FormatID msg.IsAudioTab msg.ABR
    have hurls := pendingQueueURLs_buildQueueItems (fun v => BuildVideoURL v.ID) 0 (v :: vs)
      (fun v => BuildVideoURL_ne_empty v.ID)
    refine ⟨m', _, c,
      { URL := QueueUnfinishedKey (queueLabel m), FormatID := msg.FormatID,
        Title := queueLabel m,
        Desc := toString (((v :: vs).length : Nat) : Int) ++ " items left",
        URLs := pendingQueueURLs (buildQueueItems (fun v => BuildVideoURL v.ID) 0 (v :: vs)),
        Videos := pendingQueueVideos (buildQueueItems (fun v => BuildVideoURL v.ID) 0 (v :: vs)),
        Timestamp := w.now },
      hret, htotal, hidx, ?_, ?_, hlabel, ?_, ?_, hurls⟩
    · rw [hitems]
      simp [length_buildQueueItems]
    · intro i x hi
      rw [hitems]
      cases i with
      | zero =>
        simp only [List.getElem?_cons_zero, Option.some.injEq] at hi
        subst hi
        exact ⟨_, List.getElem?_cons_zero, rfl, rfl, rfl, rfl⟩
      | succ i =>
        simp only [List.getElem?_cons_succ] at hi
        simp only [List.getElem?_cons_succ, getElem?_buildQueueItems, hi, Option.map_some']
        refine ⟨_, rfl, ?_, rfl, rfl, ?_⟩
        · simp only [Nat.cast_add, Nat.cast_one]
          omega
        · simp
    · rw [hlabel]
      exact updateQueueUnfinished_write w m _ _ _ _ ds hload (by simp)
        (by rw [hurls]; simp)
    · rw [hitems]
      simp only [hurls, List.map_cons, map_URL_buildQueueItems]

/-- Witness for C8: the two videos of `TestModelUpdateStartQueueDownloadInitializesQueue`
on a fresh store. -/
theorem C8_start_queue_initializes_witness :
    startTwoVideos.Videos ≠ [] ∧
      ∃ (m' : Model) (f : StoreFile) (c : Cmd) (e : UnfinishedDownload),
        Update {} { CurrentQuery := "  query label  " } (.startQueueDownload startTwoVideos) =
          .ret m' f c ∧
        GetUnfinishedByURL f (QueueUnfinishedKey m'.Download.QueueLabel) = some e ∧
        e.URLs = startTwoVideos.Videos.map (fun v => BuildVideoURL v.ID) :=
  ⟨by decide,
    (C8_start_queue_initializes {} { CurrentQuery := "  query label  " } startTwoVideos []
      (by decide) rfl).imp
      (fun _ h => h.imp (fun _ h => h.imp (fun _ h => h.imp
        (fun _ h => ⟨h.1, h.2.2.2.2.2.2.1, h.2.2.2.2.2.2.2.2⟩))))⟩

/-- C9: for every queue state, `Model.Update` returns on `SkipCurrentQueueItemMsg`;
afterwards the current item is the old current item with status Skipped and
`QueueError` is empty; no item other than the current and the next one changes.
If `QueueIndex < QueueTotal` then `QueueIndex` increases by 1, the new current
item is the old next item with status Downloading and the recovery entry is
rewritten with the remaining items: the recovery file is the result of
`updateQueueUnfinished` on the remaining count, the pending URLs and the
pending videos of the new queue, and in a loadable store, when some item that is
Pending, Downloading or Error has a URL, the entry under the queue key has the
label as title, the format of the queue, the number of Pending and Downloading
items in its description, and lists exactly the non-empty URLs and the videos
(those with an ID or a title) of the items that are Pending, Downloading or
Error, in queue order.  Otherwise the recovery entry of the queue is absent from
the store and `Completed` is true.  The queue key is `queue:` followed by the
trimmed label of the queue when that is not blank. -/
theorem C9_skip_current_item (w : World) (m : Model) (hq : QueueState m) :
    ∃ (m' : Model) (f : StoreFile) (c : Cmd) (cur : QueueItem),
      Update w m .skipCurrentQueueItem = .ret m' f c ∧
      indexAt m'.Download.QueueItems (m.Download.QueueIndex - 1) = some cur ∧
      cur.Status = QueueStatusSkipped ∧
      m'.Download.QueueError = "" ∧
      (m.Download.QueueIndex < m.Download.QueueTotal →
        m'.Download.QueueIndex = m.Download.QueueIndex + 1 ∧
        (∃ next, indexAt m'.Download.QueueItems (m'.Download.QueueIndex - 1) = some next ∧
          next.Status = QueueStatusDownloading) ∧
        f = updateQueueUnfinished w (queueLabel m) m.Download.QueueFormatID
          (queueRemaining m'.Download.QueueItems) (pendingQueueURLs m'.Download.QueueItems)
          (pendingQueueVideos m'.Download.QueueItems) ∧
        (∀ ds, LoadUnfinished w.file = .ok ds → pendingQueueURLs m'.Download.QueueItems ≠ [] →
          ∃ e, GetUnfinishedByURL f (QueueUnfinishedKey (queueLabel m)) = some e ∧
            e.URLs = pendingQueueURLs m'.Download.QueueItems ∧
            e.Videos = pendingQueueVideos m'.Download.QueueItems)) ∧
      (¬ m.Download.QueueIndex < m.Download.QueueTotal →
        GetUnfinishedByURL f (QueueUnfinishedKey (queueLabel m)) = none ∧
        m'.Download.Completed = true) ∧
      (∃ old, indexAt m.Download.QueueItems (m.Download.QueueIndex - 1) = some old ∧
        cur = { old with Status := QueueStatusSkipped }) ∧
      m'.Download.QueueItems.length = m.Download.QueueItems.length ∧
      (∀ i : Nat, (i : Int) ≠ m.Download.QueueIndex - 1 → (i : Int) ≠ m.Download.QueueIndex →
        m'.Download.QueueItems[i]? = m.Download.QueueItems[i]?) ∧
      (m.Download.QueueIndex < m.Download.QueueTotal →
        (∃ old, indexAt m.Download.QueueItems m.Download.QueueIndex = some old ∧
          indexAt m'.Download.QueueItems m.Download.QueueIndex =
            some { old with Status := QueueStatusDownloading }) ∧
        ∀ ds, LoadUnfinished w.file = .ok ds →
          (∃ it ∈ m'.Download.QueueItems,
            (it.Status = QueueStatusPending ∨ it.Status = QueueStatusDownloading ∨
              it.Status = QueueStatusError) ∧ it.URL ≠ "") →
          ∃ e, GetUnfinishedByURL f (QueueUnfinishedKey (queueLabel m)) = some e ∧
            e.URL = QueueUnfinishedKey (queueLabel m) ∧
            e.Title = queueLabel m ∧
            e.FormatID = m.Download.QueueFormatID ∧
            e.Desc = toString (((m'.Download.QueueItems.filter (fun it =>
              it.Status = QueueStatusPending ∨
                it.Status = QueueStatusDownloading)).length : Nat) : Int) ++ " items left" ∧
            e.URLs = ((m'.Download.QueueItems.filter (fun it =>
              it.Status = QueueStatusPending ∨ it.Status = QueueStatusDownloading ∨
                it.Status = QueueStatusError)).map (fun it => it.URL)).filter
                  (fun u => u ≠ "") ∧
            e.Videos = ((m'.Download.QueueItems.filter (fun it =>
              it.Status = QueueStatusPending ∨ it.Status = QueueStatusDownloading ∨
                it.Status = QueueStatusError)).map (fun it => it.Video)).filter
                  (fun v => v.ID ≠ "" ∨ v.VideoTitle ≠ "")) ∧
      (TrimSpace m.Download.QueueLabel ≠ "" →
        QueueUnfinishedKey (queueLabel m) = "queue:" ++ TrimSpace m.Download.QueueLabel) := by
  obtain ⟨cur, hcur⟩ := hq.current
  have hcur0 := (lt_length_of_indexAt hcur).1
  simp only [Update]
  rw [updateSkipCurrentQueueItem_queue w m cur hq.1 hcur]
  by_cases hlt : m.Download.QueueIndex < m.Download.QueueTotal
  · rw [if_pos hlt]
    obtain ⟨next, hnext⟩ := hq.next hlt
    have hnext' : indexAt (storeAt m.Download.QueueItems (m.Download.QueueIndex - 1)
        { cur with Status := QueueStatusSkipped }) m.Download.QueueIndex = some next := by
      rw [indexAt_storeAt_of_ne _ _ hcur0 (by omega) (by omega)]
      exact hnext
    obtain ⟨m', f, c, hret, hidx, hitems, _, _, _, _, _, _, hqe, _, _, _, _, hf, _⟩ :=
      advance_spec w (queueLabel m) m
        { m.Download with
          QueueItems := storeAt m.Download.QueueItems (m.Download.QueueIndex - 1)
            { cur with Status := QueueStatusSkipped }
          QueueError := "" } next hnext'
    have hnextD : indexAt m'.Download.QueueItems (m'.Download.QueueIndex - 1) =
        some { next with Status := QueueStatusDownloading } := by
      rw [hitems, hidx, add_sub_cancel_right]
      exact indexAt_storeAt_self _ hnext'
    have hrem : 0 < queueRemaining m'.Download.QueueItems := by
      rw [queueRemaining_eq]
      have hD := hnextD
      rw [indexAt_eq_some] at hD
      have : { next with Status := QueueStatusDownloading } ∈
          m'.Download.QueueItems.filter (fun it => it.Status = QueueStatusPending ∨
            it.Status = QueueStatusDownloading) :=
        List.mem_filter.mpr ⟨List.getElem?_mem hD.2, by simp⟩
      have := List.length_pos_of_mem this
      omega
    have hentry : ∀ ds, LoadUnfinished w.file = .ok ds →
        pendingQueueURLs m'.Download.QueueItems ≠ [] →
        GetUnfinishedByURL f (QueueUnfinishedKey (queueLabel m)) =
          some { URL := QueueUnfinishedKey (queueLabel m),
                 FormatID := m.Download.QueueFormatID, Title := queueLabel m,
                 Desc := toString (queueRemaining m'.Download.QueueItems) ++ " items left",
                 URLs := pendingQueueURLs m'.Download.QueueItems,
                 Videos := pendingQueueVideos m'.Download.QueueItems,
                 Timestamp := w.now } := by
      intro ds hload hne
      have hw := updateQueueUnfinished_write w m m.Download.QueueFormatID
        (queueRemaining m'.Download.QueueItems) (pendingQueueURLs m'.Download.QueueItems)
        (pendingQueueVideos m'.Download.QueueItems) ds hload hrem hne
      rw [← hf] at hw
      exact hw
    refine ⟨m', f, c, { cur with Status := QueueStatusSkipped }, hret, ?_, rfl, hqe,
      fun _ => ⟨hidx, ⟨_, hnextD, rfl⟩, hf, fun ds hload hne => ⟨_, hentry ds hload hne, rfl, rfl⟩⟩,
      fun h => absurd hlt h, ⟨cur, hcur, rfl⟩, ?_, ?_, fun _ => ⟨⟨next, hnext, ?_⟩, ?_⟩,
      queueKey_of_label m⟩
    · rw [hitems]
      simp only
      rw [indexAt_storeAt_of_ne _ _ (by omega) hcur0 (by omega)]
      exact indexAt_storeAt_self _ hcur
    · rw [hitems, length_storeAt, length_storeAt]
    · intro i h1 h2
      rw [hitems]
      simp only [getElem?_storeAt]
      rw [if_neg (by omega), if_neg (by omega)]
    · rw [hidx, add_sub_cancel_right] at hnextD
      exact hnextD
    · intro ds hload hex
      obtain ⟨it, hmem, hs, hu⟩ := hex
      refine ⟨_, hentry ds hload (pendingQueueURLs_ne_nil _ it hmem hs hu), rfl, rfl, rfl, ?_,
        pendingQueueURLs_eq _, pendingQueueVideos_eq _⟩
      simp only
      rw [queueRemaining_eq]
  · rw [if_neg hlt]
    refine ⟨_, _, _, { cur with Status := QueueStatusSkipped }, rfl,
      indexAt_storeAt_self _ hcur, rfl, rfl, fun h => absurd h hlt,
      fun _ => ⟨updateQueueUnfinished_remove w m _ 0 [] [] (le_refl 0), rfl⟩,
      ⟨cur, hcur, rfl⟩, length_storeAt _ _ _, ?_, fun h => absurd h hlt,
      queueKey_of_label m⟩
    intro i h1 _
    simp only
    rw [getElem?_storeAt, if_neg (by omega)]

/-- Witness for C9: skipping the first item of the two-item queue labelled
`queue` advances to the second item and rewrites the entry `queue:queue` with
the URL and the video of the second item; skipping the only item of a one-item
queue completes it (`TestModelUpdateSkipLastQueueItemCompletesQueue`). -/
theorem C9_skip_current_item_witness :
    QueueState twoItemQueue ∧
      (∃ (m' : Model) (f : StoreFile) (c : Cmd) (cur : QueueItem),
        Update {} twoItemQueue .skipCurrentQueueItem = .ret m' f c ∧
        indexAt m'.Download.QueueItems (twoItemQueue.Download.QueueIndex - 1) = some cur ∧
        cur.Status = QueueStatusSkipped ∧
        m'.Download.QueueIndex = 2) ∧
      (∃ (m' : Model) (f : StoreFile) (c : Cmd),
        Update {} twoItemQueue .skipCurrentQueueItem = .ret m' f c ∧
        m'.Download.QueueItems.map (fun it => (it.URL, it.Status)) =
          [("u1", QueueStatusSkipped), ("u2", QueueStatusDownloading)] ∧
        GetUnfinishedByURL f "queue:queue" =
          some { URL := "queue:queue", FormatID := "best", Title := "queue",
                 Desc := "1 items left", URLs := ["u2"],
                 Videos := [makeVideo "id2" "video two"], Timestamp := 0 }) ∧
      (∃ (m' : Model) (f : StoreFile) (c : Cmd),
        GetUnfinishedByURL storedQueueWorld.file "queue:queue" ≠ none ∧
        Update storedQueueWorld oneItemQueue .skipCurrentQueueItem = .ret m' f c ∧
        m'.Download.QueueItems.map (fun it => (it.URL, it.Status)) =
          [("u1", QueueStatusSkipped)] ∧
        m'.Download.Completed = true ∧
        GetUnfinishedByURL f "queue:queue" = none) :=
  ⟨by decide,
    (C9_skip_current_item {} twoItemQueue (by decide)).imp
      (fun _ h => h.imp (fun _ h => h.imp (fun _ h => h.imp
        (fun _ h => ⟨h.1, h.2.1, h.2.2.1, (h.2.2.2.2.1 (by decide)).1⟩)))),
    ⟨_, _, _, rfl, by decide, by decide⟩,
    ⟨_, _, _, by decide, rfl, by decide, by decide, by decide⟩⟩

/-- C10: for every queue state whose current item has status Error, `Model.Update`
returns on `RetryCurrentQueueItemMsg`; afterwards the current item has status
Downloading and an empty `Error`, `QueueError` is empty, the live progress is
reset to 0 with empty speed and ETA, `QueueIndex` is unchanged, and the issued
`DownloadRequest` carries the URL of the current item and the unchanged
`QueueIndex` and `QueueTotal`. -/
theorem C10_retry_current_item (w : World) (m : Model) (cur : QueueItem) (hq : QueueState m)
    (hcur : indexAt m.Download.QueueItems (m.Download.QueueIndex - 1) = some cur)
    (_hst : cur.Status = QueueStatusError) :
    ∃ (m' : Model) (f : StoreFile) (req : DownloadRequest) (cur' : QueueItem),
      Update w m .retryCurrentQueueItem = .ret m' f (.StartDownload req) ∧
      indexAt m'.Download.QueueItems (m'.Download.QueueIndex - 1) = some cur' ∧
      cur'.Status = QueueStatusDownloading ∧ cur'.Error = "" ∧
      m'.Download.QueueError = "" ∧
      m'.Download.Progress.targetPercent = 0 ∧ m'.Download.CurrentSpeed = "" ∧
      m'.Download.CurrentETA = "" ∧
      m'.Download.QueueIndex = m.Download.QueueIndex ∧
      req.URL = cur.URL ∧ req.QueueIndex = m.Download.QueueIndex ∧
      req.QueueTotal = m.Download.QueueTotal := by
  obtain ⟨m', c, hret, hitems, hidx, htotal, hqe, hp, hs, he, _, _, _, hc⟩ :=
    updateRetryCurrentQueueItem_queue w m cur hq.1 hcur
  subst hc
  refine ⟨m', w.file, _, { cur with Status := QueueStatusDownloading, Error := "" }, hret, ?_,
    rfl, rfl, hqe, hp, hs, he, hidx, rfl, ?_, ?_⟩
  · rw [hitems, hidx]
    exact indexAt_storeAt_self _ hcur
  · simp only [queueRequest, hidx]
  · simp only [queueRequest, htotal]

/-- Witness for C10: the queue of `TestModelUpdateRetryCurrentQueueItemClearsError`. -/
theorem C10_retry_current_item_witness :
    QueueState retryQueue ∧
      ∃ (m' : Model) (f : StoreFile) (req : DownloadRequest) (cur' : QueueItem),
        Update {} retryQueue .retryCurrentQueueItem = .ret m' f (.StartDownload req) ∧
        indexAt m'.Download.QueueItems (m'.Download.QueueIndex - 1) = some cur' ∧
        cur'.Status = QueueStatusDownloading ∧ cur'.Error = "" ∧
        m'.Download.QueueError = "" :=
  ⟨by decide,
    (C10_retry_current_item {} retryQueue
      { Index := 1, Video := makeVideo "id1" "video one", URL := "u1",
        Status := QueueStatusError, Error := "old error" } (by decide) rfl rfl).imp
      (fun _ h => h.imp (fun _ h => h.imp (fun _ h => h.imp
        (fun _ h => ⟨h.1, h.2.1, h.2.2.1, h.2.2.2.1, h.2.2.2.2.1⟩))))⟩

/-! ## Progress events -/

/-- The `ProgressMsg` case of `DownloadModel.Update`, field by field. -/
theorem DownloadModel.Update_progress (m : DownloadModel) (msg : ProgressMsg) :
    (m.Update (.progress msg)).Progress = m.Progress.SetPercent (msg.Percent / 100) ∧
      (m.Update (.progress msg)).CurrentSpeed = msg.Speed ∧
      (m.Update (.progress msg)).CurrentETA = msg.Eta ∧
      (m.Update (.progress msg)).Phase = msg.Status ∧
      (m.Update (.progress msg)).FileDestination =
        (if msg.Destination ≠ "" then msg.Destination else m.FileDestination) ∧
      (m.Update (.progress msg)).QueueIndex = m.QueueIndex ∧
      (m.Update (.progress msg)).QueueItems =
        (if m.IsQueue = true ∧ msg.QueueIndex > 0 ∧ msg.QueueIndex = m.QueueIndex ∧
            (m.QueueItems.length : Int) ≥ msg.QueueIndex then
          List.modify (applyProgress msg) (msg.QueueIndex - 1).toNat m.QueueItems
        else m.QueueItems) := by
  unfold DownloadModel.Update
  by_cases hg : m.IsQueue = true ∧ msg.QueueIndex > 0 ∧ msg.QueueIndex = m.QueueIndex ∧
      (m.QueueItems.length : Int) ≥ msg.QueueIndex
  · by_cases hd : msg.Destination = "" <;> by_cases he : msg.FileExtension = "" <;>
      simp only [hd, he, if_pos hg, ne_eq, not_true_eq_false, not_false_eq_true, if_true,
        if_false, and_self]
  · by_cases hd : msg.Destination = "" <;> by_cases he : msg.FileExtension = "" <;>
      simp only [hd, he, if_neg hg, ne_eq, not_true_eq_false, not_false_eq_true, if_true,
        if_false, and_self]

/-- C11 as stated fails: while the second item of the queue is the current one
(`QueueIndex = 2`, live fields reset), a late `ProgressMsg` with `QueueIndex = 1`
leaves the queue items as they are but overwrites the displayed live state:
the percentage, `CurrentSpeed`, `CurrentETA`, `Phase` and `FileDestination` all
take the values of the stale event. -/
theorem C11_progress_event_counterexample :
    secondItemCurrent.IsQueue = true ∧
      staleProgress.QueueIndex ≠ secondItemCurrent.QueueIndex ∧
      (secondItemCurrent.Update (.progress staleProgress)).QueueItems =
        secondItemCurrent.QueueItems ∧
      secondItemCurrent.Progress.targetPercent = 0 ∧
      (secondItemCurrent.Update (.progress staleProgress)).Progress.targetPercent = 99 / 100 ∧
      secondItemCurrent.CurrentSpeed = "" ∧
      (secondItemCurrent.Update (.progress staleProgress)).CurrentSpeed = "2.50MiB/s" ∧
      secondItemCurrent.CurrentETA = "" ∧
      (secondItemCurrent.Update (.progress staleProgress)).CurrentETA = "00:01" ∧
      secondItemCurrent.Phase = "" ∧
      (secondItemCurrent.Update (.progress staleProgress)).Phase = "[download]" ∧
      secondItemCurrent.FileDestination = "" ∧
      (secondItemCurrent.Update (.progress staleProgress)).FileDestination = "/tmp/a.mp4" := by
  refine ⟨by decide, by decide, by decide, rfl, ?_, by decide, by decide, by decide, by decide,
    by decide, by decide, by decide, by decide⟩
  rw [(DownloadModel.Update_progress secondItemCurrent staleProgress).1]
  simp only [ProgressModel.SetPercent, staleProgress]
  norm_num

/-- C11 (amended): for every download state in queue mode and every `ProgressMsg`,
`DownloadModel.Update` always overwrites the displayed live state with the
values of the event (percentage `Percent / 100` clamped to `[0, 1]`,
`CurrentSpeed`, `CurrentETA`, `Phase`, and `FileDestination` when the event has
one), whatever its `QueueIndex`.  The index guards the queue items only: an
event whose `QueueIndex` differs from the current `QueueIndex` leaves every
queue item unchanged, and an event whose index equals the current index
updates percent, speed, ETA and destination of the current item and of no
other item. -/
theorem C11_progress_event (m : DownloadModel) (msg : ProgressMsg) (_hq : m.IsQueue = true) :
    (m.Update (.progress msg)).Progress = m.Progress.SetPercent (msg.Percent / 100) ∧
      (m.Update (.progress msg)).CurrentSpeed = msg.Speed ∧
      (m.Update (.progress msg)).CurrentETA = msg.Eta ∧
      (m.Update (.progress msg)).Phase = msg.Status ∧
      (m.Update (.progress msg)).FileDestination =
        (if msg.Destination ≠ "" then msg.Destination else m.FileDestination) ∧
      (msg.QueueIndex ≠ m.QueueIndex →
        (m.Update (.progress msg)).QueueItems = m.QueueItems) ∧
      (msg.QueueIndex = m.QueueIndex →
        ∀ cur, indexAt m.QueueItems (m.QueueIndex - 1) = some cur →
          (∃ cur', indexAt (m.Update (.progress msg)).QueueItems (m.QueueIndex - 1) =
              some cur' ∧
            cur'.Progress = msg.Percent ∧ cur'.Speed = msg.Speed ∧ cur'.ETA = msg.Eta ∧
            cur'.Destination =
              (if msg.Destination ≠ "" then msg.Destination else cur.Destination) ∧
            cur'.Status = cur.Status ∧ cur'.URL = cur.URL) ∧
          ∀ i : Nat, (i : Int) ≠ m.QueueIndex - 1 →
            (m.Update (.progress msg)).QueueItems[i]? = m.QueueItems[i]?) := by
  obtain ⟨h1, h2, h3, h4, h5, _, h7⟩ := DownloadModel.Update_progress m msg
  refine ⟨h1, h2, h3, h4, h5, ?_, ?_⟩
  · intro hne
    rw [h7, if_neg (fun h => hne h.2.2.1)]
  · intro heq cur hcur
    have hb := lt_length_of_indexAt hcur
    rw [indexAt_eq_some] at hcur
    have hg : m.IsQueue = true ∧ msg.QueueIndex > 0 ∧ msg.QueueIndex = m.QueueIndex ∧
        (m.QueueItems.length : Int) ≥ msg.QueueIndex := ⟨_hq, by omega, heq, by omega⟩
    rw [h7, if_pos hg, heq]
    constructor
    · refine ⟨applyProgress msg cur, ?_, ?_⟩
      · rw [indexAt_eq_some]
        refine ⟨hcur.1, ?_⟩
        rw [List.getElem?_modify, hcur.2]
        simp
      · unfold applyProgress
        by_cases hd : msg.Destination = "" <;> simp [hd]
    · intro i hi
      have : (m.QueueIndex - 1).toNat ≠ i := by omega
      exact List.getElem?_modify_ne _ _ this

/-- Witness for C11 (amended): the stale event on the queue whose second item is
the current one. -/
theorem C11_progress_event_witness :
    secondItemCurrent.IsQueue = true ∧
      (secondItemCurrent.Update (.progress staleProgress)).CurrentSpeed = "2.50MiB/s" ∧
      (staleProgress.QueueIndex ≠ secondItemCurrent.QueueIndex →
        (secondItemCurrent.Update (.progress staleProgress)).QueueItems =
          secondItemCurrent.QueueItems) :=
  have h := C11_progress_event secondItemCurrent staleProgress (by decide)
  ⟨by decide, h.2.1, h.2.2.2.2.2.1⟩

/-! ## The shape of one queue event -/

/-- What a queue event does to the items and the index of a queue state: a
cancel requeues from the current position; the other events write a new status
to the current item and, for a result or a skip with items remaining, advance
to the next item. -/
theorem queueEvent_items {w : World} {m : Model} {msg : Msg} {m' : Model} {f : StoreFile}
    {c : Cmd} (hq : QueueState m) (hmsg : msg.isQueueEvent = true)
    (hret : Update w m msg = .ret m' f c) :
    m'.Download.IsQueue = true ∧ m'.Download.QueueTotal = m.Download.QueueTotal ∧
      ((msg = .cancelDownload ∧ m'.Download.QueueIndex = m.Download.QueueIndex ∧
          m'.Download.QueueItems =
            requeueFrom (m.Download.QueueIndex - 1).toNat m.Download.QueueItems) ∨
        ∃ v, Marks msg v ∧
          ((m'.Download.QueueIndex = m.Download.QueueIndex ∧
              m'.Download.QueueItems =
                storeAt m.Download.QueueItems (m.Download.QueueIndex - 1) v) ∨
            ∃ next, m.Download.QueueIndex < m.Download.QueueTotal ∧
              indexAt m.Download.QueueItems m.Download.QueueIndex = some next ∧
              m'.Download.QueueIndex = m.Download.QueueIndex + 1 ∧
              m'.Download.QueueItems =
                storeAt (storeAt m.Download.QueueItems (m.Download.QueueIndex - 1) v)
                  m.Download.QueueIndex { next with Status := QueueStatusDownloading })) := by
  obtain ⟨cur, hcur⟩ := hq.current
  have hcur0 := (lt_length_of_indexAt hcur).1
  -- the advance branch after the current item was overwritten by `v`
  have adv : ∀ (m0 : Model) (d : DownloadModel) (v : QueueItem),
      d.QueueItems = storeAt m.Download.QueueItems (m.Download.QueueIndex - 1) v →
      d.QueueIndex = m.Download.QueueIndex → d.QueueTotal = m.Download.QueueTotal →
      d.IsQueue = true → m.Download.QueueIndex < m.Download.QueueTotal →
      advance w (queueLabel m) m0 d = .ret m' f c →
      m'.Download.IsQueue = true ∧ m'.Download.QueueTotal = m.Download.QueueTotal ∧
        ∃ next, m.Download.QueueIndex < m.Download.QueueTotal ∧
          indexAt m.Download.QueueItems m.Download.QueueIndex = some next ∧
          m'.Download.QueueIndex = m.Download.QueueIndex + 1 ∧
          m'.Download.QueueItems =
            storeAt (storeAt m.Download.QueueItems (m.Download.QueueIndex - 1) v)
              m.Download.QueueIndex { next with Status := QueueStatusDownloading } := by
    intro m0 d v hitems hidx htot hisq hlt hadv
    obtain ⟨next, hnext⟩ := hq.next hlt
    have hnext' : indexAt d.QueueItems d.QueueIndex = some next := by
      rw [hitems, hidx, indexAt_storeAt_of_ne _ _ hcur0 (by omega) (by omega)]
      exact hnext
    obtain ⟨m1, f1, c1, hret1, hidx1, hitems1, _, _, _, _, _, _, _, htot1, hisq1, _⟩ :=
      advance_spec w (queueLabel m) m0 d next hnext'
    rw [hret1] at hadv
    cases hadv
    exact ⟨hisq1.trans hisq, htot1.trans htot, next, hlt, hnext, hidx1.trans (by rw [hidx]),
      by rw [hitems1, hitems, hidx]⟩
  cases msg with
  | downloadResult r =>
    simp only [Update] at hret
    rw [updateDownloadResult_queue w m r cur hq.1 hcur] at hret
    have hmark : Marks (.downloadResult r) (applyResult r cur) := by
      refine Or.inl ⟨⟨r, rfl⟩, ?_⟩
      rw [applyResult_status]
      by_cases he : r.Err = ""
      · left; simp [he]
      · right; simp [he]
    by_cases hlt : m.Download.QueueIndex < m.Download.QueueTotal
    · rw [if_pos hlt] at hret
      obtain ⟨h1, h2, h3⟩ := adv { m with LoadingType := "" }
        { m.Download with
          QueueItems := storeAt m.Download.QueueItems (m.Download.QueueIndex - 1)
            (applyResult r cur) } (applyResult r cur) rfl rfl rfl hq.1 hlt hret
      exact ⟨h1, h2, Or.inr ⟨_, hmark, Or.inr h3⟩⟩
    · rw [if_neg hlt] at hret
      cases hret
      exact ⟨hq.1, rfl, Or.inr ⟨_, hmark, Or.inl ⟨rfl, rfl⟩⟩⟩
  | skipCurrentQueueItem =>
    simp only [Update] at hret
    rw [updateSkipCurrentQueueItem_queue w m cur hq.1 hcur] at hret
    have hmark : Marks .skipCurrentQueueItem { cur with Status := QueueStatusSkipped } :=
      Or.inr (Or.inl ⟨rfl, rfl⟩)
    by_cases hlt : m.Download.QueueIndex < m.Download.QueueTotal
    · rw [if_pos hlt] at hret
      obtain ⟨h1, h2, h3⟩ := adv m
        { m.Download with
          QueueItems := storeAt m.Download.QueueItems (m.Download.QueueIndex - 1)
            { cur with Status := QueueStatusSkipped }
          QueueError := "" } { cur with Status := QueueStatusSkipped } rfl rfl rfl hq.1 hlt hret
      exact ⟨h1, h2, Or.inr ⟨_, hmark, Or.inr h3⟩⟩
    · rw [if_neg hlt] at hret
      cases hret
      exact ⟨hq.1, rfl, Or.inr ⟨_, hmark, Or.inl ⟨rfl, rfl⟩⟩⟩
  | retryCurrentQueueItem =>
    simp only [Update] at hret
    obtain ⟨m1, c1, hret1, hitems, hidx, htot, _⟩ :=
      updateRetryCurrentQueueItem_queue w m cur hq.1 hcur
    have hisq : m1.Download.IsQueue = true := by
      unfold updateRetryCurrentQueueItem at hret1
      simp only [hq.1, hcur, not_true_eq_false, if_false] at hret1
      cases hret1
      rfl
    rw [hret1] at hret
    cases hret
    exact ⟨hisq, htot, Or.inr ⟨_, Or.inr (Or.inr ⟨rfl, rfl⟩), Or.inl ⟨hidx, hitems⟩⟩⟩
  | cancelDownload =>
    simp only [Update] at hret
    obtain ⟨m1, f1, hret1, hitems, _, _, hidx, htot, _⟩ :=
      updateCancelDownload_queue w m hq.1 hq.2.1
    have hisq : m1.Download.IsQueue = true := by
      unfold updateCancelDownload at hret1
      have h : ¬ m.Download.QueueIndex - 1 < 0 := by have := hq.2.1; omega
      simp only [hq.1, h, if_true, if_false] at hret1
      cases hret1
      rfl
    rw [hret1] at hret
    cases hret
    exact ⟨hisq, htot, Or.inl ⟨rfl, hidx, hitems⟩⟩
  | startResumeDownload msg => cases hmsg
  | startQueueConfirmWithFormat msg => cases hmsg
  | startQueueDownload msg => cases hmsg

theorem queueEvent_wf {w : World} {m : Model} {msg : Msg} {m' : Model} {f : StoreFile}
    {c : Cmd} (hq : QueueState m) (hlp : LaterPending m.Download)
    (hmsg : msg.isQueueEvent = true) (hret : Update w m msg = .ret m' f c) :
    QueueState m' ∧ LaterPending m'.Download := by
  obtain ⟨hisq, htot, hshape⟩ := queueEvent_items hq hmsg hret
  obtain ⟨_, h1, h2, h3⟩ := hq
  rcases hshape with ⟨_, hidx, hitems⟩ | ⟨v, _, ⟨hidx, hitems⟩ | ⟨next, hlt, _, hidx, hitems⟩⟩
  · refine ⟨⟨hisq, by omega, by omega, by rw [hitems, length_requeueFrom]; omega⟩, ?_⟩
    intro i it hi hge
    rw [hitems, getElem?_requeueFrom, Option.map_eq_some'] at hi
    obtain ⟨it0, hit0, rfl⟩ := hi
    split
    · rfl
    · exact hlp i it0 hit0 (by omega)
  · refine ⟨⟨hisq, by omega, by omega, by rw [hitems, length_storeAt]; omega⟩, ?_⟩
    intro i it hi hge
    rw [hitems, getElem?_storeAt, if_neg (by omega)] at hi
    exact hlp i it hi (by omega)
  · refine ⟨⟨hisq, by omega, by omega,
      by rw [hitems, length_storeAt, length_storeAt]; omega⟩, ?_⟩
    intro i it hi hge
    rw [hitems, getElem?_storeAt, if_neg (by omega), getElem?_storeAt, if_neg (by omega)] at hi
    exact hlp i it hi (by omega)

theorem started_wf {m : Model} (h : Started m) : QueueState m ∧ LaterPending m.Download := by
  obtain ⟨w, m0, msg, hne, f, c, hret⟩ := h
  simp only [Update] at hret
  cases hv : msg.Videos with
  | nil => exact absurd hv hne
  | cons v vs =>
    obtain ⟨m1, c1, hret1, hisq, htot, hidx, _, _, _, _, _, hitems, _⟩ :=
      startQueue_spec w m0 v vs msg.FormatID msg.IsAudioTab msg.ABR
    rw [hv, hret1] at hret
    cases hret
    refine ⟨⟨hisq, by omega, by rw [hidx, htot]; simp, ?_⟩, ?_⟩
    · rw [htot, hitems]
      simp [length_buildQueueItems]
    · intro i it hi hge
      rw [hitems] at hi
      cases i with
      | zero => rw [hidx] at hge; omega
      | succ i =>
        simp only [List.getElem?_cons_succ] at hi
        exact status_buildQueueItems _ _ _ it (List.getElem?_mem hi)

/-- Every reachable model is a queue state whose items after the current one are
all Pending. -/
theorem reachable_wf {m : Model} (h : Reachable m) : QueueState m ∧ LaterPending m.Download := by
  obtain ⟨m0, hstart, hsteps⟩ := h
  induction hsteps with
  | refl => exact started_wf hstart
  | tail _ hstep ih =>
    obtain ⟨w, msg, hmsg, f, c, hret⟩ := hstep
    exact queueEvent_wf ih.1 ih.2 hmsg hret

/-! ## The error prompt stands at the last item -/

theorem updateCancelDownload_error {w : World} {m m' : Model} {f : StoreFile} {c : Cmd}
    (hq : m.Download.IsQueue = true) (h1 : 1 ≤ m.Download.QueueIndex)
    (hret : updateCancelDownload w m = .ret m' f c) :
    m'.Download.QueueError = m.Download.QueueError := by
  unfold updateCancelDownload at hret
  have h : ¬ m.Download.QueueIndex - 1 < 0 := by omega
  simp only [hq, h, if_true, if_false] at hret
  cases hret
  rfl

theorem queueEvent_errorAtLast {w : World} {m : Model} {msg : Msg} {m' : Model} {f : StoreFile}
    {c : Cmd} (hq : QueueState m) (hinv : ErrorAtLast m.Download)
    (hmsg : msg.isQueueEvent = true) (hret : Update w m msg = .ret m' f c) :
    ErrorAtLast m'.Download := by
  obtain ⟨cur, hcur⟩ := hq.current
  have hcur0 := (lt_length_of_indexAt hcur).1
  cases msg with
  | downloadResult r =>
    simp only [Update] at hret
    rw [updateDownloadResult_queue w m r cur hq.1 hcur] at hret
    by_cases hlt : m.Download.QueueIndex < m.Download.QueueTotal
    · rw [if_pos hlt] at hret
      obtain ⟨next, hnext⟩ := hq.next hlt
      have hnext' : indexAt (storeAt m.Download.QueueItems (m.Download.QueueIndex - 1)
          (applyResult r cur)) m.Download.QueueIndex = some next := by
        rw [indexAt_storeAt_of_ne _ _ hcur0 (by omega) (by omega)]
        exact hnext
      obtain ⟨m1, f1, c1, hret1, _, _, _, _, _, _, _, _, hqe, _⟩ :=
        advance_spec w (queueLabel m) { m with LoadingType := "" }
          { m.Download with
            QueueItems := storeAt m.Download.QueueItems (m.Download.QueueIndex - 1)
              (applyResult r cur) } next hnext'
      rw [hret1] at hret
      cases hret
      intro hne
      rw [hqe] at hne
      have := (hinv hne).1
      omega
    · rw [if_neg hlt] at hret
      cases hret
      intro hne
      have hidx : m.Download.QueueIndex = m.Download.QueueTotal := by
        have := hq.2.2.1
        omega
      refine ⟨hidx, applyResult r cur, indexAt_storeAt_self _ hcur, ?_⟩
      rw [applyResult_status, if_pos hne]
  | skipCurrentQueueItem =>
    simp only [Update] at hret
    rw [updateSkipCurrentQueueItem_queue w m cur hq.1 hcur] at hret
    by_cases hlt : m.Download.QueueIndex < m.Download.QueueTotal
    · rw [if_pos hlt] at hret
      obtain ⟨next, hnext⟩ := hq.next hlt
      have hnext' : indexAt (storeAt m.Download.QueueItems (m.Download.QueueIndex - 1)
          { cur with Status := QueueStatusSkipped }) m.Download.QueueIndex = some next := by
        rw [indexAt_storeAt_of_ne _ _ hcur0 (by omega) (by omega)]
        exact hnext
      obtain ⟨m1, f1, c1, hret1, _, _, _, _, _, _, _, _, hqe, _⟩ :=
        advance_spec w (queueLabel m) m
          { m.Download with
            QueueItems := storeAt m.Download.QueueItems (m.Download.QueueIndex - 1)
              { cur with Status := QueueStatusSkipped }
            QueueError := "" } next hnext'
      rw [hret1] at hret
      cases hret
      intro hne
      exact absurd hqe hne
    · rw [if_neg hlt] at hret
      cases hret
      intro hne
      exact absurd rfl hne
  | retryCurrentQueueItem =>
    simp only [Update] at hret
    obtain ⟨m1, c1, hret1, _, _, _, hqe, _⟩ :=
      updateRetryCurrentQueueItem_queue w m cur hq.1 hcur
    rw [hret1] at hret
    cases hret
    intro hne
    exact absurd hqe hne
  | cancelDownload =>
    simp only [Update] at hret
    have hqe := updateCancelDownload_error hq.1 hq.2.1 hret
    obtain ⟨m1, f1, hret1, hitems, _, _, hidx, htot, _⟩ :=
      updateCancelDownload_queue w m hq.1 hq.2.1
    rw [hret1] at hret
    cases hret
    intro hne
    rw [hqe] at hne
    obtain ⟨hlast, cur0, hcur0', hst⟩ := hinv hne
    refine ⟨by rw [hidx, htot]; exact hlast, cur0, ?_, hst⟩
    rw [indexAt_eq_some] at hcur0' ⊢
    refine ⟨by rw [hidx]; exact hcur0'.1, ?_⟩
    rw [hitems, hidx, getElem?_requeueFrom, hcur0'.2, Option.map_some', if_neg]
    rw [hst]
    intro h
    exact absurd h.2 (by decide)
  | startResumeDownload msg => cases hmsg
  | startQueueConfirmWithFormat msg => cases hmsg
  | startQueueDownload msg => cases hmsg

/-- In every reachable model the error prompt stands at the last item, which is in
status Error. -/
theorem reachable_errorAtLast {m : Model} (h : Reachable m) : ErrorAtLast m.Download := by
  obtain ⟨m0, hstart, hsteps⟩ := h
  induction hsteps with
  | refl =>
    obtain ⟨w, m1, msg, hne, f, c, hret⟩ := hstart
    simp only [Update] at hret
    cases hv : msg.Videos with
    | nil => exact absurd hv hne
    | cons v vs =>
      obtain ⟨m2, c2, hret2, _, _, _, _, _, _, _, hqe, _⟩ :=
        startQueue_spec w m1 v vs msg.FormatID msg.IsAudioTab msg.ABR
      rw [hv, hret2] at hret
      cases hret
      intro hne
      exact absurd hqe hne
  | tail hprev hstep ih =>
    obtain ⟨w, msg, hmsg, f, c, hret⟩ := hstep
    exact queueEvent_errorAtLast (reachable_wf ⟨m0, hstart, hprev⟩).1 ih hmsg hret

/-! ## Pending URLs and the recovery entry -/

theorem mem_pendingQueueURLs (items : List QueueItem) (u : String) :
    u ∈ pendingQueueURLs items ↔
      ∃ it ∈ items, (it.Status = QueueStatusPending ∨ it.Status = QueueStatusDownloading ∨
        it.Status = QueueStatusError) ∧ it.URL = u ∧ u ≠ "" := by
  rw [pendingQueueURLs_eq]
  simp only [List.mem_filter, List.mem_map, decide_eq_true_eq]
  constructor
  · rintro ⟨⟨it, ⟨hit, hs⟩, rfl⟩, hu⟩
    exact ⟨it, hit, hs, rfl, hu⟩
  · rintro ⟨it, hit, hs, rfl, hu⟩
    exact ⟨⟨it, ⟨hit, hs⟩, rfl⟩, hu⟩

theorem queueRemaining_nonneg (items : List QueueItem) : 0 ≤ queueRemaining items := by
  rw [queueRemaining_eq]
  omega

theorem queueRemaining_pos_of_mem (items : List QueueItem) (it : QueueItem) (h : it ∈ items)
    (hs : it.Status = QueueStatusPending ∨ it.Status = QueueStatusDownloading) :
    0 < queueRemaining items := by
  rw [queueRemaining_eq]
  have : it ∈ items.filter (fun it => it.Status = QueueStatusPending ∨
      it.Status = QueueStatusDownloading) := List.mem_filter.mpr ⟨h, by simpa using hs⟩
  have := List.length_pos_of_mem this
  omega

/-- A write request for the items of a queue leaves, in a loadable store, the
entry that lists the non-empty URLs of the Pending, Downloading and Error items,
as soon as there is one such URL and the remaining count is positive. -/
theorem recovery_written (w : World) (m : Model) (formatID : String) (remaining : Int)
    (items : List QueueItem) (ds : List UnfinishedDownload)
    (hload : LoadUnfinished w.file = .ok ds)
    (hrem : pendingQueueURLs items ≠ [] → 0 < remaining)
    (hex : ∃ it ∈ items, it.URL ≠ "" ∧ (it.Status = QueueStatusPending ∨
      it.Status = QueueStatusDownloading ∨ it.Status = QueueStatusError)) :
    ∃ e, GetUnfinishedByURL
        (updateQueueUnfinished w (queueLabel m) formatID remaining (pendingQueueURLs items)
          (pendingQueueVideos items)) (QueueUnfinishedKey (queueLabel m)) = some e ∧
      e.URLs = pendingQueueURLs items ∧
      ∀ it ∈ items, it.URL ≠ "" → (it.Status = QueueStatusPending ∨
        it.Status = QueueStatusDownloading ∨ it.Status = QueueStatusError) →
        it.URL ∈ e.URLs := by
  obtain ⟨it0, hit0, hu0, hs0⟩ := hex
  have hne : pendingQueueURLs items ≠ [] :=
    List.ne_nil_of_mem ((mem_pendingQueueURLs items it0.URL).mpr ⟨it0, hit0, hs0, rfl, hu0⟩)
  have hw := updateQueueUnfinished_write w m formatID remaining (pendingQueueURLs items)
    (pendingQueueVideos items) ds hload (hrem hne) hne
  exact ⟨_, hw, rfl, fun it hit hu hs =>
    (mem_pendingQueueURLs items it.URL).mpr ⟨it, hit, hs, rfl, hu⟩⟩

/-! ## Status transitions, recovery lifecycle and derived queries -/

/-- C12 as stated fails: the queue started with one video whose download failed
with `boom` is reachable and shows the error with the Skip action; handling
`SkipCurrentQueueItemMsg` there changes the item from Error to Skipped, which is
none of the listed edges. -/
theorem C12_status_edges_counterexample :
    Reachable startedOneFailed ∧
      ∃ (m' : Model) (f : StoreFile) (c : Cmd),
        Update {} startedOneFailed .skipCurrentQueueItem = .ret m' f c ∧
        startedOneFailed.Download.QueueError = "boom" ∧
        startedOneFailed.Download.QueueItems.map (fun it => it.Status) = [QueueStatusError] ∧
        m'.Download.QueueItems.map (fun it => it.Status) = [QueueStatusSkipped] :=
  ⟨⟨startedOne, ⟨{}, {}, startOneVideo, by decide, _, _, rfl⟩,
      Relation.ReflTransGen.single ⟨{}, .downloadResult { Err := "boom" }, rfl, _, _, rfl⟩⟩,
    _, _, _, rfl, by decide, by decide, by decide⟩

/-- C12 (amended): in every queue state reachable from StartQueue, take an OnCancel
transition, an OnResult transition for a queue that is not `Cancelled` and
whose current item is Downloading, or an OnSkip or OnRetry transition taken
while `QueueError` is set or while the current item is Downloading.  Every
change of an item's status it makes is one of: Pending to Downloading (the item
the queue advances to, by OnResult or OnSkip), Downloading to Complete or
Downloading to Error (the current item, by OnResult), Downloading to Skipped or
Error to Skipped (the current item, by OnSkip), Error to Downloading (the
current item, by OnRetry), Downloading to Pending (by OnCancel).  No other item
changes status. -/
theorem C12_status_edges (w : World) (m : Model) (msg : Msg) (m' : Model) (f : StoreFile)
    (c : Cmd) (i : Nat) (it it' : QueueItem) (hreach : Reachable m)
    (hmsg : msg.isQueueEvent = true)
    (hdel : msg = .cancelDownload ∨ Delivered m msg ∨
      ((msg = .skipCurrentQueueItem ∨ msg = .retryCurrentQueueItem) ∧
        ∃ cur, indexAt m.Download.QueueItems (m.Download.QueueIndex - 1) = some cur ∧
          cur.Status = QueueStatusDownloading))
    (hret : Update w m msg = .ret m' f c)
    (hi : m.Download.QueueItems[i]? = some it) (hi' : m'.Download.QueueItems[i]? = some it')
    (hne : it'.Status ≠ it.Status) :
    ((i : Int) = m.Download.QueueIndex ∧
        ((∃ r, msg = .downloadResult r) ∨ msg = .skipCurrentQueueItem) ∧
        it.Status = QueueStatusPending ∧ it'.Status = QueueStatusDownloading) ∨
      ((i : Int) = m.Download.QueueIndex - 1 ∧
        (((∃ r, msg = .downloadResult r) ∧ it.Status = QueueStatusDownloading ∧
            (it'.Status = QueueStatusComplete ∨ it'.Status = QueueStatusError)) ∨
          (msg = .skipCurrentQueueItem ∧
            (it.Status = QueueStatusDownloading ∨ it.Status = QueueStatusError) ∧
            it'.Status = QueueStatusSkipped) ∨
          (msg = .retryCurrentQueueItem ∧ it.Status = QueueStatusError ∧
            it'.Status = QueueStatusDownloading))) ∨
      (msg = .cancelDownload ∧ it.Status = QueueStatusDownloading ∧
        it'.Status = QueueStatusPending) := by
  obtain ⟨hq, hlp⟩ := reachable_wf hreach
  have herr := reachable_errorAtLast hreach
  obtain ⟨_, _, hshape⟩ := queueEvent_items hq hmsg hret
  have h1 := hq.2.1
  -- the status the current item had, by the kind of the event
  have hold : ∀ v : QueueItem, Marks msg v → v.Status ≠ it.Status →
      m.Download.QueueItems[(m.Download.QueueIndex - 1).toNat]? = some it →
      ((∃ r, msg = .downloadResult r) ∧ it.Status = QueueStatusDownloading ∧
          (v.Status = QueueStatusComplete ∨ v.Status = QueueStatusError)) ∨
        (msg = .skipCurrentQueueItem ∧
          (it.Status = QueueStatusDownloading ∨ it.Status = QueueStatusError) ∧
          v.Status = QueueStatusSkipped) ∨
        (msg = .retryCurrentQueueItem ∧ it.Status = QueueStatusError ∧
          v.Status = QueueStatusDownloading) := by
    intro v hmark hvne hit
    have hsame : ∀ cur, indexAt m.Download.QueueItems (m.Download.QueueIndex - 1) = some cur →
        cur = it := by
      intro cur hcur
      rw [indexAt_eq_some, hit] at hcur
      exact (Option.some.inj hcur.2).symm
    rcases hmark with ⟨⟨r, rfl⟩, hv⟩ | ⟨rfl, hv⟩ | ⟨rfl, hv⟩
    · rcases hdel with h | h | ⟨h | h, _⟩
      · cases h
      · obtain ⟨_, cur, hcur, hD⟩ := h
        rw [hsame cur hcur] at hD
        exact Or.inl ⟨⟨r, rfl⟩, hD, hv⟩
      · cases h
      · cases h
    · rcases hdel with h | h | ⟨_, cur, hcur, hD⟩
      · cases h
      · obtain ⟨_, cur, hcur, hE⟩ := herr h
        rw [hsame cur hcur] at hE
        exact Or.inr (Or.inl ⟨rfl, Or.inr hE, hv⟩)
      · rw [hsame cur hcur] at hD
        exact Or.inr (Or.inl ⟨rfl, Or.inl hD, hv⟩)
    · rcases hdel with h | h | ⟨_, cur, hcur, hD⟩
      · cases h
      · obtain ⟨_, cur, hcur, hE⟩ := herr h
        rw [hsame cur hcur] at hE
        exact Or.inr (Or.inr ⟨rfl, hE, hv⟩)
      · rw [hsame cur hcur] at hD
        rw [hv, hD] at hvne
        exact absurd rfl hvne
  rcases hshape with ⟨hc, _, hitems⟩ | ⟨v, hmark, ⟨_, hitems⟩ | ⟨next, _, hnext, _, hitems⟩⟩
  · right; right
    rw [hitems, getElem?_requeueFrom, hi, Option.map_some', Option.some.injEq] at hi'
    split at hi'
    · rename_i hD
      exact ⟨hc, hD.2, by rw [← hi']⟩
    · rw [hi'] at hne
      exact absurd rfl hne
  · right; left
    rw [hitems, getElem?_storeAt] at hi'
    by_cases hij : (m.Download.QueueIndex - 1).toNat = i
    · rw [if_pos hij] at hi'
      split at hi'
      · cases hi'
        exact ⟨by omega, hold _ hmark hne (by rw [hij]; exact hi)⟩
      · cases hi'
    · rw [if_neg hij, hi] at hi'
      cases hi'
      exact absurd rfl hne
  · rw [hitems, getElem?_storeAt] at hi'
    by_cases hij : m.Download.QueueIndex.toNat = i
    · left
      rw [if_pos hij] at hi'
      split at hi'
      · cases hi'
        rw [indexAt_eq_some, hij, hi] at hnext
        refine ⟨by omega, ?_, hlp i it hi (by omega), rfl⟩
        rcases hmark with ⟨hr, _⟩ | ⟨hs, _⟩ | ⟨hr, _⟩
        · exact Or.inl hr
        · exact Or.inr hs
        · subst hr
          obtain ⟨cur, hcur⟩ := hq.current
          simp only [Update] at hret
          obtain ⟨m1, c1, hret1, _, hidx1, _⟩ :=
            updateRetryCurrentQueueItem_queue w m cur hq.1 hcur
          rw [hret1] at hret
          cases hret
          omega
      · cases hi'
    · right; left
      rw [if_neg hij, getElem?_storeAt] at hi'
      by_cases hij' : (m.Download.QueueIndex - 1).toNat = i
      · rw [if_pos hij'] at hi'
        split at hi'
        · cases hi'
          exact ⟨by omega, hold _ hmark hne (by rw [hij']; exact hi)⟩
        · cases hi'
      · rw [if_neg hij', hi] at hi'
        cases hi'
        exact absurd rfl hne

/-- Witness for C12 (amended): the skip at the error prompt after the failure of
the only item changes the current item from Error to Skipped. -/
theorem C12_status_edges_witness :
    Reachable startedOneFailed ∧
      Delivered startedOneFailed .skipCurrentQueueItem ∧
      ((((0 : Nat) : Int) = startedOneFailed.Download.QueueIndex ∧
          ((∃ r, Msg.skipCurrentQueueItem = .downloadResult r) ∨
            Msg.skipCurrentQueueItem = .skipCurrentQueueItem) ∧
          QueueStatusError = QueueStatusPending ∧
          QueueStatusSkipped = QueueStatusDownloading) ∨
        ((((0 : Nat) : Int) = startedOneFailed.Download.QueueIndex - 1) ∧
          (((∃ r, Msg.skipCurrentQueueItem = .downloadResult r) ∧
              QueueStatusError = QueueStatusDownloading ∧
              (QueueStatusSkipped = QueueStatusComplete ∨
                QueueStatusSkipped = QueueStatusError)) ∨
            (Msg.skipCurrentQueueItem = .skipCurrentQueueItem ∧
              (QueueStatusError = QueueStatusDownloading ∨
                QueueStatusError = QueueStatusError) ∧
              QueueStatusSkipped = QueueStatusSkipped) ∨
            (Msg.skipCurrentQueueItem = .retryCurrentQueueItem ∧
              QueueStatusError = QueueStatusError ∧
              QueueStatusSkipped = QueueStatusDownloading))) ∨
        (Msg.skipCurrentQueueItem = .cancelDownload ∧
          QueueStatusError = QueueStatusDownloading ∧
          QueueStatusSkipped = QueueStatusPending)) :=
  have hreach : Reachable startedOneFailed :=
    ⟨startedOne, ⟨{}, {}, startOneVideo, by decide, _, _, rfl⟩,
      Relation.ReflTransGen.single ⟨{}, .downloadResult { Err := "boom" }, rfl, _, _, rfl⟩⟩
  have hdel : Delivered startedOneFailed .skipCurrentQueueItem := by
    show startedOneFailed.Download.QueueError ≠ ""
    decide
  ⟨hreach, hdel,
    C12_status_edges {} startedOneFailed .skipCurrentQueueItem
      (Update {} startedOneFailed .skipCurrentQueueItem).model
      (updateQueueUnfinished {} (queueLabel startedOneFailed) "best" 0 [] []) .nil 0
      { Index := 1, Video := makeVideo "id1" "video one",
        URL := "https://www.youtube.com/watch?v=id1", Status := QueueStatusError,
        Error := "boom" }
      { Index := 1, Video := makeVideo "id1" "video one",
        URL := "https://www.youtube.com/watch?v=id1", Status := QueueStatusSkipped,
        Error := "boom" }
      hreach rfl (Or.inr (Or.inl hdel)) rfl rfl rfl (by decide)⟩

/-- C13 as stated fails: the only item of the queue fails with `boom` while the
store holds the entry of the queue.  Afterwards the item has status Error and
the non-empty URL `u1`, yet the entry has been removed from the store
(`TestModelUpdateDownloadResultFinalErrorCompletesQueue` expects this). -/
theorem C13_recovery_lifecycle_counterexample :
    ∃ (m' : Model) (f : StoreFile) (c : Cmd),
      Update storedQueueWorld oneItemQueue (.downloadResult { Err := "boom" }) = .ret m' f c ∧
      QueueState oneItemQueue ∧
      (GetUnfinishedByURL storedQueueWorld.file
        (QueueUnfinishedKey (queueLabel oneItemQueue))).map (fun e => e.URLs) = some ["u1"] ∧
      m'.Download.QueueItems.map (fun it => (it.Status, it.URL)) =
        [(QueueStatusError, "u1")] ∧
      GetUnfinishedByURL f (QueueUnfinishedKey (queueLabel oneItemQueue)) = none :=
  ⟨_, _, _, rfl, by decide, by decide, by decide, by decide⟩

/-- C13 (amended): for every queue state, every loadable recovery file and every
OnResult, OnSkip or OnCancel transition of `Model.Update`: after a cancel, and
after a result or a skip with items remaining (`QueueIndex < QueueTotal`), if
at least one item with a non-empty URL has status Pending, Downloading or Error
then the recovery store holds the entry of the queue and its URL list is
exactly the non-empty URLs of these items, so it contains the URL of each of
them; after a result or a skip on the last item (`QueueIndex = QueueTotal`) the
entry is absent from the store, whatever the statuses of the items are. -/
theorem C13_recovery_lifecycle (w : World) (m : Model) (msg : Msg)
    (ds : List UnfinishedDownload) (hq : QueueState m)
    (hload : LoadUnfinished w.file = .ok ds)
    (hmsg : (∃ r, msg = .downloadResult r) ∨ msg = .skipCurrentQueueItem ∨
      msg = .cancelDownload) :
    ∃ (m' : Model) (f : StoreFile) (c : Cmd),
      Update w m msg = .ret m' f c ∧
      ((msg = .cancelDownload ∨ m.Download.QueueIndex < m.Download.QueueTotal) →
        (∃ it ∈ m'.Download.QueueItems, it.URL ≠ "" ∧ (it.Status = QueueStatusPending ∨
          it.Status = QueueStatusDownloading ∨ it.Status = QueueStatusError)) →
        ∃ e, GetUnfinishedByURL f (QueueUnfinishedKey (queueLabel m)) = some e ∧
          e.URLs = pendingQueueURLs m'.Download.QueueItems ∧
          ∀ it ∈ m'.Download.QueueItems, it.URL ≠ "" → (it.Status = QueueStatusPending ∨
            it.Status = QueueStatusDownloading ∨ it.Status = QueueStatusError) →
            it.URL ∈ e.URLs) ∧
      (msg ≠ .cancelDownload → ¬ m.Download.QueueIndex < m.Download.QueueTotal →
        GetUnfinishedByURL f (QueueUnfinishedKey (queueLabel m)) = none) := by
  obtain ⟨cur, hcur⟩ := hq.current
  have hcur0 := (lt_length_of_indexAt hcur).1
  -- the advance branch after the current item was overwritten
  have adv : ∀ (m0 : Model) (d : DownloadModel) (v : QueueItem),
      d.QueueItems = storeAt m.Download.QueueItems (m.Download.QueueIndex - 1) v →
      d.QueueIndex = m.Download.QueueIndex →
      d.QueueFormatID = m.Download.QueueFormatID →
      m.Download.QueueIndex < m.Download.QueueTotal →
      ∃ (m' : Model) (f : StoreFile) (c : Cmd),
        advance w (queueLabel m) m0 d = .ret m' f c ∧
        ((∃ it ∈ m'.Download.QueueItems, it.URL ≠ "" ∧ (it.Status = QueueStatusPending ∨
          it.Status = QueueStatusDownloading ∨ it.Status = QueueStatusError)) →
        ∃ e, GetUnfinishedByURL f (QueueUnfinishedKey (queueLabel m)) = some e ∧
          e.URLs = pendingQueueURLs m'.Download.QueueItems ∧
          ∀ it ∈ m'.Download.QueueItems, it.URL ≠ "" → (it.Status = QueueStatusPending ∨
            it.Status = QueueStatusDownloading ∨ it.Status = QueueStatusError) →
            it.URL ∈ e.URLs) := by
    intro m0 d v hitems hidx hfmt hlt
    obtain ⟨next, hnext⟩ := hq.next hlt
    have hnext' : indexAt d.QueueItems d.QueueIndex = some next := by
      rw [hitems, hidx, indexAt_storeAt_of_ne _ _ hcur0 (by omega) (by omega)]
      exact hnext
    obtain ⟨m', f, c, hret, _, hit', _, _, _, _, _, _, _, _, _, _, _, hf, _⟩ :=
      advance_spec w (queueLabel m) m0 d next hnext'
    refine ⟨m', f, c, hret, fun hex => ?_⟩
    have hmem : { next with Status := QueueStatusDownloading } ∈ m'.Download.QueueItems := by
      have h := indexAt_storeAt_self { next with Status := QueueStatusDownloading } hnext'
      rw [← hit', indexAt_eq_some] at h
      exact List.getElem?_mem h.2
    rw [hf, hfmt]
    exact recovery_written w m _ _ _ ds hload
      (fun _ => queueRemaining_pos_of_mem _ _ hmem (Or.inr rfl)) hex
  rcases hmsg with ⟨r, rfl⟩ | rfl | rfl
  · simp only [Update]
    rw [updateDownloadResult_queue w m r cur hq.1 hcur]
    by_cases hlt : m.Download.QueueIndex < m.Download.QueueTotal
    · rw [if_pos hlt]
      obtain ⟨m', f, c, hret, hw⟩ := adv { m with LoadingType := "" }
        { m.Download with
          QueueItems := storeAt m.Download.QueueItems (m.Download.QueueIndex - 1)
            (applyResult r cur) } (applyResult r cur) rfl rfl rfl hlt
      exact ⟨m', f, c, hret, fun _ => hw, fun _ h => absurd hlt h⟩
    · rw [if_neg hlt]
      refine ⟨_, _, _, rfl, fun h => ?_, fun _ _ =>
        updateQueueUnfinished_remove w m _ 0 [] [] (le_refl 0)⟩
      rcases h with h | h
      · cases h
      · exact absurd h hlt
  · simp only [Update]
    rw [updateSkipCurrentQueueItem_queue w m cur hq.1 hcur]
    by_cases hlt : m.Download.QueueIndex < m.Download.QueueTotal
    · rw [if_pos hlt]
      obtain ⟨m', f, c, hret, hw⟩ := adv m
        { m.Download with
          QueueItems := storeAt m.Download.QueueItems (m.Download.QueueIndex - 1)
            { cur with Status := QueueStatusSkipped }
          QueueError := "" } { cur with Status := QueueStatusSkipped } rfl rfl rfl hlt
      exact ⟨m', f, c, hret, fun _ => hw, fun _ h => absurd hlt h⟩
    · rw [if_neg hlt]
      refine ⟨_, _, _, rfl, fun h => ?_, fun _ _ =>
        updateQueueUnfinished_remove w m _ 0 [] [] (le_refl 0)⟩
      rcases h with h | h
      · cases h
      · exact absurd h hlt
  · simp only [Update]
    obtain ⟨m', f, hret, _, _, _, _, _, hf⟩ := updateCancelDownload_queue w m hq.1 hq.2.1
    refine ⟨m', f, .nil, hret, fun _ hex => ?_, fun h => absurd rfl h⟩
    rw [hf]
    refine recovery_written w m _ _ _ ds hload (fun hne => ?_) hex
    have h0 := queueRemaining_nonneg m'.Download.QueueItems
    have hlen : 0 < (pendingQueueURLs m'.Download.QueueItems).length :=
      List.length_pos.mpr hne
    split
    · omega
    · rename_i hn
      by_contra hle
      exact hn ⟨by omega, hlen⟩

/-- Witness for C13 (amended): cancelling the two-item queue on a fresh store. -/
theorem C13_recovery_lifecycle_witness :
    QueueState twoItemQueue ∧
      ∃ (m' : Model) (f : StoreFile) (c : Cmd),
        Update {} twoItemQueue .cancelDownload = .ret m' f c ∧
        ((∃ it ∈ m'.Download.QueueItems, it.URL ≠ "" ∧ (it.Status = QueueStatusPending ∨
            it.Status = QueueStatusDownloading ∨ it.Status = QueueStatusError)) →
          ∃ e, GetUnfinishedByURL f (QueueUnfinishedKey (queueLabel twoItemQueue)) = some e ∧
            e.URLs = pendingQueueURLs m'.Download.QueueItems) :=
  ⟨by decide,
    (C13_recovery_lifecycle {} twoItemQueue .cancelDownload [] (by decide) rfl
      (Or.inr (Or.inr rfl))).imp
      (fun _ h => h.imp (fun _ h => h.imp (fun _ h =>
        ⟨h.1, fun hex => (h.2.1 (Or.inl rfl) hex).imp (fun _ he => ⟨he.1, he.2.1⟩)⟩)))⟩

/-- C14: for every queue state with `QueueIndex = QueueTotal` and every
`DownloadResultMsg` with non-empty `Err` e, `Model.Update` returns; afterwards
the last item is the old last item with status Error and `Error = e`, no other
item has changed, `QueueError = e`, `Completed` is true, and the recovery entry
of the queue is absent from the store: the entry under the queue key, which is
`queue:` followed by the trimmed `QueueLabel` when that is not blank (and is
otherwise built from the trimmed query, the trimmed playlist name or
`Queued downloads`, the first that is not blank).  The new recovery file is the
old one with the queue key removed, so every other entry is still there. -/
theorem C14_final_error_completes (w : World) (m : Model) (msg : DownloadResultMsg)
    (hq : QueueState m) (hlast : m.Download.QueueIndex = m.Download.QueueTotal)
    (herr : msg.Err ≠ "") :
    ∃ (m' : Model) (f : StoreFile) (c : Cmd) (last : QueueItem),
      Update w m (.downloadResult msg) = .ret m' f c ∧
      m'.Download.QueueItems.getLast? = some last ∧
      indexAt m'.Download.QueueItems (m.Download.QueueTotal - 1) = some last ∧
      last.Status = QueueStatusError ∧ last.Error = msg.Err ∧
      m'.Download.QueueError = msg.Err ∧
      m'.Download.Completed = true ∧
      GetUnfinishedByURL f (QueueUnfinishedKey (queueLabel m)) = none ∧
      (∃ old, m.Download.QueueItems.getLast? = some old ∧
        last = { old with
          Status := QueueStatusError, Error := msg.Err,
          Destination := if msg.Destination ≠ "" then msg.Destination else old.Destination }) ∧
      m'.Download.QueueItems.length = m.Download.QueueItems.length ∧
      (∀ i : Nat, (i : Int) ≠ m.Download.QueueTotal - 1 →
        m'.Download.QueueItems[i]? = m.Download.QueueItems[i]?) ∧
      (TrimSpace m.Download.QueueLabel ≠ "" →
        GetUnfinishedByURL f ("queue:" ++ TrimSpace m.Download.QueueLabel) = none) ∧
      QueueUnfinishedKey (queueLabel m) = "queue:" ++
        (if TrimSpace m.Download.QueueLabel ≠ "" then TrimSpace m.Download.QueueLabel
         else if TrimSpace m.CurrentQuery ≠ "" then TrimSpace m.CurrentQuery
         else if TrimSpace m.VideoList.PlaylistName ≠ "" then
           TrimSpace m.VideoList.PlaylistName
         else "Queued downloads") ∧
      f = (RemoveUnfinished w.file (QueueUnfinishedKey (queueLabel m))).1 ∧
      (∀ k, k ≠ QueueUnfinishedKey (queueLabel m) →
        GetUnfinishedByURL f k = GetUnfinishedByURL w.file k) := by
  obtain ⟨cur, hcur⟩ := hq.current
  have hmark : (applyResult msg cur).Status = QueueStatusError ∧
      (applyResult msg cur).Error = msg.Err := by
    unfold applyResult
    simp [herr]
  have hold : applyResult msg cur =
      { cur with
        Status := QueueStatusError, Error := msg.Err,
        Destination := if msg.Destination ≠ "" then msg.Destination else cur.Destination } := by
    unfold applyResult
    by_cases hd : msg.Destination = "" <;> simp [herr, hd]
  have h1 := hq.2.1
  have hat := indexAt_storeAt_self (applyResult msg cur) hcur
  have hlen := hq.2.2.2
  have hf : updateQueueUnfinished w (queueLabel m) m.Download.QueueFormatID 0 [] [] =
      (RemoveUnfinished w.file (QueueUnfinishedKey (queueLabel m))).1 := by
    rw [updateQueueUnfinished_trimmed w _ _ _ _ _ (TrimSpace_queueLabel m)
      (queueLabel_ne_empty m), if_pos (le_refl 0)]
  have hnone := updateQueueUnfinished_remove w m m.Download.QueueFormatID 0 [] [] (le_refl 0)
  have hkey : QueueUnfinishedKey (queueLabel m) = "queue:" ++
      (if TrimSpace m.Download.QueueLabel ≠ "" then TrimSpace m.Download.QueueLabel
       else if TrimSpace m.CurrentQuery ≠ "" then TrimSpace m.CurrentQuery
       else if TrimSpace m.VideoList.PlaylistName ≠ "" then
         TrimSpace m.VideoList.PlaylistName
       else "Queued downloads") := by
    unfold QueueUnfinishedKey
    rw [TrimSpace_queueLabel]
    unfold queueLabel
    by_cases h1 : TrimSpace m.Download.QueueLabel = "" <;>
      by_cases h2 : TrimSpace m.CurrentQuery = "" <;>
      by_cases h3 : TrimSpace m.VideoList.PlaylistName = "" <;>
      simp [h1, h2, h3]
  simp only [Update]
  rw [updateDownloadResult_queue w m msg cur hq.1 hcur, if_neg (by omega)]
  refine ⟨_, _, _, applyResult msg cur, rfl, ?_, ?_, hmark.1, hmark.2, rfl, rfl, hnone,
    ⟨cur, ?_, hold⟩, length_storeAt _ _ _, ?_, ?_, hkey, hf, ?_⟩
  · simp only
    rw [indexAt_eq_some] at hat
    rw [List.getLast?_eq_getElem?, length_storeAt, ← hat.2]
    congr 1
    omega
  · simp only
    rw [← hlast]
    exact hat
  · rw [indexAt_eq_some] at hcur
    rw [List.getLast?_eq_getElem?, ← hcur.2]
    congr 1
    omega
  · intro i hi
    simp only
    rw [getElem?_storeAt, if_neg (by omega)]
  · intro h
    rw [← queueKey_of_label m h]
    exact hnone
  · intro k hk
    rw [hf]
    exact GetUnfinishedByURL_RemoveUnfinished_ne _ _ _ hk

/-- Witness for C14: the failure of the only item of a one-item queue labelled
`queue` whose entry `queue:queue` is in the store
(`TestModelUpdateDownloadResultFinalErrorCompletesQueue`): afterwards the entry
`queue:queue` is gone. -/
theorem C14_final_error_completes_witness :
    QueueState oneItemQueue ∧
      oneItemQueue.Download.QueueIndex = oneItemQueue.Download.QueueTotal ∧
      oneItemQueue.Download.QueueLabel = "queue" ∧
      GetUnfinishedByURL storedQueueWorld.file "queue:queue" =
        some { URL := "queue:queue", FormatID := "best", Title := "queue",
               Desc := "1 items left", URLs := ["u1"],
               Videos := [makeVideo "id1" "video one"], Timestamp := 0 } ∧
      ∃ (m' : Model) (f : StoreFile) (c : Cmd) (last : QueueItem),
        Update storedQueueWorld oneItemQueue (.downloadResult { Err := "boom" }) =
          .ret m' f c ∧
        m'.Download.QueueItems.getLast? = some last ∧
        last.Status = QueueStatusError ∧ last.Error = "boom" ∧
        m'.Download.QueueError = "boom" ∧ m'.Download.Completed = true ∧
        GetUnfinishedByURL f "queue:queue" = none :=
  ⟨by decide, by decide, by decide, by decide,
    (C14_final_error_completes storedQueueWorld oneItemQueue { Err := "boom" } (by decide)
      (by decide) (by decide)).imp
      (fun _ h => h.imp (fun _ h => h.imp (fun _ h => h.imp
        (fun _ h => ⟨h.1, h.2.1, h.2.2.2.1, h.2.2.2.2.1, h.2.2.2.2.2.1, h.2.2.2.2.2.2.1,
          h.2.2.2.2.2.2.2.2.2.2.2.1 (by decide)⟩))))⟩

/-- C15: for every list of queue items, `queueRemaining` returns exactly the
number of items whose status is Pending or Downloading; an item with status
Error, Complete or Skipped is not counted: taking it out of the list leaves
the result as it is. -/
theorem C15_queueRemaining_counts (items : List QueueItem) :
    queueRemaining items =
        ((items.countP (fun it => it.Status = QueueStatusPending ∨
          it.Status = QueueStatusDownloading) : Nat) : Int) ∧
      ∀ (before after : List QueueItem) (it : QueueItem),
        it.Status = QueueStatusError ∨ it.Status = QueueStatusComplete ∨
          it.Status = QueueStatusSkipped →
        queueRemaining (before ++ it :: after) = queueRemaining (before ++ after) := by
  refine ⟨by rw [queueRemaining_eq, List.countP_eq_length_filter], ?_⟩
  intro before after it hs
  have hno : ¬ (it.Status = QueueStatusPending ∨ it.Status = QueueStatusDownloading) := by
    rcases hs with h | h | h <;> rw [h] <;> decide
  rw [queueRemaining_eq, queueRemaining_eq, List.filter_append, List.filter_append,
    List.filter_cons_of_neg (by simpa using hno)]

/-- Witness for C15: the five statuses of `TestQueueRemaining` give 2. -/
theorem C15_queueRemaining_counts_witness : queueRemaining remainingSampleItems = 2 :=
  (C15_queueRemaining_counts remainingSampleItems).1.trans (by decide)

/-- C16: for every list of queue items, `pendingQueueURLs` returns, in queue order
and with nothing else, the URL of each item whose status is Pending,
Downloading or Error and whose URL is non-empty; an item with status Complete
or Skipped never contributes: taking it out of the list leaves the result as
it is. -/
theorem C16_pendingQueueURLs_filters (items : List QueueItem) :
    pendingQueueURLs items =
        (items.filter (fun it => (it.Status = QueueStatusPending ∨
          it.Status = QueueStatusDownloading ∨ it.Status = QueueStatusError) ∧
          it.URL ≠ "")).map (fun it => it.URL) ∧
      ∀ (before after : List QueueItem) (it : QueueItem),
        it.Status = QueueStatusComplete ∨ it.Status = QueueStatusSkipped →
        pendingQueueURLs (before ++ it :: after) = pendingQueueURLs (before ++ after) := by
  have key : ∀ l : List QueueItem, pendingQueueURLs l =
      (l.filter (fun it => (it.Status = QueueStatusPending ∨
        it.Status = QueueStatusDownloading ∨ it.Status = QueueStatusError) ∧
        it.URL ≠ "")).map (fun it => it.URL) := by
    intro l
    rw [pendingQueueURLs_eq, List.filter_map, List.filter_filter]
    congr 1
    apply List.filter_congr
    intro x _
    by_cases hs : x.Status = QueueStatusPending ∨ x.Status = QueueStatusDownloading ∨
        x.Status = QueueStatusError <;> by_cases hu : x.URL = "" <;> simp [hs, hu]
  refine ⟨key items, ?_⟩
  intro before after it hs
  have hno : ¬ (it.Status = QueueStatusPending ∨ it.Status = QueueStatusDownloading ∨
      it.Status = QueueStatusError) := by
    rcases hs with h | h <;> rw [h] <;> decide
  rw [key, key, List.filter_append, List.filter_append,
    List.filter_cons_of_neg (by simp [hno])]

/-- Witness for C16: the items of `TestPendingQueueURLsFiltersStatusesAndEmptyURL`
give `u1`, `u2`, `u3`. -/
theorem C16_pendingQueueURLs_filters_witness :
    pendingQueueURLs statusSampleItems = ["u1", "u2", "u3"] :=
  (C16_pendingQueueURLs_filters statusSampleItems).1.trans (by decide)

/-! ## The recovery store operations -/

theorem replaceFirst_of_mem (e : UnfinishedDownload) (ds : List UnfinishedDownload)
    (h : ∃ d ∈ ds, d.URL = e.URL) :
    ∃ (before : List UnfinishedDownload) (d : UnfinishedDownload)
      (after : List UnfinishedDownload),
      ds = before ++ d :: after ∧ (∀ x ∈ before, x.URL ≠ e.URL) ∧ d.URL = e.URL ∧
      replaceFirst e ds = some (before ++ e :: after) := by
  induction ds with
  | nil => simp at h
  | cons a as ih =>
    by_cases ha : a.URL = e.URL
    · exact ⟨[], a, as, rfl, by simp, ha, by simp [replaceFirst, ha]⟩
    · have h' : ∃ d ∈ as, d.URL = e.URL := by
        obtain ⟨d, hd, hde⟩ := h
        rcases List.mem_cons.mp hd with rfl | hd
        · exact absurd hde ha
        · exact ⟨d, hd, hde⟩
      obtain ⟨before, d, after, hds, hbefore, hd, hr⟩ := ih h'
      refine ⟨a :: before, d, after, by rw [hds]; rfl, ?_, hd, ?_⟩
      · intro x hx
        rcases List.mem_cons.mp hx with rfl | hx
        · exact ha
        · exact hbefore x hx
      · simp [replaceFirst, ha, hr]

theorem replaceFirst_of_not_mem (e : UnfinishedDownload) (ds : List UnfinishedDownload)
    (h : ∀ d ∈ ds, d.URL ≠ e.URL) : replaceFirst e ds = none := by
  induction ds with
  | nil => rfl
  | cons a as ih =>
    have ha : a.URL ≠ e.URL := h a (List.mem_cons_self _ _)
    simp [replaceFirst, ha, ih (fun d hd => h d (List.mem_cons_of_mem _ hd))]

/-- The function `AddUnfinished` on a valid entry and a loadable store: no error,
and the new content is the old one with the entry upserted. -/
theorem AddUnfinished_valid (f : StoreFile) (ds : List UnfinishedDownload)
    (e : UnfinishedDownload) (hload : LoadUnfinished f = .ok ds) (hurl : e.URL ≠ "")
    (htitle : e.Title ≠ "") :
    AddUnfinished f e =
      (.content ((replaceFirst e ds).getD (ds ++ [e])), none) := by
  unfold AddUnfinished
  rw [if_neg (by simp [hurl, htitle]), hload]
  simp only []
  cases hr : replaceFirst e ds <;> simp [SaveUnfinished]

/-- C17: for every loadable store content and every entry with non-empty key (URL)
and non-empty title, `AddUnfinished(entry)` succeeds (returns no error) and a
following `GetUnfinishedByURL(entry.URL)` returns an entry with the same key,
format id, title, description, URL list and video metadata as the one just
written. -/
theorem C17_add_then_get (f : StoreFile) (ds : List UnfinishedDownload)
    (e : UnfinishedDownload) (hload : LoadUnfinished f = .ok ds) (hurl : e.URL ≠ "")
    (htitle : e.Title ≠ "") :
    (AddUnfinished f e).2 = none ∧
      ∃ e', GetUnfinishedByURL (AddUnfinished f e).1 e.URL = some e' ∧
        e'.URL = e.URL ∧ e'.FormatID = e.FormatID ∧ e'.Title = e.Title ∧
        e'.Desc = e.Desc ∧ e'.URLs = e.URLs ∧ e'.Videos = e.Videos := by
  refine ⟨by rw [AddUnfinished_valid f ds e hload hurl htitle], e,
    GetUnfinishedByURL_AddUnfinished f ds e hload hurl htitle, rfl, rfl, rfl, rfl, rfl, rfl⟩

/-- Witness for C17: upserting `sampleEntry` into a store that holds an older
entry under the same key. -/
theorem C17_add_then_get_witness :
    (AddUnfinished sampleStore sampleEntry).2 = none ∧
      ∃ e', GetUnfinishedByURL (AddUnfinished sampleStore sampleEntry).1 sampleEntry.URL =
          some e' ∧
        e'.URL = sampleEntry.URL ∧ e'.FormatID = sampleEntry.FormatID ∧
        e'.Title = sampleEntry.Title ∧ e'.Desc = sampleEntry.Desc ∧
        e'.URLs = sampleEntry.URLs ∧ e'.Videos = sampleEntry.Videos :=
  C17_add_then_get sampleStore _ sampleEntry rfl (by decide) (by decide)

/-- C18: for every loadable store content and every key, `RemoveUnfinished(key)`
returns no error and afterwards the store holds exactly the previous entries
whose key differs from key, in their original order; so
`GetUnfinishedByURL(key)` then returns none, and when no entry had that key
the collection is unchanged. -/
theorem C18_remove_filters (f : StoreFile) (ds : List UnfinishedDownload) (key : String)
    (hload : LoadUnfinished f = .ok ds) :
    (RemoveUnfinished f key).2 = none ∧
      LoadUnfinished (RemoveUnfinished f key).1 = .ok (ds.filter (fun d => d.URL ≠ key)) ∧
      GetUnfinishedByURL (RemoveUnfinished f key).1 key = none ∧
      ((∀ d ∈ ds, d.URL ≠ key) → LoadUnfinished (RemoveUnfinished f key).1 = .ok ds) := by
  have hrem : RemoveUnfinished f key =
      (.content (ds.filter (fun d => d.URL ≠ key)), none) := by
    unfold RemoveUnfinished
    rw [hload]
    simp only [SaveUnfinished]
    congr 2
    apply List.filter_congr
    intro d _
    by_cases h : d.URL = key <;> simp [h]
  refine ⟨by rw [hrem], by rw [hrem]; rfl, GetUnfinishedByURL_RemoveUnfinished f key, ?_⟩
  intro hno
  rw [hrem]
  simp only [LoadUnfinished]
  congr 1
  rw [List.filter_eq_self]
  intro d hd
  simpa using hno d hd

/-- Witness for C18: removing the key of `sampleEntry` from `sampleStore` leaves
the other entry. -/
theorem C18_remove_filters_witness :
    (RemoveUnfinished sampleStore sampleEntry.URL).2 = none ∧
      LoadUnfinished (RemoveUnfinished sampleStore sampleEntry.URL).1 =
        .ok [ { URL := "https://example.com/other", FormatID := "22", Title := "Other" } ] ∧
      GetUnfinishedByURL (RemoveUnfinished sampleStore sampleEntry.URL).1 sampleEntry.URL =
        none :=
  have h := C18_remove_filters sampleStore _ sampleEntry.URL rfl
  ⟨h.1, h.2.1.trans rfl, h.2.2.1⟩

/-- C19: for every entry whose key (URL) is empty or whose title is empty,
`AddUnfinished` returns `ErrInvalidUnfinishedDownload` and leaves the store
unchanged; this holds for every state of the recovery file, an unreadable one
included, so nothing is read or written.  For an entry with both non-empty it
does not return that error, and with a loadable store it returns no error. -/
theorem C19_add_validation (f : StoreFile) (e : UnfinishedDownload) :
    (e.URL = "" ∨ e.Title = "" →
        AddUnfinished f e = (f, some .ErrInvalidUnfinishedDownload)) ∧
      (e.URL ≠ "" → e.Title ≠ "" →
        (AddUnfinished f e).2 ≠ some .ErrInvalidUnfinishedDownload ∧
        ∀ ds, LoadUnfinished f = .ok ds → (AddUnfinished f e).2 = none) := by
  constructor
  · intro h
    unfold AddUnfinished
    rw [if_pos h]
  · intro hurl htitle
    constructor
    · cases f with
      | missing => rw [AddUnfinished_valid .missing [] e rfl hurl htitle]; simp
      | content ds => rw [AddUnfinished_valid (.content ds) ds e rfl hurl htitle]; simp
      | unreadable =>
        unfold AddUnfinished
        rw [if_neg (by simp [hurl, htitle])]
        simp [LoadUnfinished]
    · intro ds hload
      rw [AddUnfinished_valid f ds e hload hurl htitle]

/-- Witness for C19: an entry without URL is rejected on an unreadable recovery
file, which is left as it is (first case of `TestAddUnfinishedValidation`). -/
theorem C19_add_validation_witness :
    AddUnfinished .unreadable { URL := "", Title := "Test Video", FormatID := "best" } =
      (.unreadable, some .ErrInvalidUnfinishedDownload) :=
  (C19_add_validation .unreadable { URL := "", Title := "Test Video", FormatID := "best" }).1
    (Or.inl rfl)

/-- C20: for every loadable store content s and valid entry e: if some entry of s
has key `e.URL`, `AddUnfinished(e)` yields s with the first such entry replaced
in place by e (same length, all other entries unchanged and in order);
otherwise it yields s with e appended at the end. -/
theorem C20_add_upserts (f : StoreFile) (ds : List UnfinishedDownload)
    (e : UnfinishedDownload) (hload : LoadUnfinished f = .ok ds) (hurl : e.URL ≠ "")
    (htitle : e.Title ≠ "") :
    ((∃ d ∈ ds, d.URL = e.URL) →
        ∃ (before : List UnfinishedDownload) (d : UnfinishedDownload)
          (after : List UnfinishedDownload),
          ds = before ++ d :: after ∧ (∀ x ∈ before, x.URL ≠ e.URL) ∧ d.URL = e.URL ∧
          LoadUnfinished (AddUnfinished f e).1 = .ok (before ++ e :: after) ∧
          (before ++ e :: after).length = ds.length) ∧
      ((∀ d ∈ ds, d.URL ≠ e.URL) →
        LoadUnfinished (AddUnfinished f e).1 = .ok (ds ++ [e])) := by
  rw [AddUnfinished_valid f ds e hload hurl htitle]
  constructor
  · intro h
    obtain ⟨before, d, after, hds, hbefore, hd, hr⟩ := replaceFirst_of_mem e ds h
    refine ⟨before, d, after, hds, hbefore, hd, ?_, ?_⟩
    · rw [hr]; rfl
    · rw [hds]; simp
  · intro h
    rw [replaceFirst_of_not_mem e ds h]
    rfl

/-- Witness for C20: `sampleStore` holds an entry under the key of `sampleEntry`,
which is replaced in place. -/
theorem C20_add_upserts_witness :
    LoadUnfinished (AddUnfinished sampleStore sampleEntry).1 =
      .ok [ { URL := "https://example.com/other", FormatID := "22", Title := "Other" },
            sampleEntry ] :=
  have h := (C20_add_upserts sampleStore _ sampleEntry rfl (by decide) (by decide)).1
    ⟨{ URL := "https://example.com/video", FormatID := "18", Title := "Old Title" },
      by decide, rfl⟩
  h.elim (fun _ _ => rfl)

/-! ## The recovery entry of a queue -/

theorem TrimSpace_eq_empty_iff (s : String) :
    TrimSpace s = "" ↔ ∀ c ∈ s.data, isSpace c = true := by
  unfold TrimSpace trimSpaceChars
  constructor
  · intro h
    have h1 : ((s.data.dropWhile isSpace).reverse.dropWhile isSpace).reverse = [] :=
      congrArg String.data h
    rw [List.reverse_eq_nil_iff, List.dropWhile_eq_nil_iff] at h1
    intro c hc
    by_contra hsp
    have hne : s.data.dropWhile isSpace ≠ [] := by
      intro hnil
      rw [List.dropWhile_eq_nil_iff] at hnil
      exact hsp (hnil c hc)
    obtain ⟨a, rest, har⟩ := List.exists_cons_of_ne_nil hne
    have ha := head_dropWhile_false isSpace s.data a rest har
    have := h1 a (by rw [List.mem_reverse, har]; exact List.mem_cons_self _ _)
    rw [ha] at this
    cases this
  · intro h
    have h1 : s.data.dropWhile isSpace = [] := List.dropWhile_eq_nil_iff.mpr h
    rw [h1]
    rfl

theorem effectiveLabel_trimmed (query : String) :
    TrimSpace (effectiveLabel query) = effectiveLabel query := by
  unfold effectiveLabel
  by_cases h : TrimSpace query = ""
  · rw [if_pos h]; exact TrimSpace_default
  · rw [if_neg h]; exact TrimSpace_idempotent query

theorem effectiveLabel_ne_empty (query : String) : effectiveLabel query ≠ "" := by
  unfold effectiveLabel
  by_cases h : TrimSpace query = ""
  · rw [if_pos h]; decide
  · rw [if_neg h]; exact h

theorem updateQueueUnfinished_effective (w : World) (query formatID : String) (remaining : Int)
    (urls : List String) (videos : List VideoItem) :
    updateQueueUnfinished w query formatID remaining urls videos =
      updateQueueUnfinished w (effectiveLabel query) formatID remaining urls videos := by
  unfold updateQueueUnfinished
  simp only [effectiveLabel_trimmed, if_neg (effectiveLabel_ne_empty query)]
  rfl

/-- C21 as stated fails: the store holds an entry under `queue:`, which is
`QueueUnfinishedKey` of the empty label.  `updateQueueUnfinished` with the
empty label and remaining count 0 removes the key `queue:Queued downloads`
instead, so the entry under `QueueUnfinishedKey(label)` is still there. -/
theorem C21_remove_on_zero_counterexample :
    QueueUnfinishedKey "" = "queue:" ∧
      GetUnfinishedByURL bareKeyStore (QueueUnfinishedKey "") =
        some { URL := "queue:", FormatID := "best", Title := "untitled" } ∧
      GetUnfinishedByURL
          (updateQueueUnfinished { file := bareKeyStore } "" "best" 0 [] [])
          (QueueUnfinishedKey "") =
        some { URL := "queue:", FormatID := "best", Title := "untitled" } := by
  refine ⟨by decide, by decide, by decide⟩

/-- C21 (amended): for every label, format id, URL list and video list,
`updateQueueUnfinished` called with a remaining count `<= 0` leaves the store
with no entry under the key it files the queue under, whether or not one
existed before: `QueueUnfinishedKey(label)` when the label has a character
that is not white space, `queue:Queued downloads` when it is empty or white
space only.  All entries with other keys are left unchanged: each is still
found under its key and a loadable store holds exactly the previous entries
with another key, in their order. -/
theorem C21_remove_on_zero (w : World) (query formatID : String) (remaining : Int)
    (urls : List String) (videos : List VideoItem) (h : remaining ≤ 0) :
    GetUnfinishedByURL (updateQueueUnfinished w query formatID remaining urls videos)
        (QueueUnfinishedKey (effectiveLabel query)) = none ∧
      (TrimSpace query ≠ "" →
        GetUnfinishedByURL (updateQueueUnfinished w query formatID remaining urls videos)
          (QueueUnfinishedKey query) = none) ∧
      (TrimSpace query = "" →
        GetUnfinishedByURL (updateQueueUnfinished w query formatID remaining urls videos)
          "queue:Queued downloads" = none) ∧
      (∀ k, k ≠ QueueUnfinishedKey (effectiveLabel query) →
        GetUnfinishedByURL (updateQueueUnfinished w query formatID remaining urls videos) k =
          GetUnfinishedByURL w.file k) ∧
      (∀ ds, LoadUnfinished w.file = .ok ds →
        LoadUnfinished (updateQueueUnfinished w query formatID remaining urls videos) =
          .ok (ds.filter (fun d => d.URL ≠ QueueUnfinishedKey (effectiveLabel query)))) := by
  have hupd : updateQueueUnfinished w query formatID remaining urls videos =
      (RemoveUnfinished w.file (QueueUnfinishedKey (effectiveLabel query))).1 := by
    rw [updateQueueUnfinished_effective,
      updateQueueUnfinished_trimmed w _ _ _ _ _ (effectiveLabel_trimmed query)
        (effectiveLabel_ne_empty query), if_pos h]
  have hnone := GetUnfinishedByURL_RemoveUnfinished w.file
    (QueueUnfinishedKey (effectiveLabel query))
  rw [hupd]
  refine ⟨hnone, ?_, ?_, ?_, ?_⟩
  · intro hne
    have hk : QueueUnfinishedKey query = QueueUnfinishedKey (effectiveLabel query) := by
      unfold QueueUnfinishedKey
      rw [effectiveLabel_trimmed]
      unfold effectiveLabel
      rw [if_neg hne]
    rw [hk]
    exact hnone
  · intro he
    have hk : QueueUnfinishedKey (effectiveLabel query) = "queue:Queued downloads" := by
      unfold effectiveLabel
      rw [if_pos he]
      decide
    rw [← hk]
    exact hnone
  · intro k hk
    exact GetUnfinishedByURL_RemoveUnfinished_ne w.file _ k hk
  · intro ds hload
    unfold RemoveUnfinished
    rw [hload]
    simp only [SaveUnfinished, LoadUnfinished]
    congr 2
    funext d
    by_cases hd : d.URL = QueueUnfinishedKey (effectiveLabel query) <;> simp [hd]

/-- Witness for C21 (amended): the second call of
`TestUpdateQueueUnfinishedDefaultLabelAndRemove`, after the first one wrote the
entry of the default label. -/
theorem C21_remove_on_zero_witness :
    GetUnfinishedByURL
        (updateQueueUnfinished {} "   " "best" 1 ["https://example.com/1"]
          [makeVideo "abc" "video"]) "queue:Queued downloads" ≠ none ∧
      GetUnfinishedByURL
        (updateQueueUnfinished
          { file := updateQueueUnfinished {} "   " "best" 1 ["https://example.com/1"]
              [makeVideo "abc" "video"] } "" "best" 0 [] [])
        "queue:Queued downloads" = none :=
  ⟨by decide,
    (C21_remove_on_zero
      { file := updateQueueUnfinished {} "   " "best" 1 ["https://example.com/1"]
          [makeVideo "abc" "video"] } "" "best" 0 [] [] (by decide)).2.2.1 (by decide)⟩

/-- C22: for every label that is empty or consists only of white space,
`updateQueueUnfinished` with `remaining > 0` and a non-empty URL list writes
(into a loadable store) its entry under key `queue:Queued downloads` with title
`Queued downloads` and description `<remaining> items left`; for any other
label the key is `queue:` followed by the label with surrounding white space
trimmed, and the title is the trimmed label. -/
theorem C22_default_label (w : World) (query formatID : String) (remaining : Int)
    (urls : List String) (videos : List VideoItem) (ds : List UnfinishedDownload)
    (hload : LoadUnfinished w.file = .ok ds) (hrem : 0 < remaining) (hurls : urls ≠ []) :
    ((∀ c ∈ query.data, isSpace c = true) →
        GetUnfinishedByURL (updateQueueUnfinished w query formatID remaining urls videos)
          "queue:Queued downloads" =
          some { URL := "queue:Queued downloads", FormatID := formatID,
                 Title := "Queued downloads", Desc := toString remaining ++ " items left",
                 URLs := urls, Videos := videos, Timestamp := w.now }) ∧
      (¬ (∀ c ∈ query.data, isSpace c = true) →
        GetUnfinishedByURL (updateQueueUnfinished w query formatID remaining urls videos)
          ("queue:" ++ TrimSpace query) =
          some { URL := "queue:" ++ TrimSpace query, FormatID := formatID,
                 Title := TrimSpace query, Desc := toString remaining ++ " items left",
                 URLs := urls, Videos := videos, Timestamp := w.now }) := by
  have hupd : updateQueueUnfinished w query formatID remaining urls videos =
      (AddUnfinished w.file
        { URL := QueueUnfinishedKey (effectiveLabel query), FormatID := formatID,
          Title := effectiveLabel query, Desc := toString remaining ++ " items left",
          URLs := urls, Videos := videos, Timestamp := w.now }).1 := by
    rw [updateQueueUnfinished_effective,
      updateQueueUnfinished_trimmed w _ _ _ _ _ (effectiveLabel_trimmed query)
        (effectiveLabel_ne_empty query), if_neg (by omega), if_neg (by simpa using hurls)]
  have hget := GetUnfinishedByURL_AddUnfinished w.file ds
    { URL := QueueUnfinishedKey (effectiveLabel query), FormatID := formatID,
      Title := effectiveLabel query, Desc := toString remaining ++ " items left",
      URLs := urls, Videos := videos, Timestamp := w.now } hload
    (QueueUnfinishedKey_ne_empty _) (effectiveLabel_ne_empty query)
  rw [← hupd] at hget
  constructor
  · intro hsp
    have he : effectiveLabel query = "Queued downloads" := by
      unfold effectiveLabel
      rw [if_pos ((TrimSpace_eq_empty_iff query).mpr hsp)]
    have hk : QueueUnfinishedKey (effectiveLabel query) = "queue:Queued downloads" := by
      rw [he]; decide
    rw [hk, he] at hget
    exact hget
  · intro hsp
    have hne : TrimSpace query ≠ "" := fun h => hsp ((TrimSpace_eq_empty_iff query).mp h)
    have he : effectiveLabel query = TrimSpace query := by
      unfold effectiveLabel
      rw [if_neg hne]
    have hk : QueueUnfinishedKey (effectiveLabel query) = "queue:" ++ TrimSpace query := by
      unfold QueueUnfinishedKey
      rw [effectiveLabel_trimmed, he]
    rw [hk, he] at hget
    exact hget

/-- Witness for C22: the first call of `TestUpdateQueueUnfinishedDefaultLabelAndRemove`. -/
theorem C22_default_label_witness :
    GetUnfinishedByURL
        (updateQueueUnfinished {} "   " "best" 1 ["https://example.com/1"]
          [makeVideo "abc" "video"]) "queue:Queued downloads" =
      some { URL := "queue:Queued downloads", FormatID := "best", Title := "Queued downloads",
             Desc := "1 items left", URLs := ["https://example.com/1"],
             Videos := [makeVideo "abc" "video"], Timestamp := 0 } :=
  (C22_default_label {} "   " "best" 1 ["https://example.com/1"] [makeVideo "abc" "video"] []
    rfl (by decide) (by decide)).1 (by decide)

/-! ## The download job -/

theorem doDownload_emptyURL (outputPath : String → String) (file : StoreFile)
    (req : DownloadRequest) (cfg : Config) (run : ProcessRun) (h : req.URL = "") :
    doDownload outputPath file req cfg run =
      { result := { Err := "Download error: empty URL provided", QueueIndex := req.QueueIndex,
                    QueueTotal := req.QueueTotal },
        file := file } := by
  unfold doDownload
  simp only [if_pos h]

theorem doDownload_canceled (outputPath : String → String) (file : StoreFile)
    (req : DownloadRequest) (cfg : Config) (events : List ParsedLine) (waitErr : Option String)
    (h : req.URL ≠ "") :
    (doDownload outputPath file req cfg (.exited events waitErr true)).result =
        { Err := "Download cancelled", QueueIndex := req.QueueIndex,
          QueueTotal := req.QueueTotal } ∧
      (doDownload outputPath file req cfg (.exited events waitErr true)).file = file ∧
      (doDownload outputPath file req cfg (.exited events waitErr true)).started = true := by
  unfold doDownload
  simp only [if_neg h, if_true, and_self]

theorem cancelled_ne_error (err : String) : "Download cancelled" ≠ "Download error: " ++ err := by
  intro h
  have h1 := congrArg (fun s => s.data.take 10) h
  simp only [String.data_append] at h1
  rw [List.take_append_of_le_length (by decide)] at h1
  revert h1
  decide

/-- A cancellation that is seen when the result is classified: for every outcome
of the started process (success or any error of `cmd.Wait()`, after any
output), `doDownload` reports a result whose error is `Download cancelled`: not
the error it reports for the process (`Download error: ...`) and not success
(the error is non-empty and no output is reported); and the recovery file is
left as it was. -/
theorem doDownload_cancel_after_start (outputPath : String → String) (file : StoreFile)
    (req : DownloadRequest) (cfg : Config) (events : List ParsedLine) (waitErr : Option String)
    (h : req.URL ≠ "") :
    (doDownload outputPath file req cfg (.exited events waitErr true)).result.Err =
        "Download cancelled" ∧
      (∀ err, waitErr = some err →
        (doDownload outputPath file req cfg (.exited events waitErr true)).result.Err ≠
          (doDownload outputPath file req cfg (.exited events waitErr false)).result.Err) ∧
      (doDownload outputPath file req cfg (.exited events waitErr true)).result.Err ≠ "" ∧
      (doDownload outputPath file req cfg (.exited events waitErr true)).result.Output = "" ∧
      (doDownload outputPath file req cfg (.exited events waitErr true)).file = file ∧
      (∀ key, GetUnfinishedByURL
          (doDownload outputPath file req cfg (.exited events waitErr true)).file key =
        GetUnfinishedByURL file key) := by
  obtain ⟨hres, hfile, _⟩ := doDownload_canceled outputPath file req cfg events waitErr h
  rw [hres, hfile]
  refine ⟨rfl, ?_, by show "Download cancelled" ≠ ""; decide, rfl, rfl, fun _ => rfl⟩
  intro err herr
  subst herr
  unfold doDownload
  simp only [if_neg h]
  exact cancelled_ne_error err

/-- C23 fails on the code when the cancellation lands after `dm.SetContext` and
before `cmd.Start()`: `Start` then fails with `context canceled`, and
`doDownload` on the request of `TestDoDownload_CancelSendsCancelled` returns
from the start-error branch, before `ctx.Err()` is looked at.  The result has
the error `start error: context canceled`, the error of the process and not
`Download cancelled`, and its lower-cased text does not contain `cancelled`,
which is what the test asks of the last result.  When the same cancellation
lands after the start, the error is `Download cancelled`. -/
theorem C23_cancel_before_start_failing_input :
    (doDownload sampleOutputPath sampleStore cancelRequest GetDefault
        (.startError "context canceled")).result.Err = "start error: context canceled" ∧
      (doDownload sampleOutputPath sampleStore cancelRequest GetDefault
        (.startError "context canceled")).result.Err ≠ "Download cancelled" ∧
      Contains (ToLower (doDownload sampleOutputPath sampleStore cancelRequest GetDefault
        (.startError "context canceled")).result.Err) "cancelled" = false ∧
      (doDownload sampleOutputPath sampleStore cancelRequest GetDefault
        (.startError "context canceled")).started = false ∧
      (doDownload sampleOutputPath sampleStore cancelRequest GetDefault
        (.exited [] (some "signal: killed") true)).result.Err = "Download cancelled" ∧
      Contains (ToLower (doDownload sampleOutputPath sampleStore cancelRequest GetDefault
        (.exited [] (some "signal: killed") true)).result.Err) "cancelled" = true := by
  refine ⟨by decide, by decide, by decide, by decide, by decide, by decide⟩

/-- C24 as stated fails: resuming the queue `q` whose stored video has no ID
makes `Model.Update` issue a request with an empty URL and leaves the recovery
file absent; `StartDownload` on this request reports the empty-URL error and
starts no process, but it has written the entry `queue:q` of the request to
the recovery store before the URL is checked. -/
theorem C24_empty_url_rejected_counterexample :
    (∃ m, Update {} {} (.startResumeDownload resumeWithoutID) =
        .ret m .missing (.StartDownload emptyURLRequest)) ∧
      emptyURLRequest.URL = "" ∧
      (StartDownload sampleOutputPath {} emptyURLRequest GetDefault
        (.exited [] none false)).result.Err = "Download error: empty URL provided" ∧
      (StartDownload sampleOutputPath {} emptyURLRequest GetDefault
        (.exited [] none false)).started = false ∧
      GetUnfinishedByURL ({} : World).file "queue:q" = none ∧
      (StartDownload sampleOutputPath {} emptyURLRequest GetDefault
        (.exited [] none false)).file ≠ ({} : World).file ∧
      (GetUnfinishedByURL (StartDownload sampleOutputPath {} emptyURLRequest GetDefault
        (.exited [] none false)).file "queue:q").map (fun e => e.Title) = some "q" :=
  ⟨⟨_, rfl⟩, by decide, by decide, by decide, by decide, by decide, by decide⟩

/-- C24 (amended): for every `DownloadRequest` whose URL is empty, starting the
download (`StartDownload` followed by `doDownload`) reports the terminal error
result `Download error: empty URL provided`, which mentions the empty URL, and
spawns no process.  `doDownload` leaves the recovery store exactly as it was.
`StartDownload` before it leaves the store exactly as it was when the request
has no recovery key (`UnfinishedKey` empty) or no title (`UnfinishedTitle` and
`Title` both empty); for a request with a recovery key and a title it has
upserted the entry of the request before the URL is checked, so a loadable
store then holds that entry. -/
theorem C24_empty_url_rejected (outputPath : String → String) (w : World)
    (req : DownloadRequest) (cfg : Config) (run : ProcessRun) (h : req.URL = "") :
    (StartDownload outputPath w req cfg run).result.Err =
        "Download error: empty URL provided" ∧
      Contains (StartDownload outputPath w req cfg run).result.Err "empty URL" = true ∧
      (StartDownload outputPath w req cfg run).command = none ∧
      (StartDownload outputPath w req cfg run).started = false ∧
      (StartDownload outputPath w req cfg run).progress = [] ∧
      (doDownload outputPath w.file req cfg run).file = w.file ∧
      (doDownload outputPath w.file req cfg run).started = false ∧
      (req.UnfinishedKey = "" ∨ (req.UnfinishedTitle = "" ∧ req.Title = "") →
        (StartDownload outputPath w req cfg run).file = w.file) ∧
      (req.UnfinishedKey ≠ "" → ¬ (req.UnfinishedTitle = "" ∧ req.Title = "") →
        ∀ ds, LoadUnfinished w.file = .ok ds →
          ∃ e, GetUnfinishedByURL (StartDownload outputPath w req cfg run).file
              req.UnfinishedKey = some e ∧
            e.URL = req.UnfinishedKey ∧ e.FormatID = req.FormatID ∧ e.URLs = req.URLs ∧
            e.Title = (if req.UnfinishedTitle = "" then req.Title else req.UnfinishedTitle)) := by
  have hstart : StartDownload outputPath w req cfg run =
      { result := { Err := "Download error: empty URL provided", QueueIndex := req.QueueIndex,
                    QueueTotal := req.QueueTotal },
        file := (AddUnfinished w.file
          { URL := if req.UnfinishedKey = "" then req.URL else req.UnfinishedKey,
            FormatID := req.FormatID,
            Title := if req.UnfinishedTitle = "" then req.Title else req.UnfinishedTitle,
            Desc := req.UnfinishedDesc, URLs := req.URLs,
            Videos := if req.Videos.length = 0 ∧ req.Title ≠ "" then
                [{ ID := req.URL, VideoTitle := req.Title }] else req.Videos,
            Timestamp := w.now }).1 } := by
    unfold StartDownload
    simp only []
    rw [doDownload_emptyURL _ _ _ _ _ h]
  rw [hstart, doDownload_emptyURL _ _ _ _ _ h]
  refine ⟨rfl, by show Contains "Download error: empty URL provided" "empty URL" = true; decide,
    rfl, rfl, rfl, rfl, rfl, ?_, ?_⟩
  · intro hinv
    simp only []
    unfold AddUnfinished
    rw [if_pos]
    rcases hinv with hk | ⟨ht1, ht2⟩
    · left
      simp only [if_pos hk]
      exact h
    · right
      simp only [if_pos ht1]
      exact ht2
  · intro hk ht ds hload
    have hkey : (if req.UnfinishedKey = "" then req.URL else req.UnfinishedKey) =
        req.UnfinishedKey := if_neg hk
    have htitle : (if req.UnfinishedTitle = "" then req.Title else req.UnfinishedTitle) ≠ "" := by
      by_cases h1 : req.UnfinishedTitle = ""
      · rw [if_pos h1]
        exact fun h2 => ht ⟨h1, h2⟩
      · rw [if_neg h1]
        exact h1
    simp only [hkey]
    exact ⟨_, GetUnfinishedByURL_AddUnfinished w.file ds
      { URL := req.UnfinishedKey, FormatID := req.FormatID,
        Title := if req.UnfinishedTitle = "" then req.Title else req.UnfinishedTitle,
        Desc := req.UnfinishedDesc, URLs := req.URLs,
        Videos := if req.Videos.length = 0 ∧ req.Title ≠ "" then
            [{ ID := req.URL, VideoTitle := req.Title }] else req.Videos,
        Timestamp := w.now } hload hk htitle, rfl, rfl, rfl, rfl⟩

/-- Witness for C24 (amended): the request of `TestDoDownload_EmptyURLSendsError`,
which has no recovery key, on a store that holds other entries. -/
theorem C24_empty_url_rejected_witness :
    (StartDownload sampleOutputPath { file := sampleStore } { URL := "", FormatID := "best" }
        { GetDefault with YTDLPPath := "/bin/true" } (.exited [] none false)).result.Err =
        "Download error: empty URL provided" ∧
      (StartDownload sampleOutputPath { file := sampleStore } { URL := "", FormatID := "best" }
        { GetDefault with YTDLPPath := "/bin/true" } (.exited [] none false)).started = false ∧
      (StartDownload sampleOutputPath { file := sampleStore } { URL := "", FormatID := "best" }
        { GetDefault with YTDLPPath := "/bin/true" } (.exited [] none false)).file =
        sampleStore :=
  have h := C24_empty_url_rejected sampleOutputPath { file := sampleStore }
    { URL := "", FormatID := "best" } { GetDefault with YTDLPPath := "/bin/true" }
    (.exited [] none false) rfl
  ⟨h.1, h.2.2.2.1, h.2.2.2.2.2.2.2.1 (Or.inl rfl)⟩

theorem foldl_optionFlag (opts : List DownloadOption) (args : List String) :
    opts.foldl (fun args opt => args ++ optionFlag opt) args =
      args ++ opts.foldr (fun opt flags => optionFlag opt ++ flags) [] := by
  induction opts generalizing args with
  | nil => simp
  | cons opt rest ih => simp [ih, List.append_assoc]

theorem mem_optionFlags (opts : List DownloadOption) (x : String)
    (h : x ∈ opts.foldr (fun opt flags => optionFlag opt ++ flags) []) :
    x ∈ ["--embed-subs", "--embed-metadata", "--embed-chapters"] := by
  induction opts with
  | nil => simp at h
  | cons opt rest ih =>
    rw [List.foldr_cons, List.mem_append] at h
    rcases h with h | h
    · unfold optionFlag at h
      split_ifs at h <;> simp at h <;> simp [h]
    · exact ih h

/-- The shape of the argument vector: the flags put in front last (ffmpeg path,
cookies), the playlist flag, the output flags, the fixed run and the flags of
the enabled options. -/
theorem buildArgs_shape (outputPath : String → String) (req : DownloadRequest) (cfg : Config) :
    ∃ (front out flags : List String),
      buildArgs outputPath req cfg =
        front ++ (if Contains req.URL "/playlist?list=" || Contains req.URL "&list=" then []
          else ["--no-playlist"]) ++ out ++
          ["-f", req.FormatID, "--newline", "-R", "infinite", req.URL] ++ flags ∧
      (∀ x ∈ front, x ∈ ["--ffmpeg-path", cfg.FFmpegPath, "--cookies-from-browser", "--cookies",
        req.CookiesFromBrowser, cfg.CookiesBrowser, req.Cookies, cfg.CookiesFile]) ∧
      (∀ x ∈ out, x ∈ ["-o", outputPath "%(artist)s - %(title)s.%(ext)s",
        outputPath "%(title)s.%(ext)s", "--restrict-filenames", "-x", "--audio-format",
        cfg.AudioFormat, "--audio-quality", toString (truncate req.ABR) ++ "K", "--add-metadata",
        "--metadata-from-title", "%(artist)s - %(title)s", "--merge-output-format",
        cfg.VideoFormat, "--remux-video"]) ∧
      (∀ x ∈ flags, x ∈ ["--embed-subs", "--embed-metadata", "--embed-chapters"]) := by
  refine ⟨
    (if cfg.FFmpegPath ≠ "" then ["--ffmpeg-path", cfg.FFmpegPath] else []) ++
      (if (if req.CookiesFromBrowser = "" then cfg.CookiesBrowser
            else req.CookiesFromBrowser) ≠ "" then
          ["--cookies-from-browser",
            if req.CookiesFromBrowser = "" then cfg.CookiesBrowser else req.CookiesFromBrowser]
        else if (if req.Cookies = "" then cfg.CookiesFile else req.Cookies) ≠ "" then
          ["--cookies", if req.Cookies = "" then cfg.CookiesFile else req.Cookies]
        else []),
    (if req.IsAudioTab then
      ["-o", outputPath "%(artist)s - %(title)s.%(ext)s", "--restrict-filenames", "-x",
        "--audio-format", cfg.AudioFormat, "--audio-quality",
        toString (truncate req.ABR) ++ "K", "--add-metadata", "--metadata-from-title",
        "%(artist)s - %(title)s"]
    else
      ["-o", outputPath "%(title)s.%(ext)s", "--merge-output-format", cfg.VideoFormat,
        "--remux-video", cfg.VideoFormat]),
    req.Options.foldr (fun opt flags => optionFlag opt ++ flags) [], ?_, ?_, ?_,
    mem_optionFlags req.Options⟩
  · unfold buildArgs
    simp only [foldl_optionFlag]
    split_ifs <;> simp_all
  · intro x hx
    split_ifs at hx <;> simp_all <;> aesop
  · intro x hx
    split_ifs at hx <;> simp_all <;> aesop

theorem doDownload_command (outputPath : String → String) (file : StoreFile)
    (req : DownloadRequest) (cfg : Config) (run : ProcessRun) (h : req.URL ≠ "") :
    (doDownload outputPath file req cfg run).command =
      some (if cfg.YTDLPPath ≠ "" then cfg.YTDLPPath else "yt-dlp",
        buildArgs outputPath req cfg) := by
  unfold doDownload
  simp only [if_neg h]
  cases run with
  | stdoutPipeError err => rfl
  | stderrPipeError err => rfl
  | startError err => rfl
  | exited events waitErr canceled =>
    cases canceled
    · cases waitErr <;> rfl
    · rfl

theorem audioQuality_ne_flag (n : Int) : toString n ++ "K" ≠ "--no-playlist" := by
  intro h
  have h1 := congrArg (fun s => s.data.getLast?) h
  simp only [String.data_append] at h1
  rw [List.getLast?_append] at h1
  simp at h1

theorem url_ne_flag (url : String)
    (h : (Contains url "/playlist?list=" || Contains url "&list=") = true) :
    url ≠ "--no-playlist" := by
  intro heq
  rw [heq] at h
  revert h
  decide

/-- C26 as stated fails: for the playlist URL of `playlistRequest` the vector
contains `--no-playlist` although the URL contains `/playlist?list=`, because the
format id of the request is that string and is passed after `-f`. -/
theorem C26_argument_vector_counterexample :
    playlistRequest.URL ≠ "" ∧
      Contains playlistRequest.URL "/playlist?list=" = true ∧
      (doDownload sampleOutputPath .missing playlistRequest GetDefault
          (.exited [] none false)).command =
        some ("yt-dlp",
          ["-o", "/downloads/%(title)s.%(ext)s", "--merge-output-format", "mp4",
            "--remux-video", "mp4", "-f", "--no-playlist", "--newline", "-R", "infinite",
            "https://www.youtube.com/playlist?list=PL1"]) ∧
      "--no-playlist" ∈
        ["-o", "/downloads/%(title)s.%(ext)s", "--merge-output-format", "mp4",
          "--remux-video", "mp4", "-f", "--no-playlist", "--newline", "-R", "infinite",
          "https://www.youtube.com/playlist?list=PL1"] := by
  refine ⟨by decide, by decide, by decide, by decide⟩

/-- C26 (amended): for every `DownloadRequest` with a non-empty URL and every
configuration, the argument vector built by `doDownload` contains the
consecutive run `-f`, formatID, `--newline`, `-R`, `infinite`, url.  It contains
`--no-playlist` whenever the URL contains neither `/playlist?list=` nor
`&list=`.  When the URL contains one of them `doDownload` adds no
`--no-playlist`: the vector contains that string only if a value passed
through from the request or the configuration (format id, container format,
output path, cookie setting, ffmpeg path) is that string; so when none of
these values is `--no-playlist`, the vector contains it if and only if the URL
contains neither marker. -/
theorem C26_argument_vector (outputPath : String → String) (file : StoreFile)
    (req : DownloadRequest) (cfg : Config) (run : ProcessRun) (h : req.URL ≠ "") :
    ∃ (path : String) (args : List String),
      (doDownload outputPath file req cfg run).command = some (path, args) ∧
      ["-f", req.FormatID, "--newline", "-R", "infinite", req.URL] <:+: args ∧
      ((Contains req.URL "/playlist?list=" || Contains req.URL "&list=") = false →
        "--no-playlist" ∈ args) ∧
      ((Contains req.URL "/playlist?list=" || Contains req.URL "&list=") = true →
        "--no-playlist" ∈ args →
        "--no-playlist" ∈ [req.FormatID, cfg.VideoFormat, cfg.AudioFormat,
          outputPath "%(artist)s - %(title)s.%(ext)s", outputPath "%(title)s.%(ext)s",
          req.CookiesFromBrowser, cfg.CookiesBrowser, req.Cookies, cfg.CookiesFile,
          cfg.FFmpegPath]) ∧
      ("--no-playlist" ∉ [req.FormatID, cfg.VideoFormat, cfg.AudioFormat,
          outputPath "%(artist)s - %(title)s.%(ext)s", outputPath "%(title)s.%(ext)s",
          req.CookiesFromBrowser, cfg.CookiesBrowser, req.Cookies, cfg.CookiesFile,
          cfg.FFmpegPath] →
        ("--no-playlist" ∈ args ↔
          (Contains req.URL "/playlist?list=" = false ∧ Contains req.URL "&list=" = false))) := by
  obtain ⟨front, out, flags, hargs, hfront, hout, hflags⟩ := buildArgs_shape outputPath req cfg
  have hyes : (Contains req.URL "/playlist?list=" || Contains req.URL "&list=") = false →
      "--no-playlist" ∈ buildArgs outputPath req cfg := by
    intro hp
    rw [hargs, hp]
    simp
  have hno : (Contains req.URL "/playlist?list=" || Contains req.URL "&list=") = true →
      "--no-playlist" ∈ buildArgs outputPath req cfg →
      "--no-playlist" ∈ [req.FormatID, cfg.VideoFormat, cfg.AudioFormat,
        outputPath "%(artist)s - %(title)s.%(ext)s", outputPath "%(title)s.%(ext)s",
        req.CookiesFromBrowser, cfg.CookiesBrowser, req.Cookies, cfg.CookiesFile,
        cfg.FFmpegPath] := by
    intro hp hmem
    have hurl := url_ne_flag req.URL hp
    have haq := audioQuality_ne_flag (truncate req.ABR)
    rw [hargs, hp] at hmem
    simp only [if_true, List.append_nil, List.mem_append] at hmem
    rcases hmem with ((hm | hm) | hm) | hm
    · have := hfront _ hm
      simp only [List.mem_cons, List.mem_singleton, List.not_mem_nil, or_false] at this ⊢
      rcases this with h1 | h1 | h1 | h1 | h1 | h1 | h1 | h1
      · exact absurd h1 (by decide)
      · simp [h1]
      · exact absurd h1 (by decide)
      · exact absurd h1 (by decide)
      · simp [h1]
      · simp [h1]
      · simp [h1]
      · simp [h1]
    · have := hout _ hm
      simp only [List.mem_cons, List.mem_singleton, List.not_mem_nil, or_false] at this ⊢
      rcases this with h1 | h1 | h1 | h1 | h1 | h1 | h1 | h1 | h1 | h1 | h1 | h1 | h1 | h1 | h1
      · exact absurd h1 (by decide)
      · simp [h1]
      · simp [h1]
      · exact absurd h1 (by decide)
      · exact absurd h1 (by decide)
      · exact absurd h1 (by decide)
      · simp [h1]
      · exact absurd h1 (by decide)
      · exact absurd h1.symm haq
      · exact absurd h1 (by decide)
      · exact absurd h1 (by decide)
      · exact absurd h1 (by decide)
      · exact absurd h1 (by decide)
      · simp [h1]
      · exact absurd h1 (by decide)
    · simp only [List.mem_cons, List.mem_singleton, List.not_mem_nil, or_false] at hm ⊢
      rcases hm with h1 | h1 | h1 | h1 | h1 | h1
      · exact absurd h1 (by decide)
      · simp [h1]
      · exact absurd h1 (by decide)
      · exact absurd h1 (by decide)
      · exact absurd h1 (by decide)
      · exact absurd h1.symm hurl
    · exact absurd (hflags _ hm) (by decide)
  refine ⟨_, _, doDownload_command outputPath file req cfg run h, ?_, hyes, hno, ?_⟩
  · rw [hargs]
    exact ⟨front ++ (if Contains req.URL "/playlist?list=" || Contains req.URL "&list=" then []
      else ["--no-playlist"]) ++ out, flags, by simp [List.append_assoc]⟩
  · intro hvals
    constructor
    · intro hmem
      by_cases hp : (Contains req.URL "/playlist?list=" || Contains req.URL "&list=") = true
      · exact absurd (hno hp hmem) hvals
      · simpa using hp
    · intro hp
      exact hyes (by simp [hp.1, hp.2])

/-- Witness for C26 (amended): the request of
`TestDoDownload_SuccessSendsProgressAndResult`, whose vector has `--no-playlist`. -/
theorem C26_argument_vector_witness :
    ∃ (path : String) (args : List String),
      (doDownload sampleOutputPath .missing videoRequest { GetDefault with VideoFormat := "mp4" }
        (.exited [] none false)).command = some (path, args) ∧
      ["-f", "best", "--newline", "-R", "infinite", "https://www.youtube.com/watch?v=abc"]
        <:+: args ∧
      "--no-playlist" ∈ args :=
  (C26_argument_vector sampleOutputPath .missing videoRequest
    { GetDefault with VideoFormat := "mp4" } (.exited [] none false) (by decide)).imp
    (fun _ h => h.imp (fun _ h => ⟨h.1, h.2.1, h.2.2.1 (by decide)⟩))

/-! ## The progress parser -/

theorem isSpace_of_isDigitChar (c : Char) (h : isDigitChar c = true) : isSpace c = false := by
  unfold isDigitChar at h
  unfold isSpace
  simp only [Bool.and_eq_true, decide_eq_true_eq] at h
  simp only [Bool.or_eq_false_iff, Bool.and_eq_false_iff, decide_eq_false_iff_not,
    beq_eq_false_iff_ne, ne_eq]
  omega

theorem isSpace_of_isLetterChar (c : Char) (h : isLetterChar c = true) : isSpace c = false := by
  unfold isLetterChar at h
  unfold isSpace
  simp only [Bool.or_eq_true, Bool.and_eq_true, decide_eq_true_eq] at h
  simp only [Bool.or_eq_false_iff, Bool.and_eq_false_iff, decide_eq_false_iff_not,
    beq_eq_false_iff_ne, ne_eq]
  omega

theorem isDigitChar_ne (c x : Char) (h : isDigitChar c = true) (hx : isDigitChar x = false) :
    c ≠ x := by
  intro heq
  rw [heq, hx] at h
  cases h

theorem isLetterChar_ne (c x : Char) (h : isLetterChar c = true) (hx : isLetterChar x = false) :
    c ≠ x := by
  intro heq
  rw [heq, hx] at h
  cases h

theorem not_isDigitChar_of_isLetterChar (c : Char) (h : isLetterChar c = true) :
    isDigitChar c = false := by
  unfold isLetterChar at h
  unfold isDigitChar
  simp only [Bool.or_eq_true, Bool.and_eq_true, decide_eq_true_eq] at h
  simp only [Bool.and_eq_false_iff, decide_eq_false_iff_not]
  omega

/-- The longest run at the front of `l ++ x :: r` whose characters satisfy `p`
is `l`, when `p` holds on `l` and fails at `x`. -/
theorem span_append_cons (p : Char → Bool) (l : List Char) (x : Char) (r : List Char)
    (hl : ∀ c ∈ l, p c = true) (hx : p x = false) :
    (l ++ x :: r).takeWhile p = l ∧ (l ++ x :: r).dropWhile p = x :: r := by
  induction l with
  | nil => simp [List.takeWhile_cons, List.dropWhile_cons, hx]
  | cons a rest ih =>
    have ha := hl a (List.mem_cons_self _ _)
    obtain ⟨h1, h2⟩ := ih (fun c hc => hl c (List.mem_cons_of_mem _ hc))
    simp [List.takeWhile_cons, List.dropWhile_cons, ha, h1, h2]

theorem span_all (p : Char → Bool) (l : List Char) (hl : ∀ c ∈ l, p c = true) :
    l.takeWhile p = l ∧ l.dropWhile p = [] := by
  induction l with
  | nil => simp
  | cons a rest ih =>
    have ha := hl a (List.mem_cons_self _ _)
    obtain ⟨h1, h2⟩ := ih (fun c hc => hl c (List.mem_cons_of_mem _ hc))
    simp [List.takeWhile_cons, List.dropWhile_cons, ha, h1, h2]

theorem splitSpace_ne_nil (l : List Char) : splitSpace l ≠ [] := by
  cases l with
  | nil => simp [splitSpace]
  | cons c rest =>
    unfold splitSpace
    split
    · simp
    · split <;> simp

theorem splitSpace_token_space (t r : List Char) (ht : ∀ c ∈ t, isSpace c = false) :
    splitSpace (t ++ ' ' :: r) = t :: splitSpace r := by
  induction t with
  | nil =>
    show splitSpace (' ' :: r) = [] :: splitSpace r
    rw [splitSpace, if_pos (by decide)]
  | cons a rest ih =>
    have ha := ht a (List.mem_cons_self _ _)
    have hrest := ih (fun c hc => ht c (List.mem_cons_of_mem _ hc))
    rw [List.cons_append, splitSpace, if_neg (by simp [ha]), hrest]

theorem splitSpace_token (t : List Char) (ht : ∀ c ∈ t, isSpace c = false) :
    splitSpace t = [t] := by
  induction t with
  | nil => rfl
  | cons a rest ih =>
    have ha := ht a (List.mem_cons_self _ _)
    have hrest := ih (fun c hc => ht c (List.mem_cons_of_mem _ hc))
    rw [splitSpace, if_neg (by simp [ha]), hrest]

theorem Fields_token_space (t r : List Char) (ht : ∀ c ∈ t, isSpace c = false) (hne : t ≠ []) :
    Fields (t ++ ' ' :: r) = t :: Fields r := by
  unfold Fields
  rw [splitSpace_token_space t r ht, List.filter_cons_of_pos]
  cases t with
  | nil => exact absurd rfl hne
  | cons a rest => rfl

theorem Fields_token (t : List Char) (ht : ∀ c ∈ t, isSpace c = false) (hne : t ≠ []) :
    Fields t = [t] := by
  unfold Fields
  rw [splitSpace_token t ht, List.filter_cons_of_pos]
  · rfl
  · cases t with
    | nil => exact absurd rfl hne
    | cons a rest => rfl

theorem parseDecimal_numeral (ip fp : List Char) (hip : ip ≠ [])
    (hipd : ∀ c ∈ ip, isDigitChar c = true) (hfp : ∀ c ∈ fp, isDigitChar c = true) :
    parseDecimal (numeral ip fp) = some (decimalValue ip fp) := by
  have hne : ip.isEmpty = false := by
    cases ip with
    | nil => exact absurd rfl hip
    | cons a rest => rfl
  cases fp with
  | nil =>
    obtain ⟨h1, h2⟩ := span_all isDigitChar ip hipd
    have hnum : numeral ip [] = ip := rfl
    rw [hnum]
    unfold parseDecimal
    simp only [h1, h2, hne]
    rfl
  | cons d rest =>
    obtain ⟨h1, h2⟩ := span_append_cons isDigitChar ip '.' (d :: rest) hipd (by decide)
    have hall : (d :: rest).all isDigitChar = true := List.all_eq_true.mpr hfp
    have hnum : numeral ip (d :: rest) = ip ++ '.' :: d :: rest := rfl
    rw [hnum]
    unfold parseDecimal
    simp only [h1, h2, hne, hall]
    simp

theorem percentOf_numeral (ip fp : List Char) (hip : ip ≠ [])
    (hipd : ∀ c ∈ ip, isDigitChar c = true) (hfp : ∀ c ∈ fp, isDigitChar c = true) :
    percentOf (numeral ip fp ++ ['%']) = some (decimalValue ip fp) := by
  unfold percentOf
  simp only [List.reverse_append, List.reverse_cons, List.reverse_nil, List.nil_append,
    List.singleton_append, if_true, List.reverse_reverse]
  exact parseDecimal_numeral ip fp hip hipd hfp

/-- The characters of a numeral are digits or the point. -/
theorem numeral_chars (ip fp : List Char) (hipd : ∀ c ∈ ip, isDigitChar c = true)
    (hfp : ∀ c ∈ fp, isDigitChar c = true) :
    ∀ c ∈ numeral ip fp, (isDigitChar c || c == '.') = true := by
  intro c hc
  unfold numeral at hc
  split at hc
  · simp [hipd c hc]
  · rw [List.mem_append, List.mem_cons] at hc
    rcases hc with h | h | h
    · simp [hipd c h]
    · simp [h]
    · simp [hfp c h]

theorem numeral_head (ip fp : List Char) (hip : ip ≠ [])
    (hipd : ∀ c ∈ ip, isDigitChar c = true) :
    ∃ d rest, numeral ip fp = d :: rest ∧ isDigitChar d = true := by
  cases ip with
  | nil => exact absurd rfl hip
  | cons a r =>
    have ha := hipd a (List.mem_cons_self _ _)
    unfold numeral
    split
    · exact ⟨a, r, rfl, ha⟩
    · exact ⟨a, r ++ '.' :: fp, rfl, ha⟩

theorem isRateUnit_mem_slash (cs : List Char) (h : isRateUnit cs = true) : '/' ∈ cs := by
  unfold isRateUnit at h
  split at h
  · rename_i s slash u hrev
    simp only [Bool.and_eq_true, beq_iff_eq] at h
    have hmem : slash ∈ cs.reverse := by rw [hrev]; simp
    rw [List.mem_reverse] at hmem
    rw [← h.1.1.2]
    exact hmem
  · cases h

theorem isSpeedToken_speed (sip sfp unit : List Char) (hsip : sip ≠ [])
    (hsipd : ∀ c ∈ sip, isDigitChar c = true) (hsfp : ∀ c ∈ sfp, isDigitChar c = true)
    (hunit : unit ≠ []) (hunitl : ∀ c ∈ unit, isLetterChar c = true) :
    isSpeedToken (numeral sip sfp ++ unit ++ ['/', 's']) = true := by
  cases unit with
  | nil => exact absurd rfl hunit
  | cons u rest =>
    have hu := hunitl u (List.mem_cons_self _ _)
    have hx : (isDigitChar u || u == '.') = false := by
      rw [not_isDigitChar_of_isLetterChar u hu]
      have : u ≠ '.' := isLetterChar_ne u '.' hu (by decide)
      simp [this]
    have happ : numeral sip sfp ++ (u :: rest) ++ ['/', 's'] =
        numeral sip sfp ++ u :: (rest ++ ['/', 's']) := by simp
    obtain ⟨h1, h2⟩ := span_append_cons (fun c => isDigitChar c || c == '.') (numeral sip sfp) u
      (rest ++ ['/', 's']) (numeral_chars sip sfp hsipd hsfp) hx
    unfold isSpeedToken
    rw [happ, h1, h2, parseDecimal_numeral sip sfp hsip hsipd hsfp]
    unfold isRateUnit
    have hrev : (u :: (rest ++ ['/', 's'])).reverse = 's' :: '/' :: (u :: rest).reverse := by simp
    rw [hrev]
    have hall : (u :: rest).reverse.all isLetterChar = true := by
      rw [List.all_eq_true]
      intro c hc
      exact hunitl c (List.mem_reverse.mp hc)
    simp only [Option.isSome_some, beq_self_eq_true, Bool.true_and, hall, Bool.and_true]
    simp

theorem isSpeedToken_of_no_slash (t : List Char) (h : '/' ∉ t) : isSpeedToken t = false := by
  unfold isSpeedToken
  cases hr : isRateUnit (t.dropWhile (fun c => isDigitChar c || c == '.')) with
  | false => simp
  | true =>
    exfalso
    have := isRateUnit_mem_slash _ hr
    exact h ((List.dropWhile_sublist _).subset this)

theorem isClock_clock (hh mm ss : List Char) (hhh : ∀ c ∈ hh, isDigitChar c = true)
    (hmm : mm ≠ []) (hmmd : ∀ c ∈ mm, isDigitChar c = true) (hss : ss ≠ [])
    (hssd : ∀ c ∈ ss, isDigitChar c = true) :
    isClock (clock hh mm ss) = true := by
  have hmme : mm.isEmpty = false := by
    cases mm with
    | nil => exact absurd rfl hmm
    | cons a rest => rfl
  have hsse : ss.isEmpty = false := by
    cases ss with
    | nil => exact absurd rfl hss
    | cons a rest => rfl
  have hssall : ss.all isDigitChar = true := List.all_eq_true.mpr hssd
  cases hh with
  | nil =>
    obtain ⟨h1, h2⟩ := span_append_cons isDigitChar mm ':' ss hmmd (by decide)
    obtain ⟨h3, h4⟩ := span_all isDigitChar ss hssd
    have hclock : clock [] mm ss = mm ++ ':' :: ss := rfl
    rw [hclock]
    unfold isClock
    simp only [h1, h2, h3, h4, hmme, hsse]
    rfl
  | cons a rest =>
    obtain ⟨h1, h2⟩ := span_append_cons isDigitChar (a :: rest) ':' (mm ++ ':' :: ss) hhh
      (by decide)
    obtain ⟨h3, h4⟩ := span_append_cons isDigitChar mm ':' ss hmmd (by decide)
    have hclock : clock (a :: rest) mm ss = (a :: rest) ++ ':' :: (mm ++ ':' :: ss) := rfl
    rw [hclock]
    unfold isClock
    rw [h2, h1]
    simp only [h3, h4, hmme, hsse, hssall]
    rfl

theorem clock_chars (hh mm ss : List Char) (hhh : ∀ c ∈ hh, isDigitChar c = true)
    (hmmd : ∀ c ∈ mm, isDigitChar c = true) (hssd : ∀ c ∈ ss, isDigitChar c = true) :
    ∀ c ∈ clock hh mm ss, isDigitChar c = true ∨ c = ':' := by
  intro c hc
  unfold clock at hc
  split at hc
  · rw [List.mem_append, List.mem_cons] at hc
    rcases hc with h | h | h
    · exact Or.inl (hmmd c h)
    · exact Or.inr h
    · exact Or.inl (hssd c h)
  · simp only [List.mem_append, List.mem_cons] at hc
    rcases hc with h | h | h | h | h
    · exact Or.inl (hhh c h)
    · exact Or.inr h
    · exact Or.inl (hmmd c h)
    · exact Or.inr h
    · exact Or.inl (hssd c h)

theorem clock_head (hh mm ss : List Char) (hhh : ∀ c ∈ hh, isDigitChar c = true)
    (hmm : mm ≠ []) (hmmd : ∀ c ∈ mm, isDigitChar c = true) :
    ∃ d rest, clock hh mm ss = d :: rest ∧ isDigitChar d = true := by
  unfold clock
  cases hh with
  | nil =>
    cases mm with
    | nil => exact absurd rfl hmm
    | cons a r => exact ⟨a, r ++ ':' :: ss, rfl, hmmd a (List.mem_cons_self _ _)⟩
  | cons a r => exact ⟨a, r ++ ':' :: (mm ++ ':' :: ss), rfl, hhh a (List.mem_cons_self _ _)⟩

/-- A token that starts with a digit is none of the words the parser looks for. -/
theorem ne_word_of_head_digit (t : List Char)
    (h : ∃ d rest, t = d :: rest ∧ isDigitChar d = true) :
    t ≠ "ETA".data ∧ t ≠ "format".data ∧ t ≠ "Destination:".data := by
  obtain ⟨d, rest, rfl, hd⟩ := h
  refine ⟨?_, ?_, ?_⟩ <;>
  · intro heq
    have hhead := congrArg List.head? heq
    simp only [List.head?_cons, Option.some.injEq] at hhead
    rw [hhead] at hd
    revert hd
    decide

/-- The fields of a progress line without tag: seven tokens. -/
theorem Fields_progress (pt size speed eta : List Char)
    (hpt : pt ≠ [] ∧ ∀ c ∈ pt, isSpace c = false)
    (hsize : size ≠ [] ∧ ∀ c ∈ size, isSpace c = false)
    (hspeed : speed ≠ [] ∧ ∀ c ∈ speed, isSpace c = false)
    (heta : eta ≠ [] ∧ ∀ c ∈ eta, isSpace c = false) :
    Fields (pt ++ ' ' :: (['o', 'f'] ++ ' ' :: (size ++ ' ' :: (['a', 't'] ++ ' ' ::
      (speed ++ ' ' :: (['E', 'T', 'A'] ++ ' ' :: eta)))))) =
      [pt, "of".data, size, "at".data, speed, "ETA".data, eta] := by
  rw [Fields_token_space pt _ hpt.2 hpt.1,
    Fields_token_space ['o', 'f'] _ (by decide) (by decide),
    Fields_token_space size _ hsize.2 hsize.1,
    Fields_token_space ['a', 't'] _ (by decide) (by decide),
    Fields_token_space speed _ hspeed.2 hspeed.1,
    Fields_token_space ['E', 'T', 'A'] _ (by decide) (by decide),
    Fields_token eta heta.2 heta.1]

theorem etaOf_cons_ne (t n : List Char) (rest : List (List Char)) (h : t ≠ "ETA".data) :
    etaOf (t :: n :: rest) = etaOf (n :: rest) := by
  rw [etaOf]
  simp only [h, false_and, if_false]

theorem etaOf_cons_eq (n : List Char) (rest : List (List Char)) (h : isClock n = true) :
    etaOf ("ETA".data :: n :: rest) = String.mk n := by
  rw [etaOf]
  simp only [h, and_self, if_true]

theorem formatOf_cons_ne (t n : List Char) (rest : List (List Char)) (h : t ≠ "format".data) :
    formatOf (t :: n :: rest) = formatOf (n :: rest) := by
  rw [formatOf]
  simp only [h, false_and, if_false]

theorem formatOf_singleton (t : List Char) : formatOf [t] = none := by
  rw [formatOf]

/-- What the parser reads from the seven tokens of a progress line. -/
theorem parse_progress_tokens (pt size speed eta : List Char) (v : Float64)
    (hpercent : percentOf pt = some v) (hptslash : '/' ∉ pt)
    (hptword : pt ≠ "ETA".data ∧ pt ≠ "format".data ∧ pt ≠ "Destination:".data)
    (hsizeslash : '/' ∉ size)
    (hsizeword : size ≠ "ETA".data ∧ size ≠ "format".data ∧ size ≠ "Destination:".data)
    (hspeed : isSpeedToken speed = true)
    (hspeedword : speed ≠ "ETA".data ∧ speed ≠ "format".data ∧ speed ≠ "Destination:".data)
    (hclock : isClock eta = true)
    (hetaword : eta ≠ "ETA".data ∧ eta ≠ "format".data ∧ eta ≠ "Destination:".data) :
    "Destination:".data ∉ [pt, "of".data, size, "at".data, speed, "ETA".data, eta] ∧
      [pt, "of".data, size, "at".data, speed, "ETA".data, eta].findSome? percentOf = some v ∧
      [pt, "of".data, size, "at".data, speed, "ETA".data, eta].find? isSpeedToken =
        some speed ∧
      etaOf [pt, "of".data, size, "at".data, speed, "ETA".data, eta] = String.mk eta ∧
      formatOf [pt, "of".data, size, "at".data, speed, "ETA".data, eta] = none := by
  have hpts := isSpeedToken_of_no_slash pt hptslash
  have hsizes := isSpeedToken_of_no_slash size hsizeslash
  have hof : isSpeedToken "of".data = false := by decide
  have hat : isSpeedToken "at".data = false := by decide
  refine ⟨?_, ?_, ?_, ?_, ?_⟩
  · intro hmem
    rw [List.mem_cons] at hmem
    rcases hmem with h | hmem
    · exact hptword.2.2 h.symm
    rw [List.mem_cons] at hmem
    rcases hmem with h | hmem
    · exact absurd h (by decide)
    rw [List.mem_cons] at hmem
    rcases hmem with h | hmem
    · exact hsizeword.2.2 h.symm
    rw [List.mem_cons] at hmem
    rcases hmem with h | hmem
    · exact absurd h (by decide)
    rw [List.mem_cons] at hmem
    rcases hmem with h | hmem
    · exact hspeedword.2.2 h.symm
    rw [List.mem_cons] at hmem
    rcases hmem with h | hmem
    · exact absurd h (by decide)
    rw [List.mem_singleton] at hmem
    exact hetaword.2.2 hmem.symm
  · rw [List.findSome?_cons, hpercent]
  · rw [List.find?_cons, hpts, List.find?_cons, hof, List.find?_cons, hsizes, List.find?_cons,
      hat, List.find?_cons, hspeed]
  · rw [etaOf_cons_ne _ _ _ hptword.1, etaOf_cons_ne _ _ _ (by decide),
      etaOf_cons_ne _ _ _ hsizeword.1, etaOf_cons_ne _ _ _ (by decide),
      etaOf_cons_ne _ _ _ hspeedword.1, etaOf_cons_eq _ _ hclock]
  · rw [formatOf_cons_ne _ _ _ hptword.2.1, formatOf_cons_ne _ _ _ (by decide),
      formatOf_cons_ne _ _ _ hsizeword.2.1, formatOf_cons_ne _ _ _ (by decide),
      formatOf_cons_ne _ _ _ hspeedword.2.1, formatOf_cons_ne _ _ _ (by decide),
      formatOf_singleton]

/-- The tag token in front of the tokens of a progress line changes nothing. -/
theorem parse_tag_token (tokens : List (List Char)) (n : List Char) :
    ("Destination:".data ∈ "[download]".data :: n :: tokens ↔
        "Destination:".data ∈ n :: tokens) ∧
      ("[download]".data :: n :: tokens).findSome? percentOf =
        (n :: tokens).findSome? percentOf ∧
      ("[download]".data :: n :: tokens).find? isSpeedToken = (n :: tokens).find? isSpeedToken ∧
      etaOf ("[download]".data :: n :: tokens) = etaOf (n :: tokens) ∧
      formatOf ("[download]".data :: n :: tokens) = formatOf (n :: tokens) := by
  refine ⟨?_, ?_, ?_, etaOf_cons_ne _ _ _ (by decide), formatOf_cons_ne _ _ _ (by decide)⟩
  · rw [List.mem_cons]
    constructor
    · rintro (h | h)
      · exact absurd h (by decide)
      · exact h
    · exact Or.inr
  · have h : percentOf "[download]".data = none := by decide
    rw [List.findSome?_cons, h]
  · have h : isSpeedToken "[download]".data = false := by decide
    rw [List.find?_cons, h]

/-- The modelled parser on the other lines of `TestProgressParser_ParseLine`:
percentage only, speed only, a destination line, unmatched lines, several
spaces between the tokens, no ETA, and an inline format identifier. -/
theorem ParseLine_tested_lines :
    ParseLine "[download] 25%" =
        { percent := decimalValue "25".data [], status := "[download]" } ∧
      ParseLine "[download] Downloading at 1.5MiB/s" = { speed := "1.5MiB/s" } ∧
      ParseLine "[download] Destination: /path/to/video.mp4" =
        { destination := "/path/to/video.mp4" } ∧
      ParseLine "" = {} ∧
      ParseLine "[info] Checking video availability" = {} ∧
      ParseLine "[info] format: 248" = {} ∧
      ParseLine "[download]   0.8% of  109.70MiB at   400KiB/s ETA 23:13" =
        { percent := decimalValue "0".data "8".data, speed := "400KiB/s", eta := "23:13",
          status := "[download]" } ∧
      ParseLine "[download] 60% of 100.00MiB at 1.2MB/s" =
        { percent := decimalValue "60".data [], speed := "1.2MB/s", status := "[download]" } ∧
      ParseLine "[download] 30% of 50.00MiB at 2.00MiB/s format 248 ETA 00:10" =
        { percent := decimalValue "30".data [], speed := "2.00MiB/s", eta := "00:10",
          status := "[download] format 248" } :=
  ⟨rfl, rfl, rfl, rfl, rfl, rfl, rfl, rfl, rfl⟩

/-- The tokens of a progress line, without and with the leading tag. -/
theorem Fields_progressLine (tag : Bool) (p size speed eta : List Char)
    (hp : ∀ c ∈ p, isSpace c = false)
    (hsize : size ≠ [] ∧ ∀ c ∈ size, isSpace c = false)
    (hspeed : speed ≠ [] ∧ ∀ c ∈ speed, isSpace c = false)
    (heta : eta ≠ [] ∧ ∀ c ∈ eta, isSpace c = false) :
    Fields (progressLine tag p size speed eta).data =
      (if tag then ["[download]".data] else []) ++
        [p ++ ['%'], "of".data, size, "at".data, speed, "ETA".data, eta] := by
  have hpt : p ++ ['%'] ≠ [] ∧ ∀ c ∈ p ++ ['%'], isSpace c = false := by
    refine ⟨by simp, ?_⟩
    intro c hc
    rw [List.mem_append, List.mem_singleton] at hc
    rcases hc with h | h
    · exact hp c h
    · rw [h]; decide
  have hcore : p ++ "% of ".data ++ size ++ " at ".data ++ speed ++ " ETA ".data ++ eta =
      (p ++ ['%']) ++ ' ' :: ("of".data ++ ' ' :: (size ++ ' ' :: ("at".data ++ ' ' ::
        (speed ++ ' ' :: ("ETA".data ++ ' ' :: eta))))) := by
    have h1 : "% of ".data = ['%', ' ', 'o', 'f', ' '] := rfl
    have h2 : " at ".data = [' ', 'a', 't', ' '] := rfl
    have h3 : " ETA ".data = [' ', 'E', 'T', 'A', ' '] := rfl
    have h4 : "of".data = ['o', 'f'] := rfl
    have h5 : "at".data = ['a', 't'] := rfl
    have h6 : "ETA".data = ['E', 'T', 'A'] := rfl
    rw [h1, h2, h3, h4, h5, h6]
    simp only [List.append_assoc, List.cons_append, List.nil_append]
  have hfields := Fields_progress (p ++ ['%']) size speed eta hpt hsize hspeed heta
  cases tag with
  | false =>
    have hdata : (progressLine false p size speed eta).data =
        p ++ "% of ".data ++ size ++ " at ".data ++ speed ++ " ETA ".data ++ eta := by
      unfold progressLine
      simp only [Bool.false_eq_true, if_false, List.nil_append]
    rw [hdata, hcore, hfields]
    rfl
  | true =>
    have hdata : (progressLine true p size speed eta).data =
        "[download]".data ++ ' ' ::
          (p ++ "% of ".data ++ size ++ " at ".data ++ speed ++ " ETA ".data ++ eta) := by
      unfold progressLine
      have h0 : "[download] ".data = "[download]".data ++ [' '] := rfl
      simp only [if_true, h0, List.append_assoc, List.singleton_append]
      rfl
    rw [hdata, Fields_token_space "[download]".data _ (by decide) (by decide), hcore, hfields]
    rfl

/-- C25: for every progress line of the form `<P>% of <size> at <speed> ETA <eta>`,
with or without a leading `[download]` tag, with P written with or without
decimals, the size a number with its unit, the speed a number with a byte-rate
unit made of letters (`KiB/s`, `MiB/s`, `MB/s`) and eta as `MM:SS` or
`HH:MM:SS`, `ParseLine` returns percent = P, speed = `<speed>`, eta = `<eta>`,
phase `[download]` and an empty destination. -/
theorem C25_parse_progress_line (tag : Bool) (ip fp size sip sfp unit hh mm ss : List Char)
    (hip : ip ≠ [] ∧ ∀ c ∈ ip, isDigitChar c = true)
    (hfp : ∀ c ∈ fp, isDigitChar c = true)
    (hsize : (∃ d rest, size = d :: rest ∧ isDigitChar d = true) ∧
      ∀ c ∈ size, isDigitChar c = true ∨ isLetterChar c = true ∨ c = '.')
    (hsip : sip ≠ [] ∧ ∀ c ∈ sip, isDigitChar c = true)
    (hsfp : ∀ c ∈ sfp, isDigitChar c = true)
    (hunit : unit ≠ [] ∧ ∀ c ∈ unit, isLetterChar c = true)
    (hhh : ∀ c ∈ hh, isDigitChar c = true)
    (hmm : mm ≠ [] ∧ ∀ c ∈ mm, isDigitChar c = true)
    (hss : ss ≠ [] ∧ ∀ c ∈ ss, isDigitChar c = true) :
    ParseLine (progressLine tag (numeral ip fp) size (numeral sip sfp ++ unit ++ "/s".data)
        (clock hh mm ss)) =
      { percent := decimalValue ip fp
        speed := String.mk (numeral sip sfp ++ unit ++ "/s".data)
        eta := String.mk (clock hh mm ss)
        status := "[download]"
        destination := "" } := by
  -- the characters of the four pieces
  have hpchar := numeral_chars ip fp hip.2 hfp
  have hspchar := numeral_chars sip sfp hsip.2 hsfp
  have hechar := clock_chars hh mm ss hhh hmm.2 hss.2
  have hs1 : "/s".data = ['/', 's'] := rfl
  have hspace_p : ∀ c ∈ numeral ip fp, isSpace c = false := by
    intro c hc
    have := hpchar c hc
    rw [Bool.or_eq_true, beq_iff_eq] at this
    rcases this with h | h
    · exact isSpace_of_isDigitChar c h
    · rw [h]; decide
  have hspace_size : ∀ c ∈ size, isSpace c = false := by
    intro c hc
    rcases hsize.2 c hc with h | h | h
    · exact isSpace_of_isDigitChar c h
    · exact isSpace_of_isLetterChar c h
    · rw [h]; decide
  have hspace_speed : ∀ c ∈ numeral sip sfp ++ unit ++ "/s".data, isSpace c = false := by
    intro c hc
    rw [hs1] at hc
    simp only [List.mem_append, List.mem_cons, List.mem_singleton, List.not_mem_nil,
      or_false] at hc
    rcases hc with (h | h) | h | h
    · have := hspchar c h
      rw [Bool.or_eq_true, beq_iff_eq] at this
      rcases this with h' | h'
      · exact isSpace_of_isDigitChar c h'
      · rw [h']; decide
    · exact isSpace_of_isLetterChar c (hunit.2 c h)
    · rw [h]; decide
    · rw [h]; decide
  have hspace_eta : ∀ c ∈ clock hh mm ss, isSpace c = false := by
    intro c hc
    rcases hechar c hc with h | h
    · exact isSpace_of_isDigitChar c h
    · rw [h]; decide
  obtain ⟨d0, r0, hsz, hd0⟩ := hsize.1
  obtain ⟨d1, r1, hsp, hd1⟩ := numeral_head sip sfp hsip.1 hsip.2
  obtain ⟨d2, r2, hcl, hd2⟩ := clock_head hh mm ss hhh hmm.1 hmm.2
  obtain ⟨d3, r3, hpn, hd3⟩ := numeral_head ip fp hip.1 hip.2
  have hsize_ne : size ≠ [] := by rw [hsz]; simp
  have hspeed_ne : numeral sip sfp ++ unit ++ "/s".data ≠ [] := by rw [hsp]; simp
  have heta_ne : clock hh mm ss ≠ [] := by rw [hcl]; simp
  have htokens := Fields_progressLine tag (numeral ip fp) size
    (numeral sip sfp ++ unit ++ "/s".data) (clock hh mm ss) hspace_p
    ⟨hsize_ne, hspace_size⟩ ⟨hspeed_ne, hspace_speed⟩ ⟨heta_ne, hspace_eta⟩
  -- what the parser reads from the tokens
  have hptslash : '/' ∉ numeral ip fp ++ ['%'] := by
    intro hmem
    rw [List.mem_append, List.mem_singleton] at hmem
    rcases hmem with h | h
    · have := hpchar _ h
      revert this
      decide
    · revert h
      decide
  have hsizeslash : '/' ∉ size := by
    intro hmem
    rcases hsize.2 _ hmem with h | h | h <;> revert h <;> decide
  obtain ⟨hD, hpercent, hspeed, heta, hformat⟩ := parse_progress_tokens
    (numeral ip fp ++ ['%']) size (numeral sip sfp ++ unit ++ "/s".data) (clock hh mm ss)
    (decimalValue ip fp) (percentOf_numeral ip fp hip.1 hip.2 hfp) hptslash
    (ne_word_of_head_digit _ ⟨d3, r3 ++ ['%'], by rw [hpn]; rfl, hd3⟩)
    hsizeslash (ne_word_of_head_digit _ ⟨d0, r0, hsz, hd0⟩)
    (by rw [hs1]; exact isSpeedToken_speed sip sfp unit hsip.1 hsip.2 hsfp hunit.1 hunit.2)
    (ne_word_of_head_digit _ ⟨d1, r1 ++ unit ++ "/s".data, by rw [hsp]; rfl, hd1⟩)
    (isClock_clock hh mm ss hhh hmm.1 hmm.2 hss.1 hss.2)
    (ne_word_of_head_digit _ ⟨d2, r2, hcl, hd2⟩)
  unfold ParseLine
  simp only [htokens]
  cases tag with
  | false =>
    simp only [Bool.false_eq_true, if_false, List.nil_append]
    rw [if_neg hD]
    simp only [hpercent, hspeed, heta, hformat, Option.getD_some, Option.map_some']
  | true =>
    obtain ⟨tD, tpercent, tspeed, teta, tformat⟩ := parse_tag_token
      ["of".data, size, "at".data, numeral sip sfp ++ unit ++ "/s".data, "ETA".data,
        clock hh mm ss] (numeral ip fp ++ ['%'])
    simp only [if_true, List.singleton_append]
    rw [if_neg (fun h => hD (tD.mp h))]
    simp only [tpercent, tspeed, teta, tformat, hpercent, hspeed, heta, hformat,
      Option.getD_some, Option.map_some']

/-- Witness for C25: the line of the spec and of the first test case,
`[download] 10.5% of 50.00MiB at 2.50MiB/s ETA 00:20`, gives (10.5, `2.50MiB/s`,
`00:20`, `[download]`, empty destination). -/
theorem C25_parse_progress_line_witness :
    ParseLine "[download] 10.5% of 50.00MiB at 2.50MiB/s ETA 00:20" =
        { percent := decimalValue "10".data "5".data, speed := "2.50MiB/s", eta := "00:20",
          status := "[download]", destination := "" } ∧
      decimalValue "10".data "5".data = 10.5 :=
  ⟨C25_parse_progress_line true "10".data "5".data "50.00MiB".data "2".data "50".data
      "MiB".data [] "00".data "20".data (by decide) (by decide)
      ⟨⟨'5', "0.00MiB".data, rfl, by decide⟩, by decide⟩ (by decide)
      (by decide) (by decide) (by decide) (by decide) (by decide),
    by
      show mkRat 105 10 = 10.5
      norm_num [Rat.mkRat_eq_div]⟩

/-! ## Resolving a quality preset -/

/-- The test of the loop of `ResolveQualityToFormat`: the height of the format
is positive and at most the requested height. -/
theorem pickBetter_of_not_qualifies (h : Int) (state : FormatItem × Bool) (item : FormatItem)
    (hq : ¬ (parseResolutionHeight item.Resolution > 0 ∧
      parseResolutionHeight item.Resolution ≤ h)) :
    pickBetter h state item = state := by
  unfold pickBetter
  simp only [if_neg hq]

/-- The invariant of the loop of `ResolveQualityToFormat` after the formats
`seen`: nothing found means no format qualified; otherwise `bestMatch` is a
qualifying format of `seen`, no qualifying format is higher, and the qualifying
formats before it are strictly lower. -/
theorem pickBetter_foldl (h : Int) (rest seen : List FormatItem) (state : FormatItem × Bool)
    (hnone : state.2 = false → ∀ x ∈ seen,
      ¬ (parseResolutionHeight x.Resolution > 0 ∧ parseResolutionHeight x.Resolution ≤ h))
    (hsome : state.2 = true → ∃ before after, seen = before ++ state.1 :: after ∧
      (parseResolutionHeight state.1.Resolution > 0 ∧
        parseResolutionHeight state.1.Resolution ≤ h) ∧
      (∀ x ∈ seen, parseResolutionHeight x.Resolution > 0 →
        parseResolutionHeight x.Resolution ≤ h →
        parseResolutionHeight x.Resolution ≤ parseResolutionHeight state.1.Resolution) ∧
      (∀ x ∈ before, parseResolutionHeight x.Resolution > 0 →
        parseResolutionHeight x.Resolution ≤ h →
        parseResolutionHeight x.Resolution < parseResolutionHeight state.1.Resolution)) :
    ((rest.foldl (pickBetter h) state).2 = false → ∀ x ∈ seen ++ rest,
      ¬ (parseResolutionHeight x.Resolution > 0 ∧ parseResolutionHeight x.Resolution ≤ h)) ∧
    ((rest.foldl (pickBetter h) state).2 = true → ∃ before after,
      seen ++ rest = before ++ (rest.foldl (pickBetter h) state).1 :: after ∧
      (parseResolutionHeight (rest.foldl (pickBetter h) state).1.Resolution > 0 ∧
        parseResolutionHeight (rest.foldl (pickBetter h) state).1.Resolution ≤ h) ∧
      (∀ x ∈ seen ++ rest, parseResolutionHeight x.Resolution > 0 →
        parseResolutionHeight x.Resolution ≤ h →
        parseResolutionHeight x.Resolution ≤
          parseResolutionHeight (rest.foldl (pickBetter h) state).1.Resolution) ∧
      (∀ x ∈ before, parseResolutionHeight x.Resolution > 0 →
        parseResolutionHeight x.Resolution ≤ h →
        parseResolutionHeight x.Resolution <
          parseResolutionHeight (rest.foldl (pickBetter h) state).1.Resolution)) := by
  induction rest generalizing seen state with
  | nil =>
    simp only [List.foldl_nil, List.append_nil]
    exact ⟨hnone, hsome⟩
  | cons a rest ih =>
    have happ : seen ++ a :: rest = (seen ++ [a]) ++ rest := by simp
    rw [List.foldl_cons, happ]
    apply ih
    · -- nothing found after `a`
      intro hf x hx
      by_cases hq : parseResolutionHeight a.Resolution > 0 ∧
          parseResolutionHeight a.Resolution ≤ h
      · exfalso
        unfold pickBetter at hf
        simp only [if_pos hq] at hf
        split at hf
        · cases hf
        · rename_i hcond
          exact hcond (Or.inl hf)
      · rw [pickBetter_of_not_qualifies h state a hq] at hf
        rcases List.mem_append.mp hx with hx | hx
        · exact hnone hf x hx
        · rw [List.mem_singleton] at hx
          rw [hx]
          exact hq
    · intro hf
      by_cases hq : parseResolutionHeight a.Resolution > 0 ∧
          parseResolutionHeight a.Resolution ≤ h
      · by_cases hcond : state.2 = false ∨ parseResolutionHeight a.Resolution >
            parseResolutionHeight state.1.Resolution
        · have hstep : pickBetter h state a = (a, true) := by
            unfold pickBetter
            simp only [if_pos hq, if_pos hcond]
          rw [hstep]
          have hlow : ∀ x ∈ seen, parseResolutionHeight x.Resolution > 0 →
              parseResolutionHeight x.Resolution ≤ h →
              parseResolutionHeight x.Resolution < parseResolutionHeight a.Resolution := by
            intro x hx h0 h1
            rcases hcond with hc | hc
            · exact absurd ⟨h0, h1⟩ (hnone hc x hx)
            · have hfound : state.2 = true := by
                cases hs : state.2
                · exact absurd ⟨h0, h1⟩ (hnone hs x hx)
                · rfl
              obtain ⟨_, _, _, _, hmax, _⟩ := hsome hfound
              exact lt_of_le_of_lt (hmax x hx h0 h1) hc
          refine ⟨seen, [], rfl, hq, ?_, hlow⟩
          intro x hx h0 h1
          rcases List.mem_append.mp hx with hx | hx
          · exact le_of_lt (hlow x hx h0 h1)
          · rw [List.mem_singleton] at hx
            rw [hx]
        · have hstep : pickBetter h state a = state := by
            unfold pickBetter
            simp only [if_pos hq, if_neg hcond]
          rw [hstep] at hf ⊢
          obtain ⟨before, after, hseen, hbq, hmax, hlow⟩ := hsome hf
          refine ⟨before, after ++ [a], by rw [hseen]; simp, hbq, ?_, hlow⟩
          intro x hx h0 h1
          rcases List.mem_append.mp hx with hx | hx
          · exact hmax x hx h0 h1
          · rw [List.mem_singleton] at hx
            rw [hx]
            have := not_or.mp hcond
            omega
      · rw [pickBetter_of_not_qualifies h state a hq] at hf ⊢
        obtain ⟨before, after, hseen, hbq, hmax, hlow⟩ := hsome hf
        refine ⟨before, after ++ [a], by rw [hseen]; simp, hbq, ?_, hlow⟩
        intro x hx h0 h1
        rcases List.mem_append.mp hx with hx | hx
        · exact hmax x hx h0 h1
        · rw [List.mem_singleton] at hx
          rw [hx] at h0 h1
          exact absurd ⟨h0, h1⟩ hq

/-! ## Heights written in a resolution and in a quality -/

theorem digit_bounds (c : Char) (h : isDigitChar c = true) : '0' ≤ c ∧ c ≤ '9' := by
  unfold isDigitChar at h
  simp only [Bool.and_eq_true, decide_eq_true_eq] at h
  constructor
  · show '0'.val ≤ c.val
    rw [UInt32.le_def]
    exact h.1
  · show c.val ≤ '9'.val
    rw [UInt32.le_def]
    exact h.2

theorem parseDigits_digits (cs : List Char) (hcs : ∀ c ∈ cs, isDigitChar c = true) (acc : Nat) :
    parseDigits acc cs = some (cs.foldl (fun acc c => acc * 10 + (c.toNat - 48)) acc) := by
  induction cs generalizing acc with
  | nil => rfl
  | cons c rest ih =>
    rw [parseDigits, if_pos (digit_bounds c (hcs c (List.mem_cons_self _ _))),
      ih (fun x hx => hcs x (List.mem_cons_of_mem _ hx))]
    rfl

theorem digit_ne (c x : Char) (h : isDigitChar c = true) (hx : isDigitChar x = false) : c ≠ x := by
  intro he
  rw [he, hx] at h
  cases h

/-- `strconv.Atoi` on a non-empty run of digits whose value fits 64 bits. -/
theorem Atoi_digits (hd : List Char) (hne : hd ≠ []) (hdig : ∀ c ∈ hd, isDigitChar c = true)
    (hrange : digitsValue hd < 2 ^ 63) :
    Atoi (String.mk hd) = some (digitsValue hd : Int) := by
  cases hd with
  | nil => exact absurd rfl hne
  | cons d rest =>
    have hd0 := hdig d (List.mem_cons_self _ _)
    have hplus : d ≠ '+' := digit_ne d '+' hd0 (by decide)
    have hminus : d ≠ '-' := digit_ne d '-' hd0 (by decide)
    have hval : parseDigits 0 (d :: rest) = some (digitsValue (d :: rest)) :=
      parseDigits_digits (d :: rest) hdig 0
    have h1 : -(2 : Int) ^ 63 ≤ (digitsValue (d :: rest) : Int) ∧
        (digitsValue (d :: rest) : Int) < (2 : Int) ^ 63 := by
      constructor
      · have : (0 : Int) ≤ (digitsValue (d :: rest) : Int) := Int.ofNat_nonneg _
        have h2 : -(2 : Int) ^ 63 ≤ 0 := by norm_num
        omega
      · exact_mod_cast hrange
    have hinner : ∀ o : Option Int, o = some (digitsValue (d :: rest) : Int) →
        (match o with
          | some v => if -(2 : Int) ^ 63 ≤ v ∧ v < (2 : Int) ^ 63 then some v else none
          | none => none) = some (digitsValue (d :: rest) : Int) := by
      intro o ho
      rw [ho]
      simp only
      rw [if_pos h1]
    unfold Atoi
    apply hinner
    simp only
    split
    · rename_i heq
      exact absurd (List.cons.inj heq).1 hplus
    · rename_i heq
      exact absurd (List.cons.inj heq).1 hminus
    · rw [hval]
      rfl

theorem splitX_of_not_mem (cs : List Char) (h : 'x' ∉ cs) : splitX cs = [cs] := by
  induction cs with
  | nil => rfl
  | cons c rest ih =>
    have hc : c ≠ 'x' := fun he => h (by rw [he]; exact List.mem_cons_self _ _)
    rw [splitX, if_neg hc, ih (fun hm => h (List.mem_cons_of_mem _ hm))]

theorem splitX_append (w r : List Char) (h : 'x' ∉ w) :
    splitX (w ++ 'x' :: r) = w :: splitX r := by
  induction w with
  | nil => rw [List.nil_append, splitX, if_pos rfl]
  | cons c rest ih =>
    have hc : c ≠ 'x' := fun he => h (by rw [he]; exact List.mem_cons_self _ _)
    rw [List.cons_append, splitX, if_neg hc, ih (fun hm => h (List.mem_cons_of_mem _ hm))]

/-- The height of a resolution written `WxH`: the number written by the digits
`H`, whatever the text `W` before the `x`. -/
theorem parseResolutionHeight_text (w hd : List Char) (hw : 'x' ∉ w) (hne : hd ≠ [])
    (hdig : ∀ c ∈ hd, isDigitChar c = true) (hrange : digitsValue hd < 2 ^ 63) :
    parseResolutionHeight (String.mk (w ++ 'x' :: hd)) = (digitsValue hd : Int) := by
  have hx : 'x' ∉ hd := fun hm => by
    have := hdig 'x' hm
    revert this
    decide
  have hlen : 2 ≤ (w ++ 'x' :: hd).length := by
    cases hd with
    | nil => exact absurd rfl hne
    | cons d rest =>
      simp only [List.length_append, List.length_cons]
      omega
  have hnot : ¬ (String.mk (w ++ 'x' :: hd) = "" ∨ String.mk (w ++ 'x' :: hd) = "?") := by
    rintro (h | h)
    · have := congrArg (fun s => s.data.length) h
      simp only at this
      revert this
      show (w ++ 'x' :: hd).length = 0 → False
      omega
    · have := congrArg (fun s => s.data.length) h
      simp only at this
      revert this
      show (w ++ 'x' :: hd).length = 1 → False
      omega
  unfold parseResolutionHeight
  rw [if_neg hnot]
  simp only [splitX_append w hd hw, splitX_of_not_mem hd hx, Atoi_digits hd hne hdig hrange]

theorem toLower_digit (c : Char) (h : isDigitChar c = true) : c.toLower = c := by
  unfold isDigitChar at h
  simp only [Bool.and_eq_true, decide_eq_true_eq] at h
  unfold Char.toLower
  simp only
  rw [if_neg (by omega)]

theorem map_toLower_digits (hd : List Char) (hdig : ∀ c ∈ hd, isDigitChar c = true) :
    hd.map Char.toLower = hd := by
  induction hd with
  | nil => rfl
  | cons c rest ih =>
    rw [List.map_cons, toLower_digit c (hdig c (List.mem_cons_self _ _)),
      ih (fun x hx => hdig x (List.mem_cons_of_mem _ hx))]

/-- The height of a quality written as the digits `H`, alone or followed by `p`
or `P`: the number written by the digits. -/
theorem parseHeight_text (hd : List Char) (hne : hd ≠ [])
    (hdig : ∀ c ∈ hd, isDigitChar c = true) (hrange : digitsValue hd < 2 ^ 63) :
    parseHeight (String.mk hd) = (digitsValue hd : Int) ∧
      parseHeight (String.mk (hd ++ ['p'])) = (digitsValue hd : Int) ∧
      parseHeight (String.mk (hd ++ ['P'])) = (digitsValue hd : Int) := by
  have hlow : ToLower (String.mk hd) = String.mk hd := by
    unfold ToLower
    rw [map_toLower_digits hd hdig]
  have hlowp : ToLower (String.mk (hd ++ ['p'])) = String.mk (hd ++ ['p']) := by
    unfold ToLower
    simp only [List.map_append, map_toLower_digits hd hdig]
    rfl
  have hlowP : ToLower (String.mk (hd ++ ['P'])) = String.mk (hd ++ ['p']) := by
    unfold ToLower
    simp only [List.map_append, map_toLower_digits hd hdig]
    rfl
  have htrimp : trimSuffixP (String.mk (hd ++ ['p'])) = String.mk hd := by
    unfold trimSuffixP
    simp only [List.reverse_append, List.reverse_cons, List.reverse_nil, List.nil_append,
      List.singleton_append, List.reverse_reverse]
  have htrim : trimSuffixP (String.mk hd) = String.mk hd := by
    unfold trimSuffixP
    split
    · rename_i r heq
      have hmem : 'p' ∈ hd := by
        rw [← List.mem_reverse]
        show 'p' ∈ (String.mk hd).data.reverse
        rw [heq]
        exact List.mem_cons_self _ _
      have hp : isDigitChar 'p' = false := by decide
      rw [hdig 'p' hmem] at hp
      cases hp
    · rfl
  have hat := Atoi_digits hd hne hdig hrange
  refine ⟨?_, ?_, ?_⟩
  · unfold parseHeight
    simp only [hlow, htrim, hat]
  · unfold parseHeight
    simp only [hlowp, htrimp, hat]
  · unfold parseHeight
    simp only [hlowP, htrimp, hat]

/-- C27: for every quality string that parses (`parseHeight`: case-insensitively,
with optional trailing `p`) to a positive height h and every format list
containing at least one format whose resolution `WxH` has `0 < H <= h`,
`ResolveQualityToFormat` returns the `FormatValue` of the first format in list
order whose height is the greatest among those with `0 < H <= h`; if no format
qualifies it returns the first format's `FormatValue`, or the quality string
itself when the list is empty.  The height of a resolution written `WxH`, with
no `x` in `W` and `H` a run of digits, is the number `H`; the height h of a
quality written as a run of digits, alone or followed by `p` or `P`, is that
number. -/
theorem C27_resolve_quality (quality : String) (videoFormats : List FormatItem) (h : Int)
    (hparse : parseHeight quality = h) (hpos : 0 < h) :
    ((∃ f ∈ videoFormats, 0 < parseResolutionHeight f.Resolution ∧
        parseResolutionHeight f.Resolution ≤ h) →
      ∃ (before : List FormatItem) (best : FormatItem) (after : List FormatItem),
        videoFormats = before ++ best :: after ∧
        0 < parseResolutionHeight best.Resolution ∧
        parseResolutionHeight best.Resolution ≤ h ∧
        (∀ x ∈ videoFormats, 0 < parseResolutionHeight x.Resolution →
          parseResolutionHeight x.Resolution ≤ h →
          parseResolutionHeight x.Resolution ≤ parseResolutionHeight best.Resolution) ∧
        (∀ x ∈ before, parseResolutionHeight x.Resolution ≠
          parseResolutionHeight best.Resolution) ∧
        ResolveQualityToFormat quality videoFormats = best.FormatValue) ∧
      ((∀ f ∈ videoFormats, ¬ (0 < parseResolutionHeight f.Resolution ∧
          parseResolutionHeight f.Resolution ≤ h)) →
        (∀ first rest, videoFormats = first :: rest →
          ResolveQualityToFormat quality videoFormats = first.FormatValue) ∧
        (videoFormats = [] → ResolveQualityToFormat quality videoFormats = quality)) ∧
      (∀ (w hd : List Char), 'x' ∉ w → hd ≠ [] → (∀ c ∈ hd, isDigitChar c = true) →
        digitsValue hd < 2 ^ 63 →
        parseResolutionHeight (String.mk (w ++ 'x' :: hd)) = (digitsValue hd : Int)) ∧
      (∀ (hd : List Char), hd ≠ [] → (∀ c ∈ hd, isDigitChar c = true) →
        digitsValue hd < 2 ^ 63 →
        (quality = String.mk hd ∨ quality = String.mk (hd ++ ['p']) ∨
          quality = String.mk (hd ++ ['P'])) →
        h = (digitsValue hd : Int)) := by
  have hne : ¬ (quality = "" ∨ quality = "best") := by
    rintro (hq | hq) <;> rw [hq] at hparse <;> rw [← hparse] at hpos <;> revert hpos <;> decide
  have h0 : ¬ parseHeight quality = 0 := by omega
  have hres : ResolveQualityToFormat quality videoFormats =
      if (videoFormats.foldl (pickBetter h) ({}, false)).2 = true then
        (videoFormats.foldl (pickBetter h) ({}, false)).1.FormatValue
      else
        match videoFormats with
        | first :: _ => first.FormatValue
        | [] => quality := by
    unfold ResolveQualityToFormat
    simp only [if_neg hne, hparse, if_neg (ne_of_gt hpos)]
  obtain ⟨hnone, hsome⟩ := pickBetter_foldl h videoFormats [] ({}, false)
    (fun _ x hx => absurd hx (List.not_mem_nil x)) (fun hf => by cases hf)
  rw [List.nil_append] at hnone hsome
  refine ⟨?_, ?_, parseResolutionHeight_text, ?_⟩
  · rintro ⟨f, hf, hf0, hf1⟩
    have hfound : (videoFormats.foldl (pickBetter h) ({}, false)).2 = true := by
      cases hs : (videoFormats.foldl (pickBetter h) ({}, false)).2
      · exact absurd ⟨hf0, hf1⟩ (hnone hs f hf)
      · rfl
    obtain ⟨before, after, hsplit, hbq, hmax, hlow⟩ := hsome hfound
    refine ⟨before, _, after, hsplit, hbq.1, hbq.2, hmax, ?_, by rw [hres, if_pos hfound]⟩
    intro x hx heq
    have hx0 : parseResolutionHeight x.Resolution > 0 := by rw [heq]; exact hbq.1
    have hx1 : parseResolutionHeight x.Resolution ≤ h := by rw [heq]; exact hbq.2
    have := hlow x hx hx0 hx1
    omega
  · intro hno
    have hfound : ¬ (videoFormats.foldl (pickBetter h) ({}, false)).2 = true := by
      intro hf
      obtain ⟨before, after, hsplit, hbq, _, _⟩ := hsome hf
      have hmem : ∀ b : FormatItem, videoFormats = before ++ b :: after → b ∈ videoFormats :=
        fun b hb => by rw [hb]; simp
      exact hno _ (hmem _ hsplit) hbq
    rw [hres, if_neg hfound]
    constructor
    · intro first rest hv
      rw [hv]
    · intro hv
      rw [hv]
  · intro hd hne hdig hr hq
    obtain ⟨h1, h2, h3⟩ := parseHeight_text hd hne hdig hr
    rw [← hparse]
    rcases hq with hq | hq | hq <;> rw [hq]
    · exact h1
    · exact h2
    · exact h3

/-- Witness for C27: quality `720P` on `mixedFormats`, whose resolutions
`1920x1080`, `1280x720`, `960x720` and `854x480` have the heights 1080, 720,
720 and 480; the two formats of height 720 qualify and the first of them,
`format2`, is returned. -/
theorem C27_resolve_quality_witness :
    parseHeight "720P" = 720 ∧
      mixedFormats.map (fun f => (f.FormatValue, parseResolutionHeight f.Resolution)) =
        [("format1", 1080), ("format2", 720), ("format3", 720), ("format4", 480)] ∧
      ResolveQualityToFormat "720P" mixedFormats = "format2" ∧
      ResolveQualityToFormat "720P" [] = "720P" ∧
      ResolveQualityToFormat "480p" [{ FormatValue := "format1", Resolution := "1920x1080" }] =
        "format1" ∧
      parseResolutionHeight (String.mk ("1280".data ++ 'x' :: "720".data)) =
        (digitsValue "720".data : Int) ∧
      ∃ (before : List FormatItem) (best : FormatItem) (after : List FormatItem),
        mixedFormats = before ++ best :: after ∧
        (∀ x ∈ before, parseResolutionHeight x.Resolution ≠
          parseResolutionHeight best.Resolution) ∧
        ResolveQualityToFormat "720P" mixedFormats = best.FormatValue :=
  have h := C27_resolve_quality "720P" mixedFormats 720 (by decide) (by decide)
  ⟨by decide, by decide, by decide, by decide, by decide,
    h.2.2.1 "1280".data "720".data (by decide) (by decide) (by decide) (by decide),
    (h.1 ⟨{ FormatValue := "format2", Resolution := "1280x720" }, by decide, by decide,
        by decide⟩).imp
      (fun _ h => h.imp (fun _ h => h.imp (fun _ h => ⟨h.1, h.2.2.2.2.1, h.2.2.2.2.2⟩)))⟩

/-! ## Keys of the recovery store -/

theorem uniqueKeys_filter (ds : List UnfinishedDownload) (p : UnfinishedDownload → Bool)
    (h : UniqueKeys ds) : UniqueKeys (ds.filter p) :=
  List.Nodup.sublist ((List.filter_sublist ds).map _) h

/-- The single-entry operations and the batch removal keep the keys of a
loadable store distinct. -/
theorem uniqueKeys_kept (f : StoreFile) (ds : List UnfinishedDownload)
    (hload : LoadUnfinished f = .ok ds) (h : UniqueKeys ds) :
    (∀ e, ∃ ds', LoadUnfinished (AddUnfinished f e).1 = .ok ds' ∧ UniqueKeys ds') ∧
      (∀ key, ∃ ds', LoadUnfinished (RemoveUnfinished f key).1 = .ok ds' ∧ UniqueKeys ds') ∧
      (∀ urls, ∃ ds', LoadUnfinished (RemoveUnfinishedBatch f urls).1 = .ok ds' ∧
        UniqueKeys ds') := by
  refine ⟨?_, ?_, ?_⟩
  · intro e
    by_cases hv : e.URL = "" ∨ e.Title = ""
    · refine ⟨ds, ?_, h⟩
      unfold AddUnfinished
      rw [if_pos hv]
      exact hload
    · have hurl : e.URL ≠ "" := fun h1 => hv (Or.inl h1)
      have htitle : e.Title ≠ "" := fun h1 => hv (Or.inr h1)
      rw [AddUnfinished_valid f ds e hload hurl htitle]
      by_cases hex : ∃ d ∈ ds, d.URL = e.URL
      · obtain ⟨before, d, after, hds, _, hd, hr⟩ := replaceFirst_of_mem e ds hex
        refine ⟨before ++ e :: after, by rw [hr]; rfl, ?_⟩
        unfold UniqueKeys at h ⊢
        rw [hds] at h
        simpa [hd] using h
      · have hno : ∀ d ∈ ds, d.URL ≠ e.URL := fun d hd hde => hex ⟨d, hd, hde⟩
        refine ⟨ds ++ [e], by rw [replaceFirst_of_not_mem e ds hno]; rfl, ?_⟩
        unfold UniqueKeys at h ⊢
        rw [List.map_append, List.nodup_append]
        refine ⟨h, by simp, ?_⟩
        intro u hu hu'
        rw [List.map_singleton, List.mem_singleton] at hu'
        obtain ⟨d, hd, hdu⟩ := List.mem_map.mp hu
        exact hno d hd (hdu.trans hu')
  · intro key
    refine ⟨ds.filter (fun d => d.URL != key), ?_, uniqueKeys_filter ds _ h⟩
    unfold RemoveUnfinished
    rw [hload]
    rfl
  · intro urls
    by_cases hu : urls.length = 0
    · refine ⟨ds, ?_, h⟩
      unfold RemoveUnfinishedBatch
      rw [if_pos hu]
      exact hload
    · refine ⟨ds.filter (fun d => !(urls.contains d.URL)), ?_, uniqueKeys_filter ds _ h⟩
      unfold RemoveUnfinishedBatch
      rw [if_neg hu, hload]
      rfl

/-- C28, the failing input: on an absent (empty) store, whose keys are trivially
distinct, `AddUnfinishedBatch` with a batch of two valid entries under the same
key appends both, because the map of known keys is not updated when an entry is
appended; the two entries of the new content share their key.  The same two
entries added one after the other by `AddUnfinished` leave a single entry. -/
theorem C28_unique_keys_failing_input :
    LoadUnfinished .missing = .ok [] ∧ UniqueKeys [] ∧
      AddUnfinishedBatch .missing sameKeyBatch = (.content sameKeyBatch, none) ∧
      ¬ UniqueKeys sameKeyBatch ∧
      (AddUnfinished (AddUnfinished .missing
          { URL := "https://example.com/video", FormatID := "best", Title := "First" }).1
          { URL := "https://example.com/video", FormatID := "18", Title := "Second" }).1 =
        .content [ { URL := "https://example.com/video", FormatID := "18", Title := "Second" } ] := by
  refine ⟨rfl, by decide, by decide, by decide, by decide⟩

/-! ## Resumed queues -/

/-- What the case `StartResumeDownloadMsg` does with a non-empty URL list: the
queue is built from the stored videos (from the URLs when there are none), the
URL of every item is the ID of its video. -/
theorem resume_spec (w : World) (m : Model) (msg : StartResumeDownloadMsg)
    (hurls : msg.URLs ≠ []) :
    ∃ (v : VideoItem) (vs : List VideoItem) (m' : Model) (f : StoreFile) (c : Cmd),
      (if msg.Videos.length = 0 then
          msg.URLs.map (fun u => ({ ID := u, VideoTitle := u } : VideoItem))
        else msg.Videos) = v :: vs ∧
      Update w m (.startResumeDownload msg) = .ret m' f c ∧
      m'.Download.IsQueue = true ∧
      m'.Download.QueueTotal = ((v :: vs).length : Int) ∧
      m'.Download.QueueIndex = 1 ∧
      m'.Download.QueueItems =
        { Index := 1, Video := v, URL := v.ID, Status := QueueStatusDownloading } ::
          buildQueueItems (fun v => v.ID) 1 vs := by
  have hpos : msg.URLs.length > 0 := List.length_pos.mpr hurls
  cases hv : (if msg.Videos.length = 0 then
      msg.URLs.map (fun u => ({ ID := u, VideoTitle := u } : VideoItem))
    else msg.Videos) with
  | nil =>
    exfalso
    split at hv
    · rw [List.map_eq_nil_iff] at hv
      exact hurls hv
    · rename_i hne
      rw [hv] at hne
      exact hne rfl
  | cons v vs =>
    refine ⟨v, vs, ?_⟩
    simp only [Update]
    unfold updateStartResumeDownload
    simp only [if_pos hpos, hv]
    simp only [indexAt, buildQueueItems, storeAt]
    simp only [le_refl, if_true, Int.toNat_zero, List.getElem?_cons_zero, List.set_cons_zero]
    exact ⟨_, _, _, trivial, rfl, rfl, rfl, rfl, rfl⟩

theorem resumed_wf {m : Model} (h : Resumed m) : QueueState m ∧ LaterPending m.Download := by
  obtain ⟨w, m0, msg, hne, f, c, hret⟩ := h
  obtain ⟨v, vs, m1, f1, c1, _, hret1, hisq, htot, hidx, hitems⟩ := resume_spec w m0 msg hne
  rw [hret1] at hret
  cases hret
  refine ⟨⟨hisq, by omega, by rw [hidx, htot]; simp, ?_⟩, ?_⟩
  · rw [htot, hitems]
    simp [length_buildQueueItems]
  · intro i it hi hge
    rw [hitems] at hi
    cases i with
    | zero => rw [hidx] at hge; omega
    | succ i =>
      simp only [List.getElem?_cons_succ] at hi
      exact status_buildQueueItems _ _ _ it (List.getElem?_mem hi)

theorem reachableQueue_wf {m : Model} (h : ReachableQueue m) :
    QueueState m ∧ LaterPending m.Download := by
  obtain ⟨m0, hstart, hsteps⟩ := h
  induction hsteps with
  | refl =>
    rcases hstart with hs | hr
    · exact started_wf hs
    · exact resumed_wf hr
  | tail _ hstep ih =>
    obtain ⟨w, msg, hmsg, f, c, hret⟩ := hstep
    exact queueEvent_wf ih.1 ih.2 hmsg hret

/-- In a queue state none of the four queue events panics: the accesses
`QueueItems[QueueIndex-1]` before and after the index is advanced are in range. -/
theorem queueEvent_returns (w : World) (m : Model) (msg : Msg) (hq : QueueState m)
    (hmsg : msg.isQueueEvent = true) :
    ∃ (m' : Model) (f : StoreFile) (c : Cmd), Update w m msg = .ret m' f c := by
  obtain ⟨cur, hcur⟩ := hq.current
  have hcur0 := (lt_length_of_indexAt hcur).1
  have adv : ∀ (m0 : Model) (d : DownloadModel) (v : QueueItem),
      d.QueueItems = storeAt m.Download.QueueItems (m.Download.QueueIndex - 1) v →
      d.QueueIndex = m.Download.QueueIndex →
      m.Download.QueueIndex < m.Download.QueueTotal →
      ∃ (m' : Model) (f : StoreFile) (c : Cmd),
        advance w (queueLabel m) m0 d = .ret m' f c := by
    intro m0 d v hitems hidx hlt
    obtain ⟨next, hnext⟩ := hq.next hlt
    have hnext' : indexAt d.QueueItems d.QueueIndex = some next := by
      rw [hitems, hidx, indexAt_storeAt_of_ne _ _ hcur0 (by omega) (by omega)]
      exact hnext
    obtain ⟨m', f, c, hret, _⟩ := advance_spec w (queueLabel m) m0 d next hnext'
    exact ⟨m', f, c, hret⟩
  cases msg with
  | downloadResult r =>
    simp only [Update]
    rw [updateDownloadResult_queue w m r cur hq.1 hcur]
    by_cases hlt : m.Download.QueueIndex < m.Download.QueueTotal
    · rw [if_pos hlt]
      exact adv { m with LoadingType := "" }
        { m.Download with
          QueueItems := storeAt m.Download.QueueItems (m.Download.QueueIndex - 1)
            (applyResult r cur) } (applyResult r cur) rfl rfl hlt
    · rw [if_neg hlt]
      exact ⟨_, _, _, rfl⟩
  | skipCurrentQueueItem =>
    simp only [Update]
    rw [updateSkipCurrentQueueItem_queue w m cur hq.1 hcur]
    by_cases hlt : m.Download.QueueIndex < m.Download.QueueTotal
    · rw [if_pos hlt]
      exact adv m
        { m.Download with
          QueueItems := storeAt m.Download.QueueItems (m.Download.QueueIndex - 1)
            { cur with Status := QueueStatusSkipped }
          QueueError := "" } { cur with Status := QueueStatusSkipped } rfl rfl hlt
    · rw [if_neg hlt]
      exact ⟨_, _, _, rfl⟩
  | retryCurrentQueueItem =>
    simp only [Update]
    obtain ⟨m', c, hret, _⟩ := updateRetryCurrentQueueItem_queue w m cur hq.1 hcur
    exact ⟨m', w.file, c, hret⟩
  | cancelDownload =>
    simp only [Update]
    obtain ⟨m', f, hret, _⟩ := updateCancelDownload_queue w m hq.1 hq.2.1
    exact ⟨m', f, .nil, hret⟩
  | startResumeDownload msg => cases hmsg
  | startQueueConfirmWithFormat msg => cases hmsg
  | startQueueDownload msg => cases hmsg

/-- C30: in every queue state reachable from `StartQueueDownloadMsg` or a queue
`StartResumeDownloadMsg` (one with URLs) by any sequence of `DownloadResultMsg`,
`SkipCurrentQueueItemMsg`, `RetryCurrentQueueItemMsg` and `CancelDownloadMsg`,
`1 <= QueueIndex <= QueueTotal = len(QueueItems)` holds, so the access
`QueueItems[QueueIndex-1]` is in range and `Model.Update` returns, without
panic, on each of the four messages, in every world. -/
theorem C30_queue_index_in_range (m : Model) (h : ReachableQueue m) :
    (1 ≤ m.Download.QueueIndex ∧ m.Download.QueueIndex ≤ m.Download.QueueTotal ∧
        m.Download.QueueTotal = (m.Download.QueueItems.length : Int)) ∧
      (∃ cur, indexAt m.Download.QueueItems (m.Download.QueueIndex - 1) = some cur) ∧
      (∀ (w : World) (msg : Msg), msg.isQueueEvent = true →
        ∃ (m' : Model) (f : StoreFile) (c : Cmd), Update w m msg = .ret m' f c) ∧
      (∀ (w : World) (msg : Msg), msg.isQueueEvent = true →
        ∀ f, Update w m msg ≠ .panic f) := by
  have hq := (reachableQueue_wf h).1
  refine ⟨hq.2, hq.current, fun w msg hmsg => queueEvent_returns w m msg hq hmsg, ?_⟩
  intro w msg hmsg f hp
  obtain ⟨m', f', c, hret⟩ := queueEvent_returns w m msg hq hmsg
  rw [hret] at hp
  cases hp

theorem pendingQueueVideos_buildQueueItems (url : VideoItem → String) (start : Nat)
    (videos : List VideoItem) (hmeta : ∀ v ∈ videos, v.ID ≠ "" ∨ v.VideoTitle ≠ "") :
    pendingQueueVideos (buildQueueItems url start videos) = videos := by
  unfold pendingQueueVideos
  suffices h : ∀ (vs : List VideoItem) (start : Nat) (acc : List VideoItem),
      (∀ v ∈ vs, v.ID ≠ "" ∨ v.VideoTitle ≠ "") →
      (buildQueueItems url start vs).foldl (fun videos it =>
        if it.Status = QueueStatusPending ∨ it.Status = QueueStatusDownloading ∨
            it.Status = QueueStatusError then
          if it.Video.ID ≠ "" ∨ it.Video.VideoTitle ≠ "" then videos ++ [it.Video] else videos
        else videos) acc = acc ++ vs by
    simpa using h videos start [] hmeta
  intro vs
  induction vs with
  | nil => intro start acc _; simp [buildQueueItems]
  | cons v rest ih =>
    intro start acc hm
    have hv := hm v (List.mem_cons_self _ _)
    simp only [buildQueueItems, List.foldl_cons, true_or, if_true, if_pos hv]
    rw [ih (start + 1) (acc ++ [v]) (fun x hx => hm x (List.mem_cons_of_mem _ hx))]
    simp

/-- C29 fails on the code at the queue of the single video `id1`.  The started
queue has the item URL `https://www.youtube.com/watch?v=id1`, and that URL is
the one the recovery entry `queue:Queued downloads` stores.  Resumed from this
entry, the queue has the item URL `id1`, the bare ID of the stored video, and
the download of the first item is requested for `id1`: the case
`StartResumeDownloadMsg` fills `URL` with `v.ID`, where the two cases that start
a queue use `BuildVideoURL(v.ID)`.  Resumed from the same entry without its
videos, the queue has the stored URL. -/
theorem C29_resume_round_trip_failing_input :
    ∃ (m1 : Model) (f1 : StoreFile) (c1 : Cmd) (e : UnfinishedDownload) (m3 : Model)
      (f3 : StoreFile) (req : DownloadRequest) (m4 : Model) (f4 : StoreFile) (c4 : Cmd),
      Update {} {} (.startQueueDownload startOneVideo) = .ret m1 f1 c1 ∧
      GetUnfinishedByURL f1 "queue:Queued downloads" = some e ∧
      e.URLs = ["https://www.youtube.com/watch?v=id1"] ∧
      e.Videos = [makeVideo "id1" "video one"] ∧
      Update {} {} (.startResumeDownload (resumeOf e)) = .ret m3 f3 (.StartDownload req) ∧
      m1.Download.QueueItems.map (fun it => it.URL) =
        ["https://www.youtube.com/watch?v=id1"] ∧
      m3.Download.QueueItems.map (fun it => it.URL) = ["id1"] ∧
      req.URL = "id1" ∧
      Update {} {} (.startResumeDownload (resumeOf { e with Videos := [] })) =
        .ret m4 f4 c4 ∧
      m4.Download.QueueItems.map (fun it => it.URL) =
        ["https://www.youtube.com/watch?v=id1"] :=
  ⟨_, _, _, _, _, _, _, _, _, _, rfl, rfl, by decide, by decide, rfl, by decide, by decide,
    by decide, rfl, by decide⟩

/-- What the code does on the round trip, for every non-empty list of videos each
of which has an ID or a title and every loadable recovery file: the queue
resumed from the entry written at the start has the same number of items and
the same videos, and the URL of each resumed item is the ID of its video, while
the URL of the original item is `BuildVideoURL` of that ID. -/
theorem resume_of_started_queue (w : World) (m : Model) (msg : StartQueueDownloadMsg)
    (ds : List UnfinishedDownload) (hload : LoadUnfinished w.file = .ok ds)
    (hne : msg.Videos ≠ []) (hmeta : ∀ v ∈ msg.Videos, v.ID ≠ "" ∨ v.VideoTitle ≠ "") :
    ∃ (m1 : Model) (f1 : StoreFile) (c1 : Cmd) (e : UnfinishedDownload),
      Update w m (.startQueueDownload msg) = .ret m1 f1 c1 ∧
      GetUnfinishedByURL f1 (QueueUnfinishedKey (queueLabel m)) = some e ∧
      ∀ (w2 : World) (m2 : Model), ∃ (m3 : Model) (f3 : StoreFile) (c3 : Cmd),
        Update w2 m2 (.startResumeDownload (resumeOf e)) = .ret m3 f3 c3 ∧
        m3.Download.QueueItems.length = m1.Download.QueueItems.length ∧
        m3.Download.QueueItems.map (fun it => it.Video) =
          m1.Download.QueueItems.map (fun it => it.Video) ∧
        m3.Download.QueueItems.map (fun it => it.URL) = msg.Videos.map (fun v => v.ID) ∧
        m1.Download.QueueItems.map (fun it => it.URL) =
          m3.Download.QueueItems.map (fun it => BuildVideoURL it.URL) := by
  simp only [Update]
  cases hv : msg.Videos with
  | nil => exact absurd hv hne
  | cons v vs =>
    rw [hv] at hmeta
    obtain ⟨m1, c1, hret, _, _, _, _, _, _, _, _, hitems, _⟩ :=
      startQueue_spec w m v vs msg.FormatID msg.IsAudioTab msg.ABR
    have hurls := pendingQueueURLs_buildQueueItems (fun v => BuildVideoURL v.ID) 0 (v :: vs)
      (fun v => BuildVideoURL_ne_empty v.ID)
    have hvideos := pendingQueueVideos_buildQueueItems (fun v => BuildVideoURL v.ID) 0 (v :: vs)
      hmeta
    have hwrite := updateQueueUnfinished_write w m msg.FormatID ((v :: vs).length : Int)
      (pendingQueueURLs (buildQueueItems (fun v => BuildVideoURL v.ID) 0 (v :: vs)))
      (pendingQueueVideos (buildQueueItems (fun v => BuildVideoURL v.ID) 0 (v :: vs)))
      ds hload (by simp) (by rw [hurls]; simp)
    rw [hurls, hvideos] at hwrite
    rw [hurls, hvideos] at hret
    refine ⟨m1, _, c1, _, hret, hwrite, ?_⟩
    intro w2 m2
    obtain ⟨v', vs', m3, f3, c3, hvs, hret3, _, _, _, hitems3⟩ := resume_spec w2 m2
      (resumeOf
        { URL := QueueUnfinishedKey (queueLabel m), FormatID := msg.FormatID,
          Title := queueLabel m,
          Desc := toString (((v :: vs).length : Nat) : Int) ++ " items left",
          URLs := (v :: vs).map (fun v => BuildVideoURL v.ID), Videos := v :: vs,
          Timestamp := w.now }) (by simp [resumeOf])
    simp only [resumeOf, List.length_cons, Nat.add_one_ne_zero, if_false,
      List.cons.injEq] at hvs
    obtain ⟨rfl, rfl⟩ := hvs
    simp only [Update] at hret3
    refine ⟨m3, f3, c3, hret3, ?_, ?_, ?_, ?_⟩
    · rw [hitems, hitems3]
      simp [length_buildQueueItems]
    · rw [hitems, hitems3]
      simp only [List.map_cons, List.cons.injEq, true_and]
      have hvid : ∀ (url : VideoItem → String) (start : Nat) (l : List VideoItem),
          (buildQueueItems url start l).map (fun it => it.Video) = l := by
        intro url start l
        induction l generalizing start with
        | nil => rfl
        | cons x xs ih => simp [buildQueueItems, ih]
      rw [hvid, hvid]
    · rw [hitems3]
      simp only [List.map_cons, List.cons.injEq, true_and]
      exact map_URL_buildQueueItems _ _ _
    · rw [hitems, hitems3]
      simp only [List.map_cons, List.cons.injEq, true_and]
      rw [map_URL_buildQueueItems]
      have hmap : (buildQueueItems (fun v => v.ID) 1 vs).map (fun it => BuildVideoURL it.URL) =
          ((buildQueueItems (fun v => v.ID) 1 vs).map (fun it => it.URL)).map
            (fun u => BuildVideoURL u) := by
        rw [List.map_map]
        rfl
      rw [hmap, map_URL_buildQueueItems, List.map_map]
      rfl

/-- Witness for C30: the queue resumed from two URLs, after its first item is
complete, is reachable; its index is in range and a failure of the second item
is handled without panic. -/
theorem C30_queue_index_in_range_witness :
    ReachableQueue resumedTwoAdvanced ∧
      (1 ≤ resumedTwoAdvanced.Download.QueueIndex ∧
        resumedTwoAdvanced.Download.QueueIndex ≤ resumedTwoAdvanced.Download.QueueTotal ∧
        resumedTwoAdvanced.Download.QueueTotal =
          (resumedTwoAdvanced.Download.QueueItems.length : Int)) ∧
      ∃ (m' : Model) (f : StoreFile) (c : Cmd),
        Update {} resumedTwoAdvanced (.downloadResult { Err := "boom" }) = .ret m' f c :=
  have hreach : ReachableQueue resumedTwoAdvanced :=
    ⟨resumedTwo,
      Or.inr ⟨{}, {}, { URLs := ["u1", "u2"], FormatID := "best", Title := "q" }, by decide,
        _, _, rfl⟩,
      Relation.ReflTransGen.single
        ⟨{}, .downloadResult { Output := "Download complete" }, rfl, _, _, rfl⟩⟩
  have h := C30_queue_index_in_range resumedTwoAdvanced hreach
  ⟨hreach, h.1, h.2.2.1 {} (.downloadResult { Err := "boom" }) rfl⟩

end Xytz
